import Mathlib

/-!
# MOTION2NX: share reconstruction tool, GMW sharing and Yao conversion

Shallow embedding of

* `Dataprovider/image_provider/Reconstruct.cpp` (namespace `Reconstruct`),
* the GMW gates declared in `src/motioncore/protocols/gmw/gmw_provider.h`
  and the conversion to Yao exercised by `src/test/test_yao_tensor.cpp`
  (namespaces `GMW` and `Yao`),
* the gate drivers of `src/test/test_yao_tensor.cpp` (namespace
  `YaoGMWTensorTest`),
* `src/examples/accuracy_testing/Weights_Share_Receiver.cpp` (namespace
  `WeightsShareReceiver`).

Definitions come first, theorems follow.
-/

set_option autoImplicit false

/-! ## Definitions: `Reconstruct.cpp` -/

namespace Reconstruct

/-- The struct `Shares { bool Delta, delta; }` of `Reconstruct.cpp`. -/
structure Shares where
  Delta : Bool
  delta : Bool
deriving DecidableEq, Repr

/-- The struct `Options { std::string currentpath; std::string index; }`. -/
structure Options where
  currentpath : String
  index : String
deriving DecidableEq, Repr

/-- A `std::ifstream` used only through `operator>>(bool&)`: the integer
tokens (whitespace separated) still to be read, and whether the stream is
still good (no failbit).  A file that could not be opened is a stream that
is not good. -/
structure IFStream where
  tokens : List Int
  good : Bool
deriving DecidableEq, Repr

/-- The files on disk: a path maps to the integer tokens of the file, or to
`none` when no file can be opened at that path. -/
abbrev FileSystem := String → Option (List Int)

/-- The call `file.open(path)` on a fresh `std::ifstream`. -/
def IFStream.open (fs : FileSystem) (path : String) : IFStream :=
  match fs path with
  | some toks => { tokens := toks, good := true }
  | none => { tokens := [], good := false }

/-- The extraction `file >> b` for a `bool` lvalue holding `old`: on a
stream that is not good, or at end of file, nothing is stored; the token 0
stores `false`, the token 1 stores `true`, any other integer stores `true`
and sets the failbit. -/
def IFStream.readBool (s : IFStream) (old : Bool) : IFStream × Bool :=
  if s.good then
    match s.tokens with
    | [] => ({ tokens := [], good := false }, old)
    | t :: rest =>
      if t = 0 then ({ tokens := rest, good := true }, false)
      else if t = 1 then ({ tokens := rest, good := true }, true)
      else ({ tokens := rest, good := false }, true)
  else (s, old)

/-- One statement writing to `std::cout`. -/
inductive Out where
  | fileNotFound (path : String)
  | errorAt (i : Nat)
  | answer (index : String) (i : Nat)
deriving DecidableEq, Repr

/-- The text each output statement prints. -/
def Out.render : Out → String
  | .fileNotFound path => "File " ++ path ++ "not found"
  | .errorAt i => "Error at " ++ toString i ++ " index \n"
  | .answer index i => "Reconstructed answer for X" ++ index ++ ":" ++ toString i ++ "\n"

/-- The value `bool temp = shares_data_0[i].Delta ^ shares_data_0[i].delta ^
shares_data_1[i].delta` computed for one element. -/
def temp (s0 s1 : Shares) : Bool :=
  Bool.xor (Bool.xor s0.Delta s0.delta) s1.delta

/-- The variables of `main` that the `for` loop reads and writes. -/
structure LoopState where
  file1 : IFStream
  file2 : IFStream
  shares_data_0 : Nat → Shares
  shares_data_1 : Nat → Shares
  final_answer : List Bool
  out : List Out

/-- The body of `for (int i = 0; i < 10; i++)` in `main`: four extractions,
the comparison of the two `Delta` values guarding the labelled statement
`std: cout << "Error at " ...`, and `final_answer.push_back(temp)`. -/
def loopBody (st : LoopState) (i : Nat) : LoopState :=
  let r1 := st.file1.readBool (st.shares_data_0 i).Delta
  let r2 := r1.1.readBool (st.shares_data_0 i).delta
  let r3 := st.file2.readBool (st.shares_data_1 i).Delta
  let r4 := r3.1.readBool (st.shares_data_1 i).delta
  let s0 : Shares := { Delta := r1.2, delta := r2.2 }
  let s1 : Shares := { Delta := r3.2, delta := r4.2 }
  let out := if s0.Delta != s1.Delta then st.out ++ [Out.errorAt i] else st.out
  { file1 := r2.1
    file2 := r4.1
    shares_data_0 := Function.update st.shares_data_0 i s0
    shares_data_1 := Function.update st.shares_data_1 i s1
    final_answer := st.final_answer ++ [temp s0 s1]
    out := out }

/-- The loop `for (int i = 0; i < n; i++)`; `main` runs it with `n = 10`. -/
def forLoop (n : Nat) (st : LoopState) : LoopState :=
  (List.range n).foldl loopBody st

/-- How the scan `while (final_answer[i] != 0) i++` ends: at an index whose
bit is zero, or by reading `final_answer[i]` at an index outside the vector
(undefined behaviour in the source), or with the step budget of the
embedding used up. -/
inductive ScanResult where
  | found (i : Nat)
  | outOfRange (i : Nat)
  | outOfFuel
deriving DecidableEq, Repr

/-- The loop `while (final_answer[i] != 0) { i++; }`, started at `i`, run
for at most `fuel` tests of the condition. -/
def scanFrom (final_answer : List Bool) : Nat → Nat → ScanResult
  | 0, _ => .outOfFuel
  | fuel + 1, i =>
    match final_answer[i]? with
    | some b => if b != false then scanFrom final_answer fuel (i + 1) else .found i
    | none => .outOfRange i

/-- The scan of `main`: `int i = 0; while (final_answer[i] != 0) i++;`.
The budget `length + 1` is enough for every vector (see
`scanFrom_ne_outOfFuel`). -/
def answerScan (final_answer : List Bool) : ScanResult :=
  scanFrom final_answer (final_answer.length + 1) 0

/-- The value of `i` when the loop `while (final_answer[i] != 0) { i++; }`
has ended.  A scan that ends inside the vector leaves the index of the
first zero bit.  A scan that reads `final_answer[i]` at an index outside the
vector goes on through the bits stored behind the elements, which are no
part of the vector and are not determined by the program or its input:
`gap` is the number of non-zero bits the run meets there before the first
zero bit.  (A run that meets no zero bit in readable memory is stopped by
the system; the embedding leaves such runs out.  The budget of `answerScan`
is never used up, see `scanFrom_ne_outOfFuel`.) -/
def scanEnd (scan : ScanResult) (gap : Nat) : Nat :=
  match scan with
  | .found i => i
  | .outOfRange i => i + gap
  | .outOfFuel => 0

/-- What a run of `main` leaves behind: both share arrays, the
reconstructed bits, the result of the scan inside the vector, the value of
`i` that line 92 prints, and everything printed. -/
structure Run where
  shares_data_0 : Nat → Shares
  shares_data_1 : Nat → Shares
  final_answer : List Bool
  scan : ScanResult
  i : Nat
  out : List Out

/-- The path `t1 = path + "/server0_shares_X" + options->index`. -/
def t1 (options : Options) : String :=
  options.currentpath ++ "/server0_shares_X" ++ options.index

/-- The path `t2 = path + "/server1_shares_X" + options->index`. -/
def t2 (options : Options) : String :=
  options.currentpath ++ "/server1_shares_X" ++ options.index

/-- The `if / else if` printing `File ... not found`. -/
def notFoundMessages (fs : FileSystem) (options : Options) : List Out :=
  if (fs (t1 options)).isNone then [Out.fileNotFound (t1 options)]
  else if (fs (t2 options)).isNone then [Out.fileNotFound (t2 options)]
  else []

/-- The function `main` of `Reconstruct.cpp` once `parse_program_options`
has returned an `Options` value.  `garbage0` and `garbage1` are the
indeterminate initial contents of the uninitialised arrays
`shares_data_0[10]` and `shares_data_1[10]`, and `gap` is the number of
non-zero bits that lie behind the ten elements of `final_answer` (see
`scanEnd`).  The last statement prints `i` whatever the scan read. -/
def main (fs : FileSystem) (options : Options) (garbage0 garbage1 : Nat → Shares)
    (gap : Nat) : Run :=
  let st := forLoop 10
    { file1 := IFStream.open fs (t1 options)
      file2 := IFStream.open fs (t2 options)
      shares_data_0 := garbage0
      shares_data_1 := garbage1
      final_answer := []
      out := notFoundMessages fs options }
  let scan := answerScan st.final_answer
  { shares_data_0 := st.shares_data_0
    shares_data_1 := st.shares_data_1
    final_answer := st.final_answer
    scan := scan
    i := scanEnd scan gap
    out := st.out ++ [Out.answer options.index (scanEnd scan gap)] }

/-- The token a `bool` is written as in a share file. -/
def boolToken (b : Bool) : Int := if b then 1 else 0

/-- The tokens of a share file holding the given `(Delta, delta)` pairs,
one pair per line. -/
def shareTokens : List Shares → List Int
  | [] => []
  | s :: rest => boolToken s.Delta :: boolToken s.delta :: shareTokens rest

/-- The indices `i` below `n` at which the two arrays hold different
`Delta` values, in increasing order. -/
def mismatches (a0 a1 : Nat → Shares) (n : Nat) : List Nat :=
  (List.range n).filter (fun i => (a0 i).Delta != (a1 i).Delta)

/-- The indices printed by `Error at i index` statements, in print order. -/
def reportedErrors : List Out → List Nat
  | [] => []
  | .errorAt i :: rest => i :: reportedErrors rest
  | _ :: rest => reportedErrors rest

/-- Example data: server0's file for index 3, sharing the bits
`1 1 0 1 1 1 1 1 1 1`. -/
def demoShares0 : List Shares :=
  [⟨false, false⟩, ⟨true, true⟩, ⟨false, false⟩, ⟨false, true⟩, ⟨true, true⟩,
   ⟨true, false⟩, ⟨false, false⟩, ⟨true, true⟩, ⟨true, false⟩, ⟨false, true⟩]

/-- Example data: server1's file for the same value, its `Delta` corrupted
at index 3 and nowhere else. -/
def demoShares1 : List Shares :=
  [⟨false, true⟩, ⟨true, true⟩, ⟨false, false⟩, ⟨true, false⟩, ⟨true, true⟩,
   ⟨true, false⟩, ⟨false, true⟩, ⟨true, true⟩, ⟨true, false⟩, ⟨false, false⟩]

/-- Example options: `--current-path /tmp --index 3`. -/
def demoOptions : Options := { currentpath := "/tmp", index := "3" }

/-- Example file system holding the two example share files. -/
def demoFs : FileSystem := fun p =>
  if p = "/tmp/server0_shares_X3" then some (shareTokens demoShares0)
  else if p = "/tmp/server1_shares_X3" then some (shareTokens demoShares1)
  else none

/-- Example initial contents of the uninitialised arrays. -/
def demoGarbage : Nat → Shares := fun _ => { Delta := true, delta := false }

/-- Example file system in which every element reconstructs to 1 and the
two files disagree on `Delta` at index 0. -/
def allOnesFs : FileSystem := fun p =>
  if p = "/tmp/server0_shares_X3" then
    some (shareTokens (List.replicate 10 { Delta := true, delta := false }))
  else if p = "/tmp/server1_shares_X3" then
    some (shareTokens ({ Delta := false, delta := false } ::
      List.replicate 9 { Delta := true, delta := false }))
  else none

/-- Example data: server1's file of `demoShares1` before its `Delta` at
index 3 was corrupted. -/
def cleanShares1 : List Shares :=
  [⟨false, true⟩, ⟨true, true⟩, ⟨false, false⟩, ⟨false, false⟩, ⟨true, true⟩,
   ⟨true, false⟩, ⟨false, true⟩, ⟨true, true⟩, ⟨true, false⟩, ⟨false, false⟩]

/-- Example file system: server0's example file next to the uncorrupted
file of server1. -/
def cleanFs : FileSystem := fun p =>
  if p = "/tmp/server0_shares_X3" then some (shareTokens demoShares0)
  else if p = "/tmp/server1_shares_X3" then some (shareTokens cleanShares1)
  else none

end Reconstruct

/-! ## Definitions: the GMW provider (`gmw_provider.h`)

`gmw_provider.h` declares the gate factories; their bodies are not among the
sources, so the gates are modelled from the specification. -/

namespace GMW

/-- The integer widths of the arithmetic gates declared in
`gmw_provider.h`: `make_arithmetic_8_input_gate_my`, `..._16_...`,
`..._32_...`, `..._64_...`. -/
inductive BitWidth where
  | w8
  | w16
  | w32
  | w64
deriving DecidableEq, Repr

/-- The number of bits of a width. -/
def BitWidth.bits : BitWidth → Nat
  | .w8 => 8
  | .w16 => 16
  | .w32 => 32
  | .w64 => 64

/-- The wraparound modulus `2^k` of a width. -/
def BitWidth.modulus (k : BitWidth) : Nat := 2 ^ k.bits

/-- Addition of `k`-bit unsigned integers, wrapping at `2^k`. -/
def wadd (k : BitWidth) (a b : Nat) : Nat := (a + b) % k.modulus

/-- Subtraction of `k`-bit unsigned integers, wrapping at `2^k`. -/
def wsub (k : BitWidth) (a b : Nat) : Nat :=
  (a % k.modulus + (k.modulus - b % k.modulus)) % k.modulus

/-- Multiplication of `k`-bit unsigned integers, wrapping at `2^k`. -/
def wmul (k : BitWidth) (a b : Nat) : Nat := (a * b) % k.modulus

/-- Modelled from the spec: the boolean Share of section 3, one party's
pair of a public mask `Delta` and a private mask `delta` (the wire classes
are not among the sources). -/
structure BooleanShare where
  Delta : Bool
  delta : Bool
deriving DecidableEq, Repr

/-- Modelled from the spec: the arithmetic Share of section 3, one party's
pair of a public mask `Delta` and a private mask `delta`, both `k`-bit
integers (the wire classes are not among the sources). -/
structure ArithmeticShare where
  Delta : Nat
  delta : Nat
deriving DecidableEq, Repr

/-- Modelled from the spec: the body of `make_boolean_output_gate_my`
(declared in `gmw_provider.h`, not defined in the sources).  Section 3:
combining one party's `(Delta, delta0)` with the peer's `delta1`
reconstructs `v = Delta xor delta0 xor delta1`. -/
def make_boolean_output_gate_my (mine : BooleanShare) (peer_delta : Bool) : Bool :=
  Bool.xor (Bool.xor mine.Delta mine.delta) peer_delta

/-- Modelled from the spec: the body of `make_boolean_input_gate_my`
(declared in `gmw_provider.h`, not defined in the sources).  Section 4.3:
the owner samples a private mask `delta`, sends `Delta = v xor delta`, and
its own wire holds `(Delta, delta)`. -/
def make_boolean_input_gate_my (v delta : Bool) : BooleanShare :=
  { Delta := Bool.xor v delta, delta := delta }

/-- Modelled from the spec: the body of `make_boolean_input_gate_other`
(declared in `gmw_provider.h`, not defined in the sources).  Section 4.3:
the peer's wire holds `(Delta, 0)` for the received `Delta`. -/
def make_boolean_input_gate_other (Delta : Bool) : BooleanShare :=
  { Delta := Delta, delta := false }

/-- Modelled from the spec: the body of `basic_make_arithmetic_input_gate_my`
(declared in `gmw_provider.h`, not defined in the sources).  Section 4.3:
the owner samples a private mask, sends the public mask, and its own wire
holds the public and the private mask.  Section 3 fixes how the masks
combine, `v = Delta - delta0 - delta1 mod 2^k` ("sign conventions fixed per
protocol"), so for the private mask `delta` that the wire holds the public
mask is `Delta = v + delta mod 2^k`: the `v - delta` of section 4.3 with the
sampled mask written with the opposite sign.  Only with this sign do the
wires `(Delta, delta)` and `(Delta, 0)` reconstruct `v`, as the test
`ConversionBoth` (`input == output`) requires. -/
def basic_make_arithmetic_input_gate_my (k : BitWidth) (v delta : Nat) : ArithmeticShare :=
  { Delta := wadd k v delta, delta := delta % k.modulus }

/-- Modelled from the spec: the body of
`basic_make_arithmetic_input_gate_other` (declared in `gmw_provider.h`, not
defined in the sources).  Section 4.3: the peer's wire holds `(Delta, 0)`
for the received `Delta`. -/
def basic_make_arithmetic_input_gate_other (k : BitWidth) (Delta : Nat) : ArithmeticShare :=
  { Delta := Delta % k.modulus, delta := 0 }

/-- Modelled from the spec: the body of
`basic_make_arithmetic_output_gate_my` (declared in `gmw_provider.h`, not
defined in the sources).  Section 3: `v = Delta - delta0 - delta1 mod 2^k`,
from the own share and the private mask received from the peer. -/
def basic_make_arithmetic_output_gate_my (k : BitWidth) (mine : ArithmeticShare)
    (peer_delta : Nat) : Nat :=
  wsub k (wsub k mine.Delta mine.delta) peer_delta

/-- Modelled from the spec: the body of `make_xor_gate` (declared in
`gmw_provider.h`, not defined in the sources).  Section 4.3:
`Delta_out = Delta_a xor Delta_b`, `delta_out = delta_a xor delta_b`,
computed from the party's own two input shares. -/
def make_xor_gate (in_a in_b : BooleanShare) : BooleanShare :=
  { Delta := Bool.xor in_a.Delta in_b.Delta, delta := Bool.xor in_a.delta in_b.delta }

/-- Modelled from the spec: the body of `make_add_gate` (declared in
`gmw_provider.h`, not defined in the sources).  Section 4.3: the modular
sum of the masks, component by component. -/
def make_add_gate (k : BitWidth) (in_a in_b : ArithmeticShare) : ArithmeticShare :=
  { Delta := wadd k in_a.Delta in_b.Delta, delta := wadd k in_a.delta in_b.delta }

/-- Modelled from the spec: one party's share of a boolean multiplication
triple `(a, b, c)` of section 4.3, XOR-shared between the two parties (the
triple provider is an external collaborator). -/
structure BooleanTriple where
  a : Bool
  b : Bool
  c : Bool
deriving DecidableEq, Repr

/-- Modelled from the spec: one party's share of an arithmetic
multiplication triple `(a, b, c)` of section 4.3, additively shared between
the two parties (the triple provider is an external collaborator). -/
structure ArithmeticTriple where
  a : Nat
  b : Nat
  c : Nat
deriving DecidableEq, Repr

/-- Modelled from the spec: the masked terms one party sends in the online
phase of `make_and_gate` (section 4.3, `e = x xor a`, `d = y xor b`,
exchanged): its private masks of `x` and `y` hidden by its shares of `a` and
`b`. -/
def and_gate_message (x y : BooleanShare) (t : BooleanTriple) : Bool × Bool :=
  (Bool.xor x.delta t.a, Bool.xor y.delta t.b)

/-- Modelled from the spec: the value `e = x xor a` (or `d = y xor b`) both
parties obtain from the public mask and the two exchanged terms. -/
def and_gate_opened (Delta mine peer : Bool) : Bool :=
  Bool.xor (Bool.xor Delta mine) peer

/-- Modelled from the spec: the body of `make_and_gate` (declared in
`gmw_provider.h`, not defined in the sources).  Section 4.3: the output
mask combines `c`, `e·b`, `d·a` and the exchanged terms by Beaver's formula
`x·y = e·d xor e·b xor d·a xor c`; the public part `e·d` is the output's
public mask, the party's shares of the rest its private mask. -/
def make_and_gate (x y : BooleanShare) (t : BooleanTriple) (peer : Bool × Bool) :
    BooleanShare :=
  let e := and_gate_opened x.Delta (and_gate_message x y t).1 peer.1
  let d := and_gate_opened y.Delta (and_gate_message x y t).2 peer.2
  { Delta := e && d, delta := Bool.xor (Bool.xor t.c (e && t.b)) (d && t.a) }

/-- Modelled from the spec: the masked terms one party sends in the online
phase of `make_mul_gate`: its shares of `e = x - a` and `d = y - b`, that
is `-(delta_x + a)` and `-(delta_y + b)` modulo `2^k`. -/
def mul_gate_message (k : BitWidth) (x y : ArithmeticShare) (t : ArithmeticTriple) :
    Nat × Nat :=
  (wsub k 0 (wadd k x.delta t.a), wsub k 0 (wadd k y.delta t.b))

/-- Modelled from the spec: the value `e = x - a` (or `d = y - b`) both
parties obtain from the public mask and the two exchanged terms. -/
def mul_gate_opened (k : BitWidth) (Delta mine peer : Nat) : Nat :=
  wadd k (wadd k Delta mine) peer

/-- Modelled from the spec: the body of `make_mul_gate` (declared in
`gmw_provider.h`, not defined in the sources).  Section 4.3: the output
mask combines `c`, `e·b`, `d·a` and the exchanged terms by Beaver's formula
`x·y = e·d + e·b + d·a + c mod 2^k`; the public part `e·d` is the output's
public mask, the party's shares of the rest, negated, its private mask. -/
def make_mul_gate (k : BitWidth) (x y : ArithmeticShare) (t : ArithmeticTriple)
    (peer : Nat × Nat) : ArithmeticShare :=
  let e := mul_gate_opened k x.Delta (mul_gate_message k x y t).1 peer.1
  let d := mul_gate_opened k y.Delta (mul_gate_message k x y t).2 peer.2
  { Delta := wmul k e d
    delta := wsub k 0 (wadd k (wadd k t.c (wmul k e t.b)) (wmul k d t.a)) }

end GMW

/-! ## Definitions: the conversion to Yao (`test_yao_tensor.cpp`)

The test calls the tensor input gates of the GMW provider and
`make_convert_from_arithmetic_gmw_tensor` of the Yao provider; their bodies
are not among the sources, so they are modelled from the specification
(sections 3, 4.3, 4.4 and 4.5), with the key layout the test reads. -/

namespace Yao

open GMW

/-- The constant `ENCRYPTO::bit_size_v<std::uint64_t>` of the test. -/
def bit_size : Nat := 64

/-- Modelled from the spec: the garbler's global offset `R` of section 3, a
key block fixed once per session.  Point-and-permute (section 4.4) gives
the two keys of a wire different colour bits, so the colour bit of `R` is
1. -/
structure GlobalOffset where
  value : Nat
  colour : value % 2 = 1

/-- Modelled from the spec: the two keys of a wire (section 3, free-XOR
invariant `k1 = k0 xor R`): the zero key stands for the bit 0, the zero key
XOR `R` for the bit 1. -/
def wire_key (R : GlobalOffset) (zero_key : Nat) (bit : Bool) : Nat :=
  if bit then zero_key ^^^ R.value else zero_key

/-- Modelled from the spec: one oblivious transfer (glossary; the OT
provider is an external collaborator): of the sender's two messages the
receiver obtains the one its choice bit selects. -/
def oblivious_transfer (m0 m1 : Nat) (choice : Bool) : Nat :=
  if choice then m1 else m0

/-- Modelled from the spec: the body of
`GMWProvider::make_arithmetic_64_tensor_input_my` (declared in
`gmw_provider.h`, not defined in the sources): the arithmetic input gate of
section 4.3 for every element of the tensor, element `int_i` with the
owner's private mask `mask int_i`. -/
def make_arithmetic_64_tensor_input_my (input : List Nat) (mask : Nat → Nat) :
    List ArithmeticShare :=
  (List.range input.length).map (fun int_i =>
    basic_make_arithmetic_input_gate_my BitWidth.w64 (input.getD int_i 0) (mask int_i))

/-- Modelled from the spec: the body of
`GMWProvider::make_arithmetic_64_tensor_input_other` (declared in
`gmw_provider.h`, not defined in the sources): the peer's wires for the
public masks received from the owner. -/
def make_arithmetic_64_tensor_input_other (received : List Nat) : List ArithmeticShare :=
  received.map (fun Delta => basic_make_arithmetic_input_gate_other BitWidth.w64 Delta)

/-- Modelled from the spec: the two parties' boolean GMW wires of one bit
(section 3): party 0, the garbler of the test, holds `(Delta, delta0)` and
party 1, the evaluator, holds `(Delta, delta1)`. -/
structure SharedBit where
  garbler : BooleanShare
  evaluator : BooleanShare
deriving DecidableEq, Repr

/-- The bit a pair of wires shares, `Delta xor delta0 xor delta1`: what the
boolean output gate reconstructs from them. -/
def SharedBit.value (w : SharedBit) : Bool :=
  make_boolean_output_gate_my w.garbler w.evaluator.delta

/-- Modelled from the spec: the wires after party 0 put in `bit` through
the boolean input gate of section 4.3 with its private mask `mask`. -/
def input_garbler (bit mask : Bool) : SharedBit :=
  { garbler := make_boolean_input_gate_my bit mask
    evaluator := make_boolean_input_gate_other (make_boolean_input_gate_my bit mask).Delta }

/-- Modelled from the spec: the wires after party 1 put in `bit` through
the boolean input gate of section 4.3 with its private mask `mask`. -/
def input_evaluator (bit mask : Bool) : SharedBit :=
  { garbler := make_boolean_input_gate_other (make_boolean_input_gate_my bit mask).Delta
    evaluator := make_boolean_input_gate_my bit mask }

/-- Both parties hold the same public mask. -/
def SharedBit.agree (w : SharedBit) : Prop :=
  w.garbler.Delta = w.evaluator.Delta

/-- Modelled from the spec: the XOR gate of section 4.3, evaluated by each
party on its own wires. -/
def xor_shared (a b : SharedBit) : SharedBit :=
  { garbler := make_xor_gate a.garbler b.garbler
    evaluator := make_xor_gate a.evaluator b.evaluator }

/-- Modelled from the spec: the AND gate of section 4.3, evaluated by both
parties: each uses its share of the triple and the masked terms the other
sent. -/
def and_shared (a b : SharedBit) (t : BooleanTriple × BooleanTriple) : SharedBit :=
  { garbler := make_and_gate a.garbler b.garbler t.1
      (and_gate_message a.evaluator b.evaluator t.2)
    evaluator := make_and_gate a.evaluator b.evaluator t.2
      (and_gate_message a.garbler b.garbler t.1) }

/-- Modelled from the spec: the wires of the constant bit 0, the carry into
the lowest position of the addition: all masks are zero. -/
def zero_shared : SharedBit :=
  { garbler := { Delta := false, delta := false }
    evaluator := { Delta := false, delta := false } }

/-- Modelled from the spec: one position of the ripple-carry addition of
section 4.5, on shared bits: the sum bit `a xor b xor c` and the carry
`c xor ((a xor c) and (b xor c))`, with one AND gate and so one triple. -/
def full_adder (a b c : SharedBit) (t : BooleanTriple × BooleanTriple) :
    SharedBit × SharedBit :=
  (xor_shared (xor_shared a b) c,
   xor_shared c (and_shared (xor_shared a c) (xor_shared b c) t))

/-- Modelled from the spec: the ripple-carry addition of section 4.5 on two
numbers given as shared bits, least significant bit first; position `n`
uses the triple `triples n`, and the carry out of the last position is
dropped. -/
def ripple_carry (triples : Nat → BooleanTriple × BooleanTriple) :
    Nat → List SharedBit → List SharedBit → SharedBit → List SharedBit
  | _, [], _, _ => []
  | _, _ :: _, [], _ => []
  | n, a :: as, b :: bs, c =>
    (full_adder a b c (triples n)).1 ::
      ripple_carry triples (n + 1) as bs (full_adder a b c (triples n)).2

/-- Modelled from the spec: the number party 0 adds in the ripple-carry
addition "over the two parties' arithmetic shares" (section 4.5): its part
`Delta - delta0 mod 2^64` of `v = Delta - delta0 - delta1` (section 3). -/
def summand_garbler (s : ArithmeticShare) : Nat :=
  wsub BitWidth.w64 s.Delta s.delta

/-- Modelled from the spec: the number party 1 adds, its part
`0 - delta1 mod 2^64` of `v = Delta - delta0 - delta1`. -/
def summand_evaluator (s : ArithmeticShare) : Nat :=
  wsub BitWidth.w64 0 s.delta

/-- Modelled from the spec: the conversion of one element from arithmetic
GMW to boolean GMW (section 4.5): each party puts the 64 bits of its
summand into boolean input gates, with its private masks `masks_0 bit_j` and
`masks_1 bit_j`, and the two numbers are added by the ripple-carry circuit.
The result is the 64 shared bits of the element, least significant first. -/
def convert_to_boolean (masks_0 masks_1 : Nat → Bool)
    (triples : Nat → BooleanTriple × BooleanTriple) (s0 s1 : ArithmeticShare) :
    List SharedBit :=
  ripple_carry triples 0
    ((List.range bit_size).map (fun bit_j =>
      input_garbler ((summand_garbler s0).testBit bit_j) (masks_0 bit_j)))
    ((List.range bit_size).map (fun bit_j =>
      input_evaluator ((summand_evaluator s1).testBit bit_j) (masks_1 bit_j)))
    zero_shared

/-- Modelled from the spec: re-keying one shared bit into garbled-key form
by one oblivious transfer (section 4.5).  The garbler knows `Delta` and its
own `delta0`; the bit of the wire is `Delta xor delta0` if the evaluator's
mask is 0 and the opposite if it is 1, so the garbler offers the keys of
these two bits and the evaluator chooses with its mask `delta1`.  The result
is the key the evaluator obtains. -/
def rekey (R : GlobalOffset) (zero_key : Nat) (w : SharedBit) : Nat :=
  oblivious_transfer
    (wire_key R zero_key (Bool.xor w.garbler.Delta w.garbler.delta))
    (wire_key R zero_key (!(Bool.xor w.garbler.Delta w.garbler.delta)))
    w.evaluator.delta

/-- Modelled from the spec: the body of
`YaoProvider::make_convert_from_arithmetic_gmw_tensor` (`yao_provider` is
not among the sources), as one function of both parties' tensors: every
element is converted to boolean GMW by the ripple-carry addition and every
shared bit is re-keyed by one oblivious transfer (section 4.5), under one
fresh zero key `fresh idx` per bit.  Keys are laid out as the test reads
them: bit `bit_j` of element `int_i` at index `bit_j * data_size + int_i`.
`masks_0 int_i`, `masks_1 int_i` and `triples int_i` are the private bit
masks and the triples used for element `int_i`.  The result is the pair of
the garbler's `get_keys()` and the evaluator's `get_keys()`. -/
def make_convert_from_arithmetic_gmw_tensor (R : GlobalOffset) (fresh : Nat → Nat)
    (masks_0 masks_1 : Nat → Nat → Bool)
    (triples : Nat → Nat → BooleanTriple × BooleanTriple)
    (tensor_in_0 tensor_in_1 : List ArithmeticShare) : List Nat × List Nat :=
  let data_size := tensor_in_0.length
  ((List.range (data_size * bit_size)).map fresh,
   (List.range (data_size * bit_size)).map (fun idx =>
      rekey R (fresh idx)
        ((convert_to_boolean (masks_0 (idx % data_size)) (masks_1 (idx % data_size))
          (triples (idx % data_size))
          (tensor_in_0.getD (idx % data_size) { Delta := 0, delta := 0 })
          (tensor_in_1.getD (idx % data_size) { Delta := 0, delta := 0 })).getD
          (idx / data_size) zero_shared)))

/-- The gates of the test `ConversionToYao` (lines 226 to 235): party 0
puts `input` into its tensor input gate, party 1 builds the peer's tensor
from the public masks it receives, and both convert their tensors to Yao.
The result is the pair `zero_keys`, `evaluator_keys` the test reads. -/
def ConversionToYao (R : GlobalOffset) (fresh mask : Nat → Nat)
    (masks_0 masks_1 : Nat → Nat → Bool)
    (triples : Nat → Nat → BooleanTriple × BooleanTriple) (input : List Nat) :
    List Nat × List Nat :=
  let tensor_in_0 := make_arithmetic_64_tensor_input_my input mask
  let tensor_in_1 := make_arithmetic_64_tensor_input_other (tensor_in_0.map (fun s => s.Delta))
  make_convert_from_arithmetic_gmw_tensor R fresh masks_0 masks_1 triples tensor_in_0
    tensor_in_1

/-- The unsigned integer with the given bits, least significant first. -/
def bits_to_value : List Bool → Nat
  | [] => 0
  | b :: rest => b.toNat + 2 * bits_to_value rest

/-- The sum bits of the ripple-carry addition on plain bits, least
significant first. -/
def add_bits : List Bool → List Bool → Bool → List Bool
  | [], _, _ => []
  | _ :: _, [], _ => []
  | a :: as, b :: bs, c =>
    Bool.xor (Bool.xor a b) c ::
      add_bits as bs (Bool.xor c (Bool.xor a c && Bool.xor b c))

/-- A triple `(a, b, c)` shared between the two parties is valid when
`c = a and b` for the shared values. -/
def valid_triple (t : BooleanTriple × BooleanTriple) : Prop :=
  Bool.xor t.1.c t.2.c = (Bool.xor t.1.a t.2.a && Bool.xor t.1.b t.2.b)

/-- Example data: two 64-bit values. -/
def demoInput : List Nat := [5, 18446744073709551615]

/-- Example data: a global offset. -/
def demoOffset : GlobalOffset := { value := 0xdeadbeef, colour := by decide }

/-- Example data: the zero keys and arithmetic masks drawn in the example. -/
def demoFresh : Nat → Nat := fun idx => 1000 * idx + 7

/-- Example data: private bit masks. -/
def demoBitMasks : Nat → Nat → Bool := fun int_i bit_j => (int_i + bit_j) % 3 = 0

/-- Example data: shares of the triple `1 and 1 = 1` for every AND gate. -/
def demoTriples : Nat → Nat → BooleanTriple × BooleanTriple := fun _ _ =>
  ({ a := true, b := false, c := true }, { a := false, b := true, c := false })

end Yao

/-! ## Definitions: the gate drivers of `test_yao_tensor.cpp` -/

namespace YaoGMWTensorTest

/-- A gate of a `GateRegister` as far as the drivers look at it: an
identifier and the answers of `need_setup()` and `need_online()` (the class
`NewGate` is not among the sources). -/
structure NewGate where
  gate_id : Nat
  need_setup : Bool
  need_online : Bool
deriving DecidableEq, Repr

/-- A call a driver makes on the gate at a position of the register. -/
inductive Call where
  | evaluate_setup (position : Nat)
  | evaluate_online (position : Nat)
deriving DecidableEq, Repr

/-- The loop `for (auto& gate : gates) { if (gate->need_setup())
gate->evaluate_setup(); }` of `run_gates_setup`, from the gate at
`position` on; the result lists the calls made, in order. -/
def setup_loop : List NewGate → Nat → List Call
  | [], _ => []
  | gate :: rest, position =>
    if gate.need_setup then Call.evaluate_setup position :: setup_loop rest (position + 1)
    else setup_loop rest (position + 1)

/-- The loop `for (auto& gate : gates) { if (gate->need_online())
gate->evaluate_online(); }` of `run_gates_online`. -/
def online_loop : List NewGate → Nat → List Call
  | [], _ => []
  | gate :: rest, position =>
    if gate.need_online then Call.evaluate_online position :: online_loop rest (position + 1)
    else online_loop rest (position + 1)

/-- The driver `run_gates_setup`: one task per party, each running the loop
over its own register (`gates_g` of the garbler, `gates_e` of the
evaluator); the result is the calls of each task. -/
def run_gates_setup (gates_g gates_e : List NewGate) : List Call × List Call :=
  (setup_loop gates_g 0, setup_loop gates_e 0)

/-- The driver `run_gates_online`. -/
def run_gates_online (gates_g gates_e : List NewGate) : List Call × List Call :=
  (online_loop gates_g 0, online_loop gates_e 0)

/-- Whether the register holds a gate at `position` whose flag is true. -/
def flag_at (gates : List NewGate) (flag : NewGate → Bool) (position : Nat) : Bool :=
  match gates[position]? with
  | some gate => flag gate
  | none => false

/-- The positions of a register whose gate has the flag, in register
order. -/
def flagged (gates : List NewGate) (flag : NewGate → Bool) : List Nat :=
  (List.range gates.length).filter (flag_at gates flag)

/-- Example data: a register of four gates. -/
def demoRegister : List NewGate :=
  [⟨0, true, true⟩, ⟨1, false, true⟩, ⟨2, true, false⟩, ⟨3, false, false⟩]

end YaoGMWTensorTest

/-! ## Definitions: `Reconstruct.cpp`, option parsing and the reads of the scan -/

namespace Reconstruct

/-- What `po::parse_command_line` stored in `vm` for the three options of
the tool: whether `--help` was given, and the values of `--current-path`
and `--index` when given. -/
structure CommandLine where
  help : Bool
  current_path : Option String
  index : Option String
deriving DecidableEq, Repr

/-- How a call of `parse_program_options` ends: it returns a
`std::optional<Options>`, or `vm[...].as<std::string>()` throws
`boost::bad_any_cast` for an option that has no value (`po::notify` is never
called, so `required()` is not enforced). -/
inductive Parsed where
  | returned (options : Option Options)
  | bad_any_cast
deriving DecidableEq, Repr

/-- The function `parse_program_options` of `Reconstruct.cpp`, from the
parsed command line on. -/
def parse_program_options (cl : CommandLine) : Parsed :=
  if cl.help then Parsed.returned none
  else
    match cl.current_path, cl.index with
    | some currentpath, some index =>
      Parsed.returned (some { currentpath := currentpath, index := index })
    | _, _ => Parsed.bad_any_cast

/-- How the process ends: `main` returns with an exit code after printing
`out`, or it reaches a step whose behaviour C++ leaves undefined, or an
exception nothing catches ends it through `std::terminate`. -/
inductive Process where
  | exited (code : Nat) (out : List Out)
  | undefined_behaviour
  | terminated
deriving DecidableEq, Repr

/-- The function `main` of `Reconstruct.cpp` from the parsed command line
on.  `options->currentpath` is evaluated without a test of
`options.has_value()`: on an empty optional that is undefined behaviour.
`main` has no `return`, so it ends with exit code 0. -/
def main_process (fs : FileSystem) (cl : CommandLine) (garbage0 garbage1 : Nat → Shares)
    (gap : Nat) : Process :=
  match parse_program_options cl with
  | Parsed.bad_any_cast => Process.terminated
  | Parsed.returned none => Process.undefined_behaviour
  | Parsed.returned (some options) =>
    Process.exited 0 (main fs options garbage0 garbage1 gap).out

/-- The indices at which the loop `while (final_answer[i] != 0) { i++; }`
evaluates `final_answer[i]`, in order, for the scan started at `i` with the
given budget. -/
def scanReads (final_answer : List Bool) : Nat → Nat → List Nat
  | 0, _ => []
  | fuel + 1, i =>
    match final_answer[i]? with
    | some b => if b != false then i :: scanReads final_answer fuel (i + 1) else [i]
    | none => [i]

/-- The indices the scan of `main` reads. -/
def answerScanReads (final_answer : List Bool) : List Nat :=
  scanReads final_answer (final_answer.length + 1) 0

/-- Example file system: server0's file is missing, and server1's file
holds `Delta = 1`, `delta = 0` ten times. -/
def missingFs : FileSystem := fun p =>
  if p = "/tmp/server1_shares_X3" then
    some (shareTokens (List.replicate 10 { Delta := true, delta := false }))
  else none

end Reconstruct

/-! ## Definitions: `Weights_Share_Receiver.cpp` -/

namespace WeightsShareReceiver

/-- The struct `COMPUTE_SERVER::Shares { uint64_t Delta, delta; }` of
`compute_server.h`. -/
structure Shares where
  Delta : Nat
  delta : Nat
deriving DecidableEq, Repr

/-- The struct `Matrix` of `Weights_Share_Receiver.cpp`. -/
structure Matrix where
  Delta : List Nat
  delta : List Nat
  row : Int
  col : Int
deriving DecidableEq, Repr

/-- The struct `Options` of `Weights_Share_Receiver.cpp`; the arrays
`Matrix weights[2]` and `Matrix biases[2]` are pairs. -/
structure Options where
  threads : Nat
  json : Bool
  num_simd : Nat
  sync_between_setup_and_online : Bool
  weights : Matrix × Matrix
  biases : Matrix × Matrix
  my_id : Nat
  no_run : Bool
  filenames : String
  data : List String
  actual_answer : Int
  filepaths : List String
  currentpath : String
deriving DecidableEq, Repr

/-- What one call of `COMPUTE_SERVER::get_provider_mat_mul_data` returns, a
`std::pair<std::size_t, std::pair<std::vector<Shares>, std::vector<int>>>`
(the function is declared in `compute_server.h`, its body is not among the
sources). -/
structure Received where
  first : Nat
  shares : List Shares
  dims : List Int
deriving DecidableEq, Repr

/-- What `po::store` put into a `po::variables_map` for the options the tool
declares: the value of each option that was given.  (A command line that
`po::parse_command_line` rejects makes it throw before any of this; the
embedding starts after it has succeeded.) -/
structure CommandLine where
  help : Bool
  config_file : Option String
  my_id : Option Nat
  threads : Option Nat
  json : Bool
  num_simd : Option Nat
  file_names : Option String
  current_path : Option String
  sync_between_setup_and_online : Bool
  no_run : Bool
deriving DecidableEq, Repr

/-- Everything outside the program that a run depends on: whether it was
compiled with `NDEBUG` (which removes `assert`), the text of each readable
file, the options `po::parse_config_file` finds in a file, what the provider
sends on each port at each call, and the `std::runtime_error` message the
constructor of `MOTION::Logger` throws, if it throws. -/
structure World where
  ndebug : Bool
  files : String → Option String
  config_files : String → CommandLine
  provider : Nat → Nat → Received
  logger_error : Option String

/-- One action of the program on the outside: text sent to `std::cout` or
`std::cerr`, a `std::ifstream` opened on a path, `po::parse_config_file` run
on a path, `std::filesystem::create_directories`, a `std::ofstream` opened
on a path with `std::ios_base::out` together with the text sent to it until
it is closed, and a call of `get_provider_mat_mul_data`. -/
inductive Effect where
  | cout (text : String)
  | cerr (text : String)
  | open_read (path : String)
  | parse_config_file (path : String)
  | create_directories (path : String)
  | write_file (path : String) (content : String)
  | get_provider_mat_mul_data (port_number : Nat)
deriving DecidableEq, Repr

/-- How a function ends: it returns a value, or `assert` ends the process,
or it reaches an access outside a vector or an array, whose behaviour C++
leaves undefined. -/
inductive Outcome (α : Type) where
  | returned (value : α)
  | aborted
  | undefined_behaviour
deriving DecidableEq, Repr

/-- A run of a function: what it did to the outside, in order, and how it
ended. -/
structure Step (α : Type) where
  trace : List Effect
  outcome : Outcome α
deriving DecidableEq, Repr

/-- Sequencing: the second part runs when the first returned. -/
def Step.bind {α β : Type} (s : Step α) (f : α → Step β) : Step β :=
  match s.outcome with
  | Outcome.returned a => { trace := s.trace ++ (f a).trace, outcome := (f a).outcome }
  | Outcome.aborted => { trace := s.trace, outcome := Outcome.aborted }
  | Outcome.undefined_behaviour => { trace := s.trace, outcome := Outcome.undefined_behaviour }

/-- The call `std::getline(stream, token, delim)` on the characters left in
the stream: the characters up to the next `delim` (which is removed) or up
to the end; at the end of the stream nothing is extracted and the call
fails. -/
def getline (delim : Char) : List Char → Option (List Char × List Char)
  | [] => none
  | c :: cs =>
    if c = delim then some ([], cs)
    else
      match getline delim cs with
      | none => some ([c], [])
      | some (token, rest) => some (c :: token, rest)

/-- The inner loop of `read_filenames`,
`while (std::getline(lineStream, cell, ' ')) options->data.push_back(cell)`,
for at most `fuel` calls of `getline`. -/
def read_cells : Nat → List Char → List String → List String
  | 0, _, data => data
  | fuel + 1, lineStream, data =>
    match getline ' ' lineStream with
    | none => data
    | some (cell, rest) => read_cells fuel rest (data ++ [String.mk cell])

/-- The outer loop of `read_filenames`, `while (std::getline(indata, line))`,
for at most `fuel` calls of `getline`; the inner loop gets a budget of one
call more than the line has characters. -/
def read_lines : Nat → List Char → List String → List String
  | 0, _, data => data
  | fuel + 1, indata, data =>
    match getline '\n' indata with
    | none => data
    | some (line, rest) => read_lines fuel rest (read_cells (line.length + 1) line data)

/-- The function `read_filenames`.  The stream of a file that cannot be
opened fails at once, so with `NDEBUG` the loop body never runs for it;
without `NDEBUG`, `assert(indata)` ends the process. -/
def read_filenames (w : World) (options : Options) : Step Options :=
  let p := options.filenames
  match w.files p with
  | some text =>
    { trace := [Effect.cout (p ++ "\n"), Effect.open_read p, Effect.cout "File found\n",
        Effect.cout "\n"],
      outcome := Outcome.returned
        { options with data := read_lines (text.data.length + 1) text.data options.data } }
  | none =>
    if w.ndebug then
      { trace := [Effect.cout (p ++ "\n"), Effect.open_read p, Effect.cout "File not found\n",
          Effect.cout "\n"],
        outcome := Outcome.returned options }
    else
      { trace := [Effect.cout (p ++ "\n"), Effect.open_read p, Effect.cout "File not found\n"],
        outcome := Outcome.aborted }

/-- The loop of `generate_filepaths` over `options->data`: each
`fullfilename = filename + n` is written to `file_later2` with a newline and
pushed onto `options->filepaths`.  The pair is the text written so far and
the paths so far.  (The `int` counter of the source is not modelled: it
cannot overflow for a vector of fewer than `2^31` names.) -/
def filepaths_loop (filename : String) (data : List String) (acc : String × List String) :
    String × List String :=
  data.foldl (fun acc n => (acc.1 ++ (filename ++ n) ++ "\n", acc.2 ++ [filename ++ n])) acc

/-- The function `generate_filepaths`. -/
def generate_filepaths (options : Options) : Step Options :=
  let dirname := "server" ++ toString options.my_id
  let dirname1 := options.currentpath ++ "/" ++ dirname
  let filename := options.currentpath ++ "/" ++ dirname ++ "/"
  let model_later := options.currentpath ++ "/file_config_model" ++ toString options.my_id
  let r := filepaths_loop filename options.data ("", options.filepaths)
  { trace := [Effect.create_directories dirname1, Effect.write_file model_later r.1],
    outcome := Outcome.returned { options with filepaths := r.2 } }

/-- The element `array[index]` of a two-element array for an `int` index;
outside the array the access is undefined. -/
def at2 (array : Matrix × Matrix) (index : Int) : Option Matrix :=
  if index = 0 then some array.1 else if index = 1 then some array.2 else none

/-- The array after `array[index] = m` for an `int` index. -/
def set2 (array : Matrix × Matrix) (index : Int) (m : Matrix) : Option (Matrix × Matrix) :=
  if index = 0 then some (m, array.2) else if index = 1 then some (array.1, m) else none

/-- The loop `for (int j = 0; j < input_values_dp1.size(); j++)` of either
branch of `retrieve_shares`: each share is pushed onto the `Delta` and
`delta` vectors of the matrix and written to the file as
`<Delta> <delta>\n`.  The pair is the text written so far and the matrix. -/
def shares_loop (input_values_dp1 : List Shares) (acc : String × Matrix) : String × Matrix :=
  input_values_dp1.foldl (fun acc s =>
    (acc.1 ++ toString s.Delta ++ " " ++ toString s.delta ++ "\n",
     { acc.2 with Delta := acc.2.Delta ++ [s.Delta], delta := acc.2.delta ++ [s.delta] })) acc

/-- The `if` branch of the loop body of `retrieve_shares` (`Weights`), for
the loop counter `i`, the path `temp` and the received `pair2`. -/
def weights_branch (temp : String) (pair2 : Received) (i : Int) (options : Options) :
    Step Options :=
  match at2 options.weights (Int.tdiv i 2), pair2.dims[0]?, pair2.dims[1]? with
  | some m, some d0, some d1 =>
    let m1 : Matrix := { m with row := d0, col := d1 }
    let r := shares_loop pair2.shares (toString m1.row ++ " " ++ toString m1.col ++ "\n", m1)
    match set2 options.weights (Int.tdiv i 2) r.2 with
    | some weights =>
      { trace := [Effect.cout "Weights \n", Effect.write_file temp r.1],
        outcome := Outcome.returned { options with weights := weights } }
    | none => { trace := [Effect.cout "Weights \n"], outcome := Outcome.undefined_behaviour }
  | _, _, _ => { trace := [Effect.cout "Weights \n"], outcome := Outcome.undefined_behaviour }

/-- The `else` branch of the loop body of `retrieve_shares` (`Bias`); the
logged column count is read from `biases[(i - 2) / 2]`. -/
def bias_branch (temp : String) (pair2 : Received) (i : Int) (options : Options) :
    Step Options :=
  match at2 options.biases (Int.tdiv (i - 1) 2), pair2.dims[0]?, pair2.dims[1]? with
  | some m, some d0, some d1 =>
    let m1 : Matrix := { m with row := d0, col := d1 }
    match set2 options.biases (Int.tdiv (i - 1) 2) m1 with
    | some biases1 =>
      match at2 biases1 (Int.tdiv (i - 2) 2) with
      | some logged =>
        let r := shares_loop pair2.shares (toString m1.row ++ " " ++ toString m1.col ++ "\n", m1)
        match set2 biases1 (Int.tdiv (i - 1) 2) r.2 with
        | some biases =>
          { trace := [Effect.cout "Bias \n",
              Effect.cout ("Size:" ++ toString pair2.shares.length ++ "rows:" ++
                toString m1.row ++ "columns:" ++ toString logged.col ++ "\n"),
              Effect.write_file temp r.1],
            outcome := Outcome.returned { options with biases := biases } }
        | none => { trace := [Effect.cout "Bias \n"], outcome := Outcome.undefined_behaviour }
      | none => { trace := [Effect.cout "Bias \n"], outcome := Outcome.undefined_behaviour }
    | none => { trace := [Effect.cout "Bias \n"], outcome := Outcome.undefined_behaviour }
  | _, _, _ => { trace := [Effect.cout "Bias \n"], outcome := Outcome.undefined_behaviour }

/-- The body of `for (auto i = 0; i < 4; i++)` in `retrieve_shares`: the
`i`-th call of the provider, the read of `options->filepaths[i]` (undefined
outside the vector), and one of the two branches. -/
def retrieve_step (w : World) (port_number : Nat) (options : Options) (i : Nat) :
    Step Options :=
  let pair2 := w.provider port_number i
  match options.filepaths[i]? with
  | none =>
    { trace := [Effect.cout "Reading shares from weights provider \n",
        Effect.get_provider_mat_mul_data port_number],
      outcome := Outcome.undefined_behaviour }
  | some temp =>
    Step.bind
      { trace := [Effect.cout "Reading shares from weights provider \n",
          Effect.get_provider_mat_mul_data port_number, Effect.cout (temp ++ "\n")],
        outcome := Outcome.returned options }
      (fun options =>
        if Int.tmod ((i : Int) + 2) 2 = 0 then weights_branch temp pair2 i options
        else bias_branch temp pair2 i options)

/-- The function `retrieve_shares`: the loop body for `i = 0, 1, 2, 3`. -/
def retrieve_shares (w : World) (port_number : Nat) (options : Options) : Step Options :=
  [0, 1, 2, 3].foldl (fun s i => s.bind (fun options => retrieve_step w port_number options i))
    { trace := [], outcome := Outcome.returned options }

/-- The effect of the second `po::store`: an option keeps the value it got
from the command line and else takes the value of the config file. -/
def store (vm config : CommandLine) : CommandLine :=
  { help := vm.help || config.help
    config_file := vm.config_file <|> config.config_file
    my_id := vm.my_id <|> config.my_id
    threads := vm.threads <|> config.threads
    json := vm.json || config.json
    num_simd := vm.num_simd <|> config.num_simd
    file_names := vm.file_names <|> config.file_names
    current_path := vm.current_path <|> config.current_path
    sync_between_setup_and_online :=
      vm.sync_between_setup_and_online || config.sync_between_setup_and_online
    no_run := vm.no_run || config.no_run }

/-- The variables map at `po::notify`: the command line, joined with the
config file when `--config-file` was given. -/
def variables_map (w : World) (cl : CommandLine) : CommandLine :=
  match cl.config_file with
  | some path => store cl (w.config_files path)
  | none => cl

/-- The `Options options;` declared at the start of `parse_program_options`
with the fields assigned from the variables map; the vectors start empty,
and the `int` fields nothing assigns are given as 0. -/
def initial_options (my_id : Nat) (file_names current_path : String) (vm : CommandLine) :
    Options :=
  { threads := vm.threads.getD 0
    json := vm.json
    num_simd := vm.num_simd.getD 1
    sync_between_setup_and_online := vm.sync_between_setup_and_online
    weights := ({ Delta := [], delta := [], row := 0, col := 0 },
      { Delta := [], delta := [], row := 0, col := 0 })
    biases := ({ Delta := [], delta := [], row := 0, col := 0 },
      { Delta := [], delta := [], row := 0, col := 0 })
    my_id := my_id
    no_run := vm.no_run
    filenames := file_names
    data := []
    actual_answer := 0
    filepaths := []
    currentpath := current_path }

/-- The function `parse_program_options` of `Weights_Share_Receiver.cpp`,
from the command line `po::parse_command_line` has stored.  `po::notify`
throws when one of the required options `my-id`, `file-names`,
`current-path` has no value. -/
def parse_program_options (w : World) (cl : CommandLine) : Step (Option Options) :=
  if cl.help then
    { trace := [Effect.cerr "Allowed options\n"], outcome := Outcome.returned none }
  else
    let read_config : List Effect :=
      match cl.config_file with
      | some path => [Effect.parse_config_file path]
      | none => []
    let vm := variables_map w cl
    match vm.my_id, vm.file_names, vm.current_path with
    | some my_id, some file_names, some current_path =>
      if my_id > 1 then
        { trace := read_config ++ [Effect.cerr "my-id must be one of 0 and 1\n"],
          outcome := Outcome.returned none }
      else
        Step.bind
          (Step.bind
            (Step.bind
              (Step.bind { trace := read_config, outcome := Outcome.returned () }
                (fun _ => read_filenames w (initial_options my_id file_names current_path vm)))
              (fun options =>
                if options.my_id = 0 then generate_filepaths options
                else if options.my_id = 1 then generate_filepaths options
                else { trace := [], outcome := Outcome.returned options }))
            (fun options =>
              if options.my_id = 0 then retrieve_shares w 1234 options
              else retrieve_shares w 1235 options))
          (fun options => { trace := [], outcome := Outcome.returned (some options) })
    | _, _, _ =>
      { trace := read_config ++ [Effect.cerr "error:", Effect.cerr "Allowed options\n"],
        outcome := Outcome.returned none }

/-- The function `main` of `Weights_Share_Receiver.cpp`: `EXIT_FAILURE` is
1 and `EXIT_SUCCESS` is 0. -/
def main (w : World) (cl : CommandLine) : Step Nat :=
  Step.bind (parse_program_options w cl) (fun options =>
    match options with
    | none => { trace := [], outcome := Outcome.returned 1 }
    | some _ =>
      match w.logger_error with
      | some what =>
        { trace := [Effect.cerr ("ERROR OCCURRED: " ++ what ++ "\n")],
          outcome := Outcome.returned 1 }
      | none => { trace := [], outcome := Outcome.returned 0 })

/-- One line of a config file: identifiers separated by single spaces. -/
def config_line : List String → String
  | [] => ""
  | [id] => id
  | id :: rest => id ++ " " ++ config_line rest

/-- The text of a config file whose lines, each ended by a newline, hold the
given identifiers. -/
def config_text : List (List String) → String
  | [] => ""
  | ids :: rest => config_line ids ++ "\n" ++ config_text rest

/-- The lines of a share file: the header `<row> <col>`, then one line
`<Delta> <delta>` per share, numbers in decimal. -/
def share_file_lines (row col : Int) (shares : List Shares) : List String :=
  (toString row ++ " " ++ toString col) ::
    shares.map (fun s => toString s.Delta ++ " " ++ toString s.delta)

/-- The text of a file with the given lines, each ended by a newline. -/
def file_of_lines : List String → String
  | [] => ""
  | line :: rest => line ++ "\n" ++ file_of_lines rest

/-- The files a trace writes, in order: path and text of each. -/
def written : List Effect → List (String × String)
  | [] => []
  | Effect.write_file path content :: rest => (path, content) :: written rest
  | _ :: rest => written rest

/-- The ports of the calls of `get_provider_mat_mul_data` in a trace, in
order. -/
def received : List Effect → List Nat
  | [] => []
  | Effect.get_provider_mat_mul_data port_number :: rest => port_number :: received rest
  | _ :: rest => received rest

/-- The matrix `retrieve_shares` builds from one received item, starting
from an empty matrix. -/
def matrix_of (r : Received) : Matrix :=
  { Delta := r.shares.map Shares.Delta, delta := r.shares.map Shares.delta,
    row := r.dims.getD 0 0, col := r.dims.getD 1 0 }

/-- The matrix the loop body for counter `i` writes to: `weights[0]`,
`biases[0]`, `weights[1]`, `biases[1]` for `i = 0, 1, 2, 3`. -/
def slot (options : Options) (i : Nat) : Matrix :=
  match i with
  | 0 => options.weights.1
  | 1 => options.biases.1
  | 2 => options.weights.2
  | _ => options.biases.2

/-- The options with the matrix of the loop body for counter `i` replaced. -/
def stored (options : Options) (i : Nat) (m : Matrix) : Options :=
  match i with
  | 0 => { options with weights := (m, options.weights.2) }
  | 1 => { options with biases := (m, options.biases.2) }
  | 2 => { options with weights := (options.weights.1, m) }
  | _ => { options with biases := (options.biases.1, m) }

/-- A matrix after one received item was added to it: the dimensions are
replaced, the shares are appended. -/
def filled (old : Matrix) (r : Received) (d0 d1 : Int) : Matrix :=
  { Delta := old.Delta ++ r.shares.map Shares.Delta,
    delta := old.delta ++ r.shares.map Shares.delta,
    row := d0, col := d1 }

/-- The options after the loop body for counter `i` has run on an item with
at least two dimensions. -/
def after_step (w : World) (port_number : Nat) (options : Options) (i : Nat) : Options :=
  stored options i (filled (slot options i) (w.provider port_number i)
    ((w.provider port_number i).dims.getD 0 0) ((w.provider port_number i).dims.getD 1 0))

/-- Example data: the sample config file of the header comment. -/
def sampleConfig : String := "W1\nB1\nW2\nB2\n"

/-- Example data: what the provider sends at the four calls. -/
def demoProvider : Nat → Nat → Received := fun _ call =>
  match call with
  | 0 => { first := 0, shares := [⟨11, 1⟩, ⟨12, 2⟩, ⟨13, 3⟩, ⟨14, 4⟩], dims := [2, 2] }
  | 1 => { first := 0, shares := [⟨21, 5⟩, ⟨22, 6⟩], dims := [2, 1] }
  | 2 => { first := 0, shares := [⟨31, 7⟩, ⟨32, 8⟩], dims := [1, 2] }
  | _ => { first := 0, shares := [⟨41, 9⟩], dims := [1, 1] }

/-- Example data: a command line that gives no option. -/
def emptyCommandLine : CommandLine :=
  { help := false, config_file := none, my_id := none, threads := none, json := false,
    num_simd := none, file_names := none, current_path := none,
    sync_between_setup_and_online := false, no_run := false }

/-- Example world: a release build in which the sample config is stored at
`/tmp/file_config_weights_1.txt`. -/
def demoWorld : World :=
  { ndebug := true
    files := fun p => if p = "/tmp/file_config_weights_1.txt" then some sampleConfig else none
    config_files := fun _ => emptyCommandLine
    provider := demoProvider
    logger_error := none }

/-- Example world: the same with assertions enabled. -/
def debugWorld : World := { demoWorld with ndebug := false }

/-- Example data: `--my-id 0 --file-names /tmp/file_config_weights_1.txt
--current-path /tmp`. -/
def demoCommandLine : CommandLine :=
  { emptyCommandLine with
    my_id := some 0
    file_names := some "/tmp/file_config_weights_1.txt"
    current_path := some "/tmp" }

/-- The ways `parse_program_options` finds the options bad: help was asked
for, a required option has no value at `po::notify`, or `my-id` is greater
than 1. -/
def bad_options (w : World) (cl : CommandLine) : Prop :=
  cl.help = true ∨ (variables_map w cl).my_id = none ∨
    (variables_map w cl).file_names = none ∨ (variables_map w cl).current_path = none ∨
    ∃ id, (variables_map w cl).my_id = some id ∧ 1 < id

/-- Example data: the options `parse_program_options` starts from on
`demoCommandLine`. -/
def demoOptions : Options :=
  initial_options 0 "/tmp/file_config_weights_1.txt" "/tmp" demoCommandLine

end WeightsShareReceiver

/-! ## Definitions: example data for the bounds of `retrieve_shares` -/

namespace WeightsShareReceiver

/-- Example data: a config file with three identifiers only. -/
def shortConfig : String := "W1\nB1\nW2\n"

/-- Example world: a release build in which the file at
`/tmp/file_config_weights_1.txt` is the config with three identifiers. -/
def shortWorld : World :=
  { demoWorld with
    files := fun p => if p = "/tmp/file_config_weights_1.txt" then some shortConfig else none }

/-- Example data: options in which the first bias is stored with 7
columns. -/
def loggedOptions : Options :=
  { demoOptions with
    biases := ({ Delta := [21, 22], delta := [5, 6], row := 2, col := 7 },
      { Delta := [], delta := [], row := 0, col := 0 }) }

/-- Example data: a second bias of one share, with 9 columns. -/
def secondBias : Received := { first := 0, shares := [⟨41, 9⟩], dims := [1, 9] }

end WeightsShareReceiver

/-! ## Theorems: `Reconstruct.cpp` -/

namespace Reconstruct

theorem forLoop_succ (n : Nat) (st : LoopState) :
    forLoop (n + 1) st = loopBody (forLoop n st) n := by
  simp [forLoop, List.range_succ, List.foldl_append]

theorem forLoop_zero (st : LoopState) : forLoop 0 st = st := rfl

theorem loopBody_final_answer (st : LoopState) (i : Nat) :
    (loopBody st i).final_answer =
      st.final_answer ++
        [temp ((loopBody st i).shares_data_0 i) ((loopBody st i).shares_data_1 i)] := by
  simp [loopBody]

theorem loopBody_out (st : LoopState) (i : Nat) :
    (loopBody st i).out =
      st.out ++ (if ((loopBody st i).shares_data_0 i).Delta !=
        ((loopBody st i).shares_data_1 i).Delta then [Out.errorAt i] else []) := by
  simp only [loopBody, Function.update_same]
  split <;> simp

theorem loopBody_shares_data_0_of_ne (st : LoopState) (i j : Nat) (h : j ≠ i) :
    (loopBody st i).shares_data_0 j = st.shares_data_0 j := by
  simp [loopBody, Function.update_noteq h]

theorem loopBody_shares_data_1_of_ne (st : LoopState) (i j : Nat) (h : j ≠ i) :
    (loopBody st i).shares_data_1 j = st.shares_data_1 j := by
  simp [loopBody, Function.update_noteq h]

/-- The bits pushed by the first `n` iterations are `temp` of the array
elements, whatever the streams delivered. -/
theorem forLoop_final_answer (n : Nat) (st : LoopState) :
    (forLoop n st).final_answer =
      st.final_answer ++ (List.range n).map
        (fun i => temp ((forLoop n st).shares_data_0 i) ((forLoop n st).shares_data_1 i)) := by
  induction n with
  | zero => simp [forLoop_zero]
  | succ n ih =>
    rw [forLoop_succ, loopBody_final_answer, ih, List.range_succ, List.map_append,
      List.append_assoc]
    congr 1
    congr 1
    apply List.map_congr_left
    intro j hj
    have hne : j ≠ n := Nat.ne_of_lt (List.mem_range.mp hj)
    rw [loopBody_shares_data_0_of_ne _ _ _ hne, loopBody_shares_data_1_of_ne _ _ _ hne]

/-- The messages printed by the first `n` iterations are the `Error at`
lines of the indices whose `Delta` values differ. -/
theorem forLoop_out (n : Nat) (st : LoopState) :
    (forLoop n st).out =
      st.out ++ (mismatches (forLoop n st).shares_data_0 (forLoop n st).shares_data_1 n).map
        Out.errorAt := by
  induction n with
  | zero => simp [forLoop_zero, mismatches]
  | succ n ih =>
    rw [forLoop_succ, loopBody_out, ih]
    simp only [mismatches, List.range_succ, List.filter_append, List.map_append,
      List.append_assoc]
    congr 1
    congr 1
    · congr 1
      apply List.filter_congr
      intro j hj
      have hne : j ≠ n := Nat.ne_of_lt (List.mem_range.mp hj)
      rw [loopBody_shares_data_0_of_ne _ _ _ hne, loopBody_shares_data_1_of_ne _ _ _ hne]
    · by_cases h : (((loopBody (forLoop n st) n).shares_data_0 n).Delta !=
          ((loopBody (forLoop n st) n).shares_data_1 n).Delta) = true
      · simp [h]
      · simp [h]

theorem readBool_boolToken (b old : Bool) (rest : List Int) :
    IFStream.readBool { tokens := boolToken b :: rest, good := true } old =
      ({ tokens := rest, good := true }, b) := by
  cases b <;> simp [IFStream.readBool, boolToken]

theorem loopBody_wellFormed (st : LoopState) (i : Nat) (a0 a1 : Shares)
    (l0 l1 : List Shares) (r0 r1 : List Int)
    (h1 : st.file1 = { tokens := shareTokens (a0 :: l0) ++ r0, good := true })
    (h2 : st.file2 = { tokens := shareTokens (a1 :: l1) ++ r1, good := true }) :
    (loopBody st i).file1 = { tokens := shareTokens l0 ++ r0, good := true } ∧
    (loopBody st i).file2 = { tokens := shareTokens l1 ++ r1, good := true } ∧
    (loopBody st i).shares_data_0 i = a0 ∧ (loopBody st i).shares_data_1 i = a1 := by
  simp [loopBody, h1, h2, shareTokens, readBool_boolToken]

/-- On two files that supply `(Delta, delta)` pairs, the first `n`
iterations read exactly the first `n` pairs of each file. -/
theorem forLoop_wellFormed (s0 s1 : List Shares) (r0 r1 : List Int) (st : LoopState)
    (h1 : st.file1 = { tokens := shareTokens s0 ++ r0, good := true })
    (h2 : st.file2 = { tokens := shareTokens s1 ++ r1, good := true })
    (n : Nat) (hn0 : n ≤ s0.length) (hn1 : n ≤ s1.length) :
    (forLoop n st).file1 = { tokens := shareTokens (s0.drop n) ++ r0, good := true } ∧
    (forLoop n st).file2 = { tokens := shareTokens (s1.drop n) ++ r1, good := true } ∧
    ∀ i, i < n → s0[i]? = some ((forLoop n st).shares_data_0 i) ∧
      s1[i]? = some ((forLoop n st).shares_data_1 i) := by
  induction n with
  | zero => simp [forLoop_zero, h1, h2]
  | succ n ih =>
    have hlt0 : n < s0.length := hn0
    have hlt1 : n < s1.length := hn1
    obtain ⟨f1, f2, harr⟩ := ih (Nat.le_of_lt hlt0) (Nat.le_of_lt hlt1)
    rw [List.drop_eq_getElem_cons hlt0] at f1
    rw [List.drop_eq_getElem_cons hlt1] at f2
    obtain ⟨g1, g2, g3, g4⟩ := loopBody_wellFormed (forLoop n st) n _ _ _ _ r0 r1 f1 f2
    rw [forLoop_succ]
    refine ⟨g1, g2, ?_⟩
    intro i hi
    by_cases hin : i = n
    · subst hin
      rw [g3, g4]
      exact ⟨List.getElem?_eq_getElem hlt0, List.getElem?_eq_getElem hlt1⟩
    · rw [loopBody_shares_data_0_of_ne _ _ _ hin, loopBody_shares_data_1_of_ne _ _ _ hin]
      exact harr i (by omega)

theorem forLoop_length (n : Nat) (st : LoopState) :
    (forLoop n st).final_answer.length = st.final_answer.length + n := by
  rw [forLoop_final_answer]
  simp

/-- The bits of a run are `temp` of the two share arrays, index by index,
for every input. -/
theorem main_final_answer (fs : FileSystem) (options : Options) (g0 g1 : Nat → Shares)
    (gap : Nat) :
    (main fs options g0 g1 gap).final_answer =
      (List.range 10).map (fun i => temp ((main fs options g0 g1 gap).shares_data_0 i)
        ((main fs options g0 g1 gap).shares_data_1 i)) := by
  simp only [main]
  rw [forLoop_final_answer]
  simp

/-- On two files that each supply ten pairs, the arrays of a run hold the
pairs of the files. -/
theorem main_arrays (fs : FileSystem) (options : Options) (g0 g1 : Nat → Shares)
    (gap : Nat)
    (s0 s1 : List Shares) (r0 r1 : List Int)
    (h0 : fs (t1 options) = some (shareTokens s0 ++ r0))
    (h1 : fs (t2 options) = some (shareTokens s1 ++ r1))
    (hl0 : s0.length = 10) (hl1 : s1.length = 10) (i : Nat) (hi : i < 10) :
    s0[i]? = some ((main fs options g0 g1 gap).shares_data_0 i) ∧
    s1[i]? = some ((main fs options g0 g1 gap).shares_data_1 i) := by
  simp only [main]
  refine (forLoop_wellFormed s0 s1 r0 r1 _ ?_ ?_ 10 (by omega) (by omega)).2.2 i hi
  · simp [IFStream.open, h0]
  · simp [IFStream.open, h1]

theorem reportedErrors_append (a b : List Out) :
    reportedErrors (a ++ b) = reportedErrors a ++ reportedErrors b := by
  induction a with
  | nil => rfl
  | cons x xs ih => cases x <;> simp [reportedErrors, ih]

theorem reportedErrors_map_errorAt (l : List Nat) :
    reportedErrors (l.map Out.errorAt) = l := by
  induction l with
  | nil => rfl
  | cons x xs ih => simp [reportedErrors, ih]

theorem reportedErrors_notFoundMessages (fs : FileSystem) (options : Options) :
    reportedErrors (notFoundMessages fs options) = [] := by
  unfold notFoundMessages
  split
  · rfl
  · split <;> rfl

/-- The `Error at` lines of a run name the indices at which the two arrays
differ in `Delta`, for every input. -/
theorem main_reportedErrors (fs : FileSystem) (options : Options) (g0 g1 : Nat → Shares)
    (gap : Nat) :
    reportedErrors (main fs options g0 g1 gap).out =
      mismatches (main fs options g0 g1 gap).shares_data_0
        (main fs options g0 g1 gap).shares_data_1 10 := by
  simp only [main]
  have h := forLoop_out 10
    { file1 := IFStream.open fs (t1 options)
      file2 := IFStream.open fs (t2 options)
      shares_data_0 := g0
      shares_data_1 := g1
      final_answer := []
      out := notFoundMessages fs options }
  simp [h, reportedErrors_append, reportedErrors_map_errorAt,
    reportedErrors_notFoundMessages, reportedErrors]

theorem scanFrom_succ (v : List Bool) (fuel i : Nat) :
    scanFrom v (fuel + 1) i =
      match v[i]? with
      | some b => if b != false then scanFrom v fuel (i + 1) else .found i
      | none => .outOfRange i := rfl

/-- The budget `length + 1` is never used up. -/
theorem scanFrom_ne_outOfFuel (v : List Bool) (fuel i : Nat) (hi : i ≤ v.length)
    (hfuel : v.length + 1 ≤ fuel + i) : scanFrom v fuel i ≠ .outOfFuel := by
  induction fuel generalizing i with
  | zero => omega
  | succ fuel ih =>
    rw [scanFrom_succ]
    cases hv : v[i]? with
    | none => simp
    | some b =>
      have hlt : i < v.length := (List.getElem?_eq_some_iff.mp hv).1
      cases b with
      | false => simp
      | true =>
        simp only [bne_self_eq_false, Bool.true_bne, Bool.not_false, if_true]
        exact ih (i + 1) hlt (by omega)

/-- A scan that ends inside the vector ends at the first zero bit at or
after its start. -/
theorem scanFrom_found (v : List Bool) (fuel i k : Nat)
    (h : scanFrom v fuel i = .found k) :
    i ≤ k ∧ v[k]? = some false ∧ ∀ j, i ≤ j → j < k → v[j]? = some true := by
  induction fuel generalizing i with
  | zero => simp [scanFrom] at h
  | succ fuel ih =>
    rw [scanFrom_succ] at h
    cases hv : v[i]? with
    | none => simp [hv] at h
    | some b =>
      cases b with
      | false =>
        simp [hv] at h
        subst h
        exact ⟨Nat.le_refl _, hv, fun j h1 h2 => absurd h1 (by omega)⟩
      | true =>
        simp [hv] at h
        obtain ⟨h1, h2, h3⟩ := ih (i + 1) h
        refine ⟨by omega, h2, fun j hj1 hj2 => ?_⟩
        by_cases hji : j = i
        · subst hji; exact hv
        · exact h3 j (by omega) hj2

/-- A scan that leaves the vector has seen only one bits from its start. -/
theorem scanFrom_outOfRange (v : List Bool) (fuel i k : Nat)
    (h : scanFrom v fuel i = .outOfRange k) :
    i ≤ k ∧ v.length ≤ k ∧ (i ≤ v.length → k = v.length) ∧
      ∀ j, i ≤ j → j < k → v[j]? = some true := by
  induction fuel generalizing i with
  | zero => simp [scanFrom] at h
  | succ fuel ih =>
    rw [scanFrom_succ] at h
    cases hv : v[i]? with
    | none =>
      simp [hv] at h
      subst h
      have hle : v.length ≤ i := by
        by_contra hc
        rw [List.getElem?_eq_getElem (by omega)] at hv
        simp at hv
      exact ⟨Nat.le_refl _, hle, fun h1 => by omega, fun j h1 h2 => absurd h1 (by omega)⟩
    | some b =>
      have hlt : i < v.length := (List.getElem?_eq_some_iff.mp hv).1
      cases b with
      | false => simp [hv] at h
      | true =>
        simp [hv] at h
        obtain ⟨h1, h2, h3, h4⟩ := ih (i + 1) h
        refine ⟨by omega, h2, fun _ => h3 hlt, fun j hj1 hj2 => ?_⟩
        by_cases hji : j = i
        · subst hji; exact hv
        · exact h4 j (by omega) hj2

/-- With enough budget the scan ends at a zero bit that only one bits
precede. -/
theorem scanFrom_eq_found (w : List Bool) (fuel i k : Nat) (hik : i ≤ k)
    (hk : w[k]? = some false) (hones : ∀ j, i ≤ j → j < k → w[j]? = some true)
    (hfuel : k - i < fuel) : scanFrom w fuel i = .found k := by
  induction fuel generalizing i with
  | zero => omega
  | succ fuel ih =>
    rw [scanFrom_succ]
    by_cases hki : i = k
    · subst hki
      simp [hk]
    · have hlt : i < k := by omega
      rw [hones i (Nat.le_refl _) hlt]
      simp only [bne_self_eq_false, Bool.true_bne, Bool.not_false, if_true]
      exact ih (i + 1) (by omega) (fun j h1 h2 => hones j (by omega) h2) (by omega)

/-- A vector with a zero bit makes the scan of `main` end at its first zero
bit. -/
theorem answerScan_of_mem (v : List Bool) (hz : false ∈ v) :
    ∃ k, answerScan v = .found k ∧ k < v.length ∧ v[k]? = some false ∧
      ∀ j, j < k → v[j]? = some true := by
  cases hs : answerScan v with
  | found k =>
    obtain ⟨_, h2, h3⟩ := scanFrom_found v _ 0 k hs
    exact ⟨k, rfl, (List.getElem?_eq_some_iff.mp h2).1, h2, fun j hj => h3 j (Nat.zero_le _) hj⟩
  | outOfRange k =>
    obtain ⟨_, h2, _, h4⟩ := scanFrom_outOfRange v _ 0 k hs
    obtain ⟨n, hn, hget⟩ := List.getElem_of_mem hz
    have := h4 n (Nat.zero_le _) (by omega)
    rw [List.getElem?_eq_getElem hn, hget] at this
    simp at this
  | outOfFuel =>
    exact absurd hs (scanFrom_ne_outOfFuel v _ 0 (Nat.zero_le _) (by omega))

/-- C1: on two share files that supply ten `(Delta, delta)` pairs each,
`main` reconstructs exactly ten bits, and for every index `i` in `0..9` the
`i`-th bit is `Delta0[i] XOR delta0[i] XOR delta1[i]`, with `Delta0`,
`delta0` read from server0's file and `delta1` from server1's file. -/
theorem reconstructed_bits (fs : FileSystem) (options : Options) (g0 g1 : Nat → Shares)
    (gap : Nat)
    (s0 s1 : List Shares) (r0 r1 : List Int)
    (h0 : fs (t1 options) = some (shareTokens s0 ++ r0))
    (h1 : fs (t2 options) = some (shareTokens s1 ++ r1))
    (hl0 : s0.length = 10) (hl1 : s1.length = 10) :
    (main fs options g0 g1 gap).final_answer.length = 10 ∧
    (∀ i (hi : i < 10), (main fs options g0 g1 gap).final_answer[i]? =
      some (Bool.xor (Bool.xor s0[i].Delta s0[i].delta) s1[i].delta)) ∧
    (main fs options g0 g1 gap).final_answer =
      List.zipWith (fun a b => Bool.xor (Bool.xor a.Delta a.delta) b.delta) s0 s1 := by
  have hbits : ∀ i (hi : i < 10), (main fs options g0 g1 gap).final_answer[i]? =
      some (Bool.xor (Bool.xor s0[i].Delta s0[i].delta) s1[i].delta) := by
    intro i hi
    obtain ⟨a0, a1⟩ := main_arrays fs options g0 g1 gap s0 s1 r0 r1 h0 h1 hl0 hl1 i hi
    rw [List.getElem?_eq_getElem (by omega)] at a0 a1
    rw [Option.some.inj a0, Option.some.inj a1, main_final_answer]
    simp [hi, temp]
  have hlen : (main fs options g0 g1 gap).final_answer.length = 10 := by
    rw [main_final_answer]; simp
  refine ⟨hlen, hbits, ?_⟩
  apply List.ext_getElem?
  intro i
  by_cases hi : i < 10
  · rw [hbits i hi]
    simp [List.getElem?_zipWith, List.getElem?_eq_getElem, hl0, hl1, hi]
  · rw [List.getElem?_eq_none (by omega), List.getElem?_eq_none (by simp; omega)]

/-- Witness of C1 on the example files. -/
theorem reconstructed_bits_witness :
    (main demoFs demoOptions demoGarbage demoGarbage 0).final_answer.length = 10 ∧
    (∀ i (hi : i < 10), (main demoFs demoOptions demoGarbage demoGarbage 0).final_answer[i]? =
      some (Bool.xor (Bool.xor (demoShares0.get ⟨i, hi⟩).Delta (demoShares0.get ⟨i, hi⟩).delta)
        (demoShares1.get ⟨i, hi⟩).delta)) ∧
    (main demoFs demoOptions demoGarbage demoGarbage 0).final_answer =
      List.zipWith (fun a b => Bool.xor (Bool.xor a.Delta a.delta) b.delta)
        demoShares0 demoShares1 :=
  reconstructed_bits demoFs demoOptions demoGarbage demoGarbage 0 demoShares0 demoShares1 [] []
    (by decide) (by decide) (by decide) (by decide)

/-- C2: boolean sharing round trip.  For every bit `v` and private masks
`delta0`, `delta1`: when both share files carry, for element `i`, the public
mask `Delta = v XOR delta0 XOR delta1` (next to `delta0` in server0's file
and `delta1` in server1's file), the per-element computation `temp` of the
tool returns `v`, and so does the `i`-th reconstructed bit of `main`. -/
theorem boolean_sharing_round_trip (fs : FileSystem) (options : Options)
    (g0 g1 : Nat → Shares) (gap : Nat) (s0 s1 : List Shares) (r0 r1 : List Int)
    (h0 : fs (t1 options) = some (shareTokens s0 ++ r0))
    (h1 : fs (t2 options) = some (shareTokens s1 ++ r1))
    (hl0 : s0.length = 10) (hl1 : s1.length = 10)
    (v delta0 delta1 : Bool) (i : Nat) (hi : i < 10)
    (hs0 : s0[i]? = some { Delta := Bool.xor (Bool.xor v delta0) delta1, delta := delta0 })
    (hs1 : s1[i]? = some { Delta := Bool.xor (Bool.xor v delta0) delta1, delta := delta1 }) :
    temp { Delta := Bool.xor (Bool.xor v delta0) delta1, delta := delta0 }
      { Delta := Bool.xor (Bool.xor v delta0) delta1, delta := delta1 } = v ∧
    (main fs options g0 g1 gap).final_answer[i]? = some v := by
  have ht : temp { Delta := Bool.xor (Bool.xor v delta0) delta1, delta := delta0 }
      { Delta := Bool.xor (Bool.xor v delta0) delta1, delta := delta1 } = v := by
    cases v <;> cases delta0 <;> cases delta1 <;> rfl
  refine ⟨ht, ?_⟩
  obtain ⟨a0, a1⟩ := main_arrays fs options g0 g1 gap s0 s1 r0 r1 h0 h1 hl0 hl1 i hi
  rw [hs0] at a0
  rw [hs1] at a1
  rw [main_final_answer]
  simp only [List.getElem?_map, List.getElem?_range hi, Option.map_some']
  rw [← Option.some.inj a0, ← Option.some.inj a1, ht]

/-- Witness of C2: element 5 of the example files shares the bit `true`
with masks `delta0 = false`, `delta1 = false`. -/
theorem boolean_sharing_round_trip_witness :
    temp { Delta := Bool.xor (Bool.xor true false) false, delta := false }
      { Delta := Bool.xor (Bool.xor true false) false, delta := false } = true ∧
    (main demoFs demoOptions demoGarbage demoGarbage 0).final_answer[5]? = some true :=
  boolean_sharing_round_trip demoFs demoOptions demoGarbage demoGarbage 0 demoShares0
    demoShares1 [] [] (by decide) (by decide) (by decide) (by decide) true false false 5
    (by decide) (by decide) (by decide)

theorem main_scan (fs : FileSystem) (options : Options) (g0 g1 : Nat → Shares)
    (gap : Nat) :
    (main fs options g0 g1 gap).scan =
      answerScan (main fs options g0 g1 gap).final_answer := rfl

/-- A scan that ends inside the vector is followed by the answer line. -/
theorem main_out_of_found (fs : FileSystem) (options : Options) (g0 g1 : Nat → Shares)
    (gap k : Nat) (h : (main fs options g0 g1 gap).scan = .found k) :
    (main fs options g0 g1 gap).out.getLast? = some (Out.answer options.index k) := by
  simp only [main] at h ⊢
  rw [h]
  simp [scanEnd]

theorem getElem?_of_take_eq (v w : List Bool) (n j : Nat) (h : w.take n = v.take n)
    (hj : j < n) : w[j]? = v[j]? := by
  have h1 : (w.take n)[j]? = w[j]? := by rw [List.getElem?_take]; simp [hj]
  have h2 : (v.take n)[j]? = v[j]? := by rw [List.getElem?_take]; simp [hj]
  rw [← h1, ← h2, h]

/-- C3: for every reconstructed ten-bit sequence `v` with at least one zero
bit, the answer the tool reports is the least index `k` whose bit is zero:
bit `k` is 0, every bit below `k` is 1, no zero bit has a smaller index, and
any sequence that agrees with `v` up to and including index `k` gives the
same answer (later bits never influence it).  The answer line printed by
`main` carries this `k`. -/
theorem answer_is_first_zero (v : List Bool) (hlen : v.length = 10) (hz : false ∈ v) :
    ∃ k, k < 10 ∧ answerScan v = .found k ∧ v[k]? = some false ∧
      (∀ j, j < k → v[j]? = some true) ∧
      (∀ j, v[j]? = some false → k ≤ j) ∧
      (∀ w : List Bool, w.take (k + 1) = v.take (k + 1) → answerScan w = .found k) ∧
      (∀ fs options g0 g1 gap, (main fs options g0 g1 gap).final_answer = v →
        (main fs options g0 g1 gap).out.getLast? = some (Out.answer options.index k)) := by
  obtain ⟨k, hk, hlt, hzero, hones⟩ := answerScan_of_mem v hz
  refine ⟨k, by omega, hk, hzero, hones, ?_, ?_, ?_⟩
  · intro j hj
    by_contra hc
    have := hones j (by omega)
    rw [hj] at this
    simp at this
  · intro w hw
    have hwk : w[k]? = some false := by
      rw [getElem?_of_take_eq v w (k + 1) k hw (by omega)]; exact hzero
    have hwlt : k < w.length := (List.getElem?_eq_some_iff.mp hwk).1
    apply scanFrom_eq_found w _ 0 k (Nat.zero_le _) hwk
    · intro j _ hj
      rw [getElem?_of_take_eq v w (k + 1) j hw (by omega)]
      exact hones j hj
    · omega
  · intro fs options g0 g1 gap hv
    apply main_out_of_found
    rw [main_scan, hv, hk]

/-- Witness of C3 on the bits reconstructed from the example files. -/
theorem answer_is_first_zero_witness :
    ∃ k, k < 10 ∧
      answerScan [true, true, false, true, true, true, true, true, true, true] = .found k ∧
      [true, true, false, true, true, true, true, true, true, true][k]? = some false ∧
      (∀ j, j < k →
        [true, true, false, true, true, true, true, true, true, true][j]? = some true) ∧
      (∀ j, [true, true, false, true, true, true, true, true, true, true][j]? = some false →
        k ≤ j) ∧
      (∀ w : List Bool,
        w.take (k + 1) =
          [true, true, false, true, true, true, true, true, true, true].take (k + 1) →
        answerScan w = .found k) ∧
      (∀ fs options g0 g1 gap, (main fs options g0 g1 gap).final_answer =
          [true, true, false, true, true, true, true, true, true, true] →
        (main fs options g0 g1 gap).out.getLast? = some (Out.answer options.index k)) :=
  answer_is_first_zero [true, true, false, true, true, true, true, true, true, true]
    (by decide) (by decide)

theorem mismatches_pairwise (a0 a1 : Nat → Shares) (n : Nat) :
    (mismatches a0 a1 n).Pairwise (fun a b => a < b) :=
  List.Pairwise.sublist (List.filter_sublist _) (List.pairwise_lt_range n)

/-- On two files that each supply ten pairs, the mismatching indices of the
arrays are those of the files. -/
theorem main_mismatches_files (fs : FileSystem) (options : Options) (g0 g1 : Nat → Shares)
    (gap : Nat)
    (s0 s1 : List Shares) (r0 r1 : List Int)
    (h0 : fs (t1 options) = some (shareTokens s0 ++ r0))
    (h1 : fs (t2 options) = some (shareTokens s1 ++ r1))
    (hl0 : s0.length = 10) (hl1 : s1.length = 10) :
    mismatches (main fs options g0 g1 gap).shares_data_0
        (main fs options g0 g1 gap).shares_data_1 10 =
      (List.range 10).filter
        (fun i => decide (s0[i]?.map Shares.Delta ≠ s1[i]?.map Shares.Delta)) := by
  unfold mismatches
  apply List.filter_congr
  intro i hi
  obtain ⟨a0, a1⟩ :=
    main_arrays fs options g0 g1 gap s0 s1 r0 r1 h0 h1 hl0 hl1 i (List.mem_range.mp hi)
  rw [a0, a1]
  by_cases h : ((main fs options g0 g1 gap).shares_data_0 i).Delta =
      ((main fs options g0 g1 gap).shares_data_1 i).Delta
  · simp [h]
  · simp [h]

/-- C4: mask-mismatch detection.  For every pair of share files the indices
printed by `Error at i index` are exactly the indices `i` in `0..9` at which
server0's `Delta` differs from server1's `Delta`, each once and in
increasing order; on files that supply ten pairs each these are the indices
at which the files' `Delta` values differ, and when the files differ in
`Delta` at index 3 only, exactly one mismatch is reported, at index 3. -/
theorem mismatch_detection (fs : FileSystem) (options : Options) (g0 g1 : Nat → Shares)
    (gap : Nat) :
    reportedErrors (main fs options g0 g1 gap).out =
      mismatches (main fs options g0 g1 gap).shares_data_0
        (main fs options g0 g1 gap).shares_data_1 10 ∧
    (∀ i, i ∈ reportedErrors (main fs options g0 g1 gap).out ↔
      i < 10 ∧ ((main fs options g0 g1 gap).shares_data_0 i).Delta ≠
        ((main fs options g0 g1 gap).shares_data_1 i).Delta) ∧
    (reportedErrors (main fs options g0 g1 gap).out).Pairwise (fun a b => a < b) ∧
    (∀ (s0 s1 : List Shares) (r0 r1 : List Int),
      fs (t1 options) = some (shareTokens s0 ++ r0) →
      fs (t2 options) = some (shareTokens s1 ++ r1) →
      s0.length = 10 → s1.length = 10 →
      reportedErrors (main fs options g0 g1 gap).out =
          (List.range 10).filter
            (fun i => decide (s0[i]?.map Shares.Delta ≠ s1[i]?.map Shares.Delta)) ∧
        ((∀ i, i < 10 → (s0[i]?.map Shares.Delta ≠ s1[i]?.map Shares.Delta ↔ i = 3)) →
          reportedErrors (main fs options g0 g1 gap).out = [3])) := by
  have hgen := main_reportedErrors fs options g0 g1 gap
  refine ⟨hgen, ?_, ?_, ?_⟩
  · intro i
    rw [hgen]
    simp [mismatches]
  · rw [hgen]
    exact mismatches_pairwise _ _ _
  · intro s0 s1 r0 r1 h0 h1 hl0 hl1
    have hfile := main_mismatches_files fs options g0 g1 gap s0 s1 r0 r1 h0 h1 hl0 hl1
    refine ⟨by rw [hgen, hfile], ?_⟩
    intro honly
    rw [hgen, hfile]
    have hcongr : (List.range 10).filter
          (fun i => decide (s0[i]?.map Shares.Delta ≠ s1[i]?.map Shares.Delta)) =
        (List.range 10).filter (fun i => decide (i = 3)) := by
      apply List.filter_congr
      intro i hi
      have := honly i (List.mem_range.mp hi)
      by_cases h3 : i = 3
      · have hdiff := this.mpr h3
        simp only [h3, decide_True, decide_eq_true_eq]
        rw [h3] at hdiff
        exact hdiff
      · have hne : ¬ (s0[i]?.map Shares.Delta ≠ s1[i]?.map Shares.Delta) :=
          fun hc => h3 (this.mp hc)
        simp only [ne_eq, not_not] at hne
        simp [h3, hne]
    rw [hcongr]
    decide

/-- Example of C4: the example files differ in `Delta` at index 3 only, and
the one mismatch reported is index 3. -/
theorem mismatch_detection_witness :
    reportedErrors (main demoFs demoOptions demoGarbage demoGarbage 0).out = [3] :=
  ((mismatch_detection demoFs demoOptions demoGarbage demoGarbage 0).2.2.2
    demoShares0 demoShares1 [] [] (by decide) (by decide) (by decide) (by decide)).2
    (by decide)

/-- The last statement of `main` prints the value of `i`. -/
theorem main_out_last (fs : FileSystem) (options : Options) (g0 g1 : Nat → Shares)
    (gap : Nat) :
    (main fs options g0 g1 gap).out.getLast? =
      some (Out.answer options.index (main fs options g0 g1 gap).i) := by
  simp [main]

theorem main_i (fs : FileSystem) (options : Options) (g0 g1 : Nat → Shares) (gap : Nat) :
    (main fs options g0 g1 gap).i = scanEnd (main fs options g0 g1 gap).scan gap := rfl

/-- Counterexample to C5 as stated ("the answer [is] the same for any two
runs that agree on server0's Delta values and on both parties' delta
values"): on the files of `allOnesFs` the `Delta` values disagree at index
0, all ten elements reconstruct to 1, and the scan leaves the vector at
index 10; the answer then depends on what lies behind the vector: the run
that meets a zero bit at once prints 10, the run that meets three non-zero
bits first prints 13, on the same two files. -/
theorem answer_varies_when_all_ones :
    (main allOnesFs demoOptions demoGarbage demoGarbage 0).final_answer =
      List.replicate 10 true ∧
    (main allOnesFs demoOptions demoGarbage demoGarbage 0).scan = .outOfRange 10 ∧
    (main allOnesFs demoOptions demoGarbage demoGarbage 0).out =
      [Out.errorAt 0, Out.answer "3" 10] ∧
    (main allOnesFs demoOptions demoGarbage demoGarbage 3).out =
      [Out.errorAt 0, Out.answer "3" 13] ∧
    ¬ (∀ (fs fs2 : FileSystem) (options options2 : Options) (g0 g1 h0 h1 : Nat → Shares)
        (gap gap2 : Nat),
        (∀ i, i < 10 →
          ((main fs options g0 g1 gap).shares_data_0 i).Delta =
            ((main fs2 options2 h0 h1 gap2).shares_data_0 i).Delta ∧
          ((main fs options g0 g1 gap).shares_data_0 i).delta =
            ((main fs2 options2 h0 h1 gap2).shares_data_0 i).delta ∧
          ((main fs options g0 g1 gap).shares_data_1 i).delta =
            ((main fs2 options2 h0 h1 gap2).shares_data_1 i).delta) →
        (main fs options g0 g1 gap).final_answer =
          (main fs2 options2 h0 h1 gap2).final_answer ∧
        (main fs options g0 g1 gap).i = (main fs2 options2 h0 h1 gap2).i) := by
  refine ⟨by decide, by decide, by decide, by decide, ?_⟩
  intro h
  have h2 := (h allOnesFs allOnesFs demoOptions demoOptions demoGarbage demoGarbage
    demoGarbage demoGarbage 0 3 (fun i _ => ⟨rfl, rfl, rfl⟩)).2
  revert h2
  decide

/-- The bits of a run, and the scan inside the vector, are determined by
server0's `Delta` values and both parties' `delta` values. -/
theorem main_independent_of_Delta1 (fs fs2 : FileSystem) (options options2 : Options)
    (g0 g1 h0 h1 : Nat → Shares) (gap gap2 : Nat)
    (hagree : ∀ i, i < 10 →
      ((main fs options g0 g1 gap).shares_data_0 i).Delta =
        ((main fs2 options2 h0 h1 gap2).shares_data_0 i).Delta ∧
      ((main fs options g0 g1 gap).shares_data_0 i).delta =
        ((main fs2 options2 h0 h1 gap2).shares_data_0 i).delta ∧
      ((main fs options g0 g1 gap).shares_data_1 i).delta =
        ((main fs2 options2 h0 h1 gap2).shares_data_1 i).delta) :
    (main fs options g0 g1 gap).final_answer = (main fs2 options2 h0 h1 gap2).final_answer ∧
    (main fs options g0 g1 gap).scan = (main fs2 options2 h0 h1 gap2).scan := by
  have hbits : (main fs options g0 g1 gap).final_answer =
      (main fs2 options2 h0 h1 gap2).final_answer := by
    rw [main_final_answer fs, main_final_answer fs2]
    apply List.map_congr_left
    intro i hi
    obtain ⟨e1, e2, e3⟩ := hagree i (List.mem_range.mp hi)
    simp [temp, e1, e2, e3]
  exact ⟨hbits, by rw [main_scan, main_scan, hbits]⟩

/-- With a zero bit among the reconstructed bits the value of `i` printed
is the index the scan found, below 10. -/
theorem main_i_of_mem (fs : FileSystem) (options : Options) (g0 g1 : Nat → Shares)
    (gap : Nat) (hz : false ∈ (main fs options g0 g1 gap).final_answer) :
    ∃ k, k < 10 ∧ (main fs options g0 g1 gap).scan = .found k ∧
      (main fs options g0 g1 gap).i = k := by
  have hlen : (main fs options g0 g1 gap).final_answer.length = 10 := by
    rw [main_final_answer]; simp
  obtain ⟨k, hk, hlt, _, _⟩ := answerScan_of_mem _ hz
  rw [← main_scan] at hk
  exact ⟨k, by omega, hk, by rw [main_i, hk]; rfl⟩

/-- C5 (amended): a public-mask mismatch is diagnostic, not fatal.  For
every input all ten elements are reconstructed and the answer line is still
printed, last, after any mismatch line; the reconstructed bits are the same
for any two runs that agree on server0's `Delta` values and on both
parties' `delta` values, whatever server1's `Delta` values are; and
whenever at least one reconstructed bit is zero the answer is the index of
the first zero bit, below 10, and is the same for two such runs (stated for
the values held in the arrays, and for files that supply ten pairs each). -/
theorem mismatch_not_fatal (fs : FileSystem) (options : Options) (g0 g1 : Nat → Shares)
    (gap : Nat) :
    (main fs options g0 g1 gap).final_answer.length = 10 ∧
    (main fs options g0 g1 gap).out.getLast? =
      some (Out.answer options.index (main fs options g0 g1 gap).i) ∧
    (false ∈ (main fs options g0 g1 gap).final_answer →
      ∃ k, k < 10 ∧ (main fs options g0 g1 gap).scan = .found k ∧
        (main fs options g0 g1 gap).i = k ∧
        (main fs options g0 g1 gap).out.getLast? = some (Out.answer options.index k)) ∧
    (∀ (fs2 : FileSystem) (options2 : Options) (h0 h1 : Nat → Shares) (gap2 : Nat),
      (∀ i, i < 10 →
        ((main fs options g0 g1 gap).shares_data_0 i).Delta =
          ((main fs2 options2 h0 h1 gap2).shares_data_0 i).Delta ∧
        ((main fs options g0 g1 gap).shares_data_0 i).delta =
          ((main fs2 options2 h0 h1 gap2).shares_data_0 i).delta ∧
        ((main fs options g0 g1 gap).shares_data_1 i).delta =
          ((main fs2 options2 h0 h1 gap2).shares_data_1 i).delta) →
      (main fs options g0 g1 gap).final_answer = (main fs2 options2 h0 h1 gap2).final_answer ∧
      (false ∈ (main fs options g0 g1 gap).final_answer →
        (main fs options g0 g1 gap).i = (main fs2 options2 h0 h1 gap2).i)) ∧
    (∀ (fs2 : FileSystem) (gap2 : Nat) (s0 s1 s2 : List Shares) (r0 r1 r2 : List Int),
      fs (t1 options) = some (shareTokens s0 ++ r0) →
      fs (t2 options) = some (shareTokens s1 ++ r1) →
      fs2 (t1 options) = some (shareTokens s0 ++ r0) →
      fs2 (t2 options) = some (shareTokens s2 ++ r2) →
      s0.length = 10 → s1.length = 10 → s2.length = 10 →
      s1.map Shares.delta = s2.map Shares.delta →
      (main fs options g0 g1 gap).final_answer = (main fs2 options g0 g1 gap2).final_answer ∧
      (false ∈ (main fs options g0 g1 gap).final_answer →
        (main fs options g0 g1 gap).i = (main fs2 options g0 g1 gap2).i ∧
        (main fs options g0 g1 gap).out.getLast? =
          (main fs2 options g0 g1 gap2).out.getLast?)) := by
  have hlen : (main fs options g0 g1 gap).final_answer.length = 10 := by
    rw [main_final_answer]; simp
  have hsame : ∀ (fs2 : FileSystem) (options2 : Options) (h0 h1 : Nat → Shares) (gap2 : Nat),
      (main fs options g0 g1 gap).final_answer = (main fs2 options2 h0 h1 gap2).final_answer →
      (main fs options g0 g1 gap).scan = (main fs2 options2 h0 h1 gap2).scan →
      false ∈ (main fs options g0 g1 gap).final_answer →
      (main fs options g0 g1 gap).i = (main fs2 options2 h0 h1 gap2).i := by
    intro fs2 options2 h0 h1 gap2 hb hs hz
    obtain ⟨k, _, hk, hi⟩ := main_i_of_mem fs options g0 g1 gap hz
    obtain ⟨k2, _, hk2, hi2⟩ := main_i_of_mem fs2 options2 h0 h1 gap2 (hb ▸ hz)
    rw [hs, hk2] at hk
    rw [hi, hi2]
    exact (ScanResult.found.inj hk).symm
  refine ⟨hlen, main_out_last fs options g0 g1 gap, ?_, ?_, ?_⟩
  · intro hz
    obtain ⟨k, hk, hs, hi⟩ := main_i_of_mem fs options g0 g1 gap hz
    exact ⟨k, hk, hs, hi, main_out_of_found fs options g0 g1 gap k hs⟩
  · intro fs2 options2 h0 h1 gap2 hagree
    obtain ⟨hb, hs⟩ := main_independent_of_Delta1 fs fs2 options options2 g0 g1 h0 h1 gap gap2
      hagree
    exact ⟨hb, hsame fs2 options2 h0 h1 gap2 hb hs⟩
  · intro fs2 gap2 s0 s1 s2 r0 r1 r2 e0 e1 e2 e3 hl0 hl1 hl2 hdelta
    have hboth := main_independent_of_Delta1 fs fs2 options options g0 g1 g0 g1 gap gap2
      (by
        intro i hi
        obtain ⟨a0, a1⟩ := main_arrays fs options g0 g1 gap s0 s1 r0 r1 e0 e1 hl0 hl1 i hi
        obtain ⟨b0, b1⟩ := main_arrays fs2 options g0 g1 gap2 s0 s2 r0 r2 e2 e3 hl0 hl2 i hi
        have hsame0 : (main fs options g0 g1 gap).shares_data_0 i =
            (main fs2 options g0 g1 gap2).shares_data_0 i := by
          rw [a0] at b0
          exact Option.some.inj b0
        have hd : (s1.map Shares.delta)[i]? = (s2.map Shares.delta)[i]? := by rw [hdelta]
        rw [List.getElem?_map, List.getElem?_map, a1, b1] at hd
        simp only [Option.map_some', Option.some.injEq] at hd
        exact ⟨by rw [hsame0], by rw [hsame0], hd⟩)
    refine ⟨hboth.1, fun hz => ?_⟩
    have hi := hsame fs2 options g0 g1 gap2 hboth.1 hboth.2 hz
    exact ⟨hi, by rw [main_out_last, main_out_last, hi]⟩

/-- Example of C5 (amended): the run on the example files, where server1's
`Delta` is corrupted at index 3, reconstructs the same bits and reports the
same answer as the run on the uncorrupted files, whatever lies behind the
vector in either run. -/
theorem mismatch_not_fatal_witness :
    (main demoFs demoOptions demoGarbage demoGarbage 0).final_answer =
      (main cleanFs demoOptions demoGarbage demoGarbage 5).final_answer ∧
    (main demoFs demoOptions demoGarbage demoGarbage 0).i =
      (main cleanFs demoOptions demoGarbage demoGarbage 5).i :=
  have h := (mismatch_not_fatal demoFs demoOptions demoGarbage demoGarbage 0).2.2.2.2 cleanFs 5
    demoShares0 demoShares1 cleanShares1 [] [] [] (by decide) (by decide) (by decide)
    (by decide) (by decide) (by decide) (by decide) (by decide)
  ⟨h.1, (h.2 (by decide)).1⟩

end Reconstruct

/-! ## Theorems: the GMW provider -/

namespace GMW

theorem modulus_pos (k : BitWidth) : 0 < k.modulus := by
  unfold BitWidth.modulus
  positivity

theorem eq_of_natCast_eq (n a b : Nat) (ha : a < n) (hb : b < n)
    (h : (a : ZMod n) = (b : ZMod n)) : a = b := by
  have := (ZMod.natCast_eq_natCast_iff' a b n).mp h
  rwa [Nat.mod_eq_of_lt ha, Nat.mod_eq_of_lt hb] at this

theorem wadd_lt (k : BitWidth) (a b : Nat) : wadd k a b < k.modulus :=
  Nat.mod_lt _ (modulus_pos k)

theorem wsub_lt (k : BitWidth) (a b : Nat) : wsub k a b < k.modulus :=
  Nat.mod_lt _ (modulus_pos k)

theorem wmul_lt (k : BitWidth) (a b : Nat) : wmul k a b < k.modulus :=
  Nat.mod_lt _ (modulus_pos k)

theorem cast_wadd (k : BitWidth) (a b : Nat) :
    ((wadd k a b : Nat) : ZMod k.modulus) = (a : ZMod k.modulus) + b := by
  simp [wadd]

theorem cast_wmul (k : BitWidth) (a b : Nat) :
    ((wmul k a b : Nat) : ZMod k.modulus) = (a : ZMod k.modulus) * b := by
  simp [wmul]

theorem cast_wsub (k : BitWidth) (a b : Nat) :
    ((wsub k a b : Nat) : ZMod k.modulus) = (a : ZMod k.modulus) - b := by
  have hle : b % k.modulus ≤ k.modulus := Nat.le_of_lt (Nat.mod_lt _ (modulus_pos k))
  simp [wsub, Nat.cast_sub hle]
  ring

/-- Beaver correctness of the modelled AND gate. -/
theorem and_gate_correct (x0 x1 y0 y1 : BooleanShare) (t0 t1 : BooleanTriple)
    (hx : x0.Delta = x1.Delta) (hy : y0.Delta = y1.Delta)
    (ht : Bool.xor t0.c t1.c = (Bool.xor t0.a t1.a && Bool.xor t0.b t1.b)) :
    make_boolean_output_gate_my
        (make_and_gate x0 y0 t0 (and_gate_message x1 y1 t1))
        (make_and_gate x1 y1 t1 (and_gate_message x0 y0 t0)).delta =
      (make_boolean_output_gate_my x0 x1.delta && make_boolean_output_gate_my y0 y1.delta) := by
  obtain ⟨Dx, dx0⟩ := x0
  obtain ⟨Dx1, dx1⟩ := x1
  obtain ⟨Dy, dy0⟩ := y0
  obtain ⟨Dy1, dy1⟩ := y1
  obtain ⟨a0, b0, c0⟩ := t0
  obtain ⟨a1, b1, c1⟩ := t1
  simp only at hx hy ht
  subst hx hy
  simp only [make_boolean_output_gate_my, make_and_gate, and_gate_message, and_gate_opened]
  revert ht
  cases Dx <;> cases dx0 <;> cases dx1 <;> cases Dy <;> cases dy0 <;> cases dy1 <;>
    cases a0 <;> cases a1 <;> cases b0 <;> cases b1 <;> cases c0 <;> cases c1 <;> decide

/-- Beaver correctness of the modelled multiplication gate. -/
theorem mul_gate_correct (k : BitWidth) (x0 x1 y0 y1 : ArithmeticShare)
    (t0 t1 : ArithmeticTriple) (hx : x0.Delta = x1.Delta) (hy : y0.Delta = y1.Delta)
    (ht : wadd k t0.c t1.c = wmul k (wadd k t0.a t1.a) (wadd k t0.b t1.b)) :
    basic_make_arithmetic_output_gate_my k
        (make_mul_gate k x0 y0 t0 (mul_gate_message k x1 y1 t1))
        (make_mul_gate k x1 y1 t1 (mul_gate_message k x0 y0 t0)).delta =
      wmul k (basic_make_arithmetic_output_gate_my k x0 x1.delta)
        (basic_make_arithmetic_output_gate_my k y0 y1.delta) := by
  have hc : ((t0.c : ZMod k.modulus) + t1.c) =
      ((t0.a : ZMod k.modulus) + t1.a) * ((t0.b : ZMod k.modulus) + t1.b) := by
    have := congrArg (fun n : Nat => (n : ZMod k.modulus)) ht
    simpa only [cast_wadd, cast_wmul] using this
  apply eq_of_natCast_eq k.modulus _ _ (wsub_lt _ _ _) (wmul_lt _ _ _)
  simp only [basic_make_arithmetic_output_gate_my, make_mul_gate, mul_gate_message,
    mul_gate_opened, cast_wsub, cast_wadd, cast_wmul, Nat.cast_zero, hx, hy]
  linear_combination hc

/-- Both parties open the same value from the two exchanged terms. -/
theorem mul_gate_opened_comm (k : BitWidth) (Delta m p : Nat) :
    mul_gate_opened k Delta m p = mul_gate_opened k Delta p m := by
  apply eq_of_natCast_eq k.modulus _ _ (wadd_lt _ _ _) (wadd_lt _ _ _)
  simp only [mul_gate_opened, cast_wadd]
  ring

/-- The opened terms of the modelled multiplication gate are `e = x - a`
and `d = y - b` modulo `2^k`. -/
theorem mul_gate_opened_eq (k : BitWidth) (u0 u1 v0 v1 : ArithmeticShare)
    (s0 s1 : ArithmeticTriple) :
    mul_gate_opened k u0.Delta (mul_gate_message k u0 v0 s0).1 (mul_gate_message k u1 v1 s1).1 =
      wsub k (basic_make_arithmetic_output_gate_my k u0 u1.delta) (wadd k s0.a s1.a) ∧
    mul_gate_opened k v0.Delta (mul_gate_message k u0 v0 s0).2 (mul_gate_message k u1 v1 s1).2 =
      wsub k (basic_make_arithmetic_output_gate_my k v0 v1.delta) (wadd k s0.b s1.b) := by
  constructor
  · apply eq_of_natCast_eq k.modulus _ _ (wadd_lt _ _ _) (wsub_lt _ _ _)
    simp only [mul_gate_opened, mul_gate_message, basic_make_arithmetic_output_gate_my,
      cast_wadd, cast_wsub, Nat.cast_zero]
    ring
  · apply eq_of_natCast_eq k.modulus _ _ (wadd_lt _ _ _) (wsub_lt _ _ _)
    simp only [mul_gate_opened, mul_gate_message, basic_make_arithmetic_output_gate_my,
      cast_wadd, cast_wsub, Nat.cast_zero]
    ring

/-- The opened terms of the modelled AND gate are `e = x xor a` and
`d = y xor b`. -/
theorem and_gate_opened_eq (x0 x1 y0 y1 : BooleanShare) (t0 t1 : BooleanTriple) :
    and_gate_opened x0.Delta (and_gate_message x0 y0 t0).1 (and_gate_message x1 y1 t1).1 =
      Bool.xor (make_boolean_output_gate_my x0 x1.delta) (Bool.xor t0.a t1.a) ∧
    and_gate_opened y0.Delta (and_gate_message x0 y0 t0).2 (and_gate_message x1 y1 t1).2 =
      Bool.xor (make_boolean_output_gate_my y0 y1.delta) (Bool.xor t0.b t1.b) := by
  simp only [and_gate_opened, and_gate_message, make_boolean_output_gate_my]
  constructor
  · cases x0.Delta <;> cases x0.delta <;> cases x1.delta <;> cases t0.a <;> cases t1.a <;> rfl
  · cases y0.Delta <;> cases y0.delta <;> cases y1.delta <;> cases t0.b <;> cases t1.b <;> rfl

/-- C8: Beaver correctness of the GMW AND and multiplication gates, as
modelled from the specification.  For all shared inputs `x`, `y` (each
party holding the same public mask) and every valid triple `c = a·b`
shared between the parties: the exchanged terms open `e = x xor a` and
`d = y xor b`, both parties obtain the same public output mask, and the
value reconstructed from the two output shares is `x and y` for boolean
sharing and `x·y mod 2^k` for arithmetic sharing of every width `k`. -/
theorem beaver_correct (k : BitWidth) (x0 x1 y0 y1 : BooleanShare) (t0 t1 : BooleanTriple)
    (u0 u1 v0 v1 : ArithmeticShare) (s0 s1 : ArithmeticTriple)
    (hx : x0.Delta = x1.Delta) (hy : y0.Delta = y1.Delta)
    (ht : Bool.xor t0.c t1.c = (Bool.xor t0.a t1.a && Bool.xor t0.b t1.b))
    (hu : u0.Delta = u1.Delta) (hv : v0.Delta = v1.Delta)
    (hs : wadd k s0.c s1.c = wmul k (wadd k s0.a s1.a) (wadd k s0.b s1.b)) :
    (and_gate_opened x0.Delta (and_gate_message x0 y0 t0).1 (and_gate_message x1 y1 t1).1 =
        Bool.xor (make_boolean_output_gate_my x0 x1.delta) (Bool.xor t0.a t1.a) ∧
      and_gate_opened y0.Delta (and_gate_message x0 y0 t0).2 (and_gate_message x1 y1 t1).2 =
        Bool.xor (make_boolean_output_gate_my y0 y1.delta) (Bool.xor t0.b t1.b)) ∧
    (make_and_gate x0 y0 t0 (and_gate_message x1 y1 t1)).Delta =
      (make_and_gate x1 y1 t1 (and_gate_message x0 y0 t0)).Delta ∧
    make_boolean_output_gate_my
        (make_and_gate x0 y0 t0 (and_gate_message x1 y1 t1))
        (make_and_gate x1 y1 t1 (and_gate_message x0 y0 t0)).delta =
      (make_boolean_output_gate_my x0 x1.delta && make_boolean_output_gate_my y0 y1.delta) ∧
    (mul_gate_opened k u0.Delta (mul_gate_message k u0 v0 s0).1 (mul_gate_message k u1 v1 s1).1 =
        wsub k (basic_make_arithmetic_output_gate_my k u0 u1.delta) (wadd k s0.a s1.a) ∧
      mul_gate_opened k v0.Delta (mul_gate_message k u0 v0 s0).2 (mul_gate_message k u1 v1 s1).2 =
        wsub k (basic_make_arithmetic_output_gate_my k v0 v1.delta) (wadd k s0.b s1.b)) ∧
    (make_mul_gate k u0 v0 s0 (mul_gate_message k u1 v1 s1)).Delta =
      (make_mul_gate k u1 v1 s1 (mul_gate_message k u0 v0 s0)).Delta ∧
    basic_make_arithmetic_output_gate_my k
        (make_mul_gate k u0 v0 s0 (mul_gate_message k u1 v1 s1))
        (make_mul_gate k u1 v1 s1 (mul_gate_message k u0 v0 s0)).delta =
      (basic_make_arithmetic_output_gate_my k u0 u1.delta *
        basic_make_arithmetic_output_gate_my k v0 v1.delta) % 2 ^ k.bits := by
  refine ⟨and_gate_opened_eq x0 x1 y0 y1 t0 t1, ?_, and_gate_correct x0 x1 y0 y1 t0 t1 hx hy ht,
    mul_gate_opened_eq k u0 u1 v0 v1 s0 s1, ?_, mul_gate_correct k u0 u1 v0 v1 s0 s1 hu hv hs⟩
  · simp only [make_and_gate, and_gate_opened, and_gate_message, hx, hy]
    cases x1.Delta <;> cases y1.Delta <;> cases x0.delta <;> cases x1.delta <;>
      cases y0.delta <;> cases y1.delta <;> cases t0.a <;> cases t1.a <;>
      cases t0.b <;> cases t1.b <;> rfl
  · simp only [make_mul_gate, hu, hv]
    rw [mul_gate_opened_comm k u1.Delta, mul_gate_opened_comm k v1.Delta]

/-- Witness of C8: the bits `x = 0`, `y = 1` with the triple `1·1 = 1`, and
the bytes `x = 143`, `y = 8` with the triple `44·16 = 192 mod 256`; the
reconstructed products are `false` and `120 = 143·8 mod 256`. -/
theorem beaver_correct_witness :
    make_boolean_output_gate_my
        (make_and_gate ⟨true, false⟩ ⟨false, true⟩ ⟨true, false, true⟩
          (and_gate_message ⟨true, true⟩ ⟨false, false⟩ ⟨false, true, false⟩))
        (make_and_gate ⟨true, true⟩ ⟨false, false⟩ ⟨false, true, false⟩
          (and_gate_message ⟨true, false⟩ ⟨false, true⟩ ⟨true, false, true⟩)).delta =
      (make_boolean_output_gate_my ⟨true, false⟩ true &&
        make_boolean_output_gate_my ⟨false, true⟩ false) ∧
    basic_make_arithmetic_output_gate_my BitWidth.w8
        (make_mul_gate BitWidth.w8 ⟨200, 17⟩ ⟨5, 250⟩ ⟨100, 7, 100⟩
          (mul_gate_message BitWidth.w8 ⟨200, 40⟩ ⟨5, 3⟩ ⟨200, 9, 92⟩))
        (make_mul_gate BitWidth.w8 ⟨200, 40⟩ ⟨5, 3⟩ ⟨200, 9, 92⟩
          (mul_gate_message BitWidth.w8 ⟨200, 17⟩ ⟨5, 250⟩ ⟨100, 7, 100⟩)).delta =
      (basic_make_arithmetic_output_gate_my BitWidth.w8 ⟨200, 17⟩ 40 *
        basic_make_arithmetic_output_gate_my BitWidth.w8 ⟨5, 250⟩ 3) % 2 ^ BitWidth.w8.bits :=
  have h := beaver_correct BitWidth.w8 ⟨true, false⟩ ⟨true, true⟩ ⟨false, true⟩ ⟨false, false⟩
    ⟨true, false, true⟩ ⟨false, true, false⟩ ⟨200, 17⟩ ⟨200, 40⟩ ⟨5, 250⟩ ⟨5, 3⟩
    ⟨100, 7, 100⟩ ⟨200, 9, 92⟩ rfl rfl (by decide) rfl rfl (by decide)
  ⟨h.2.2.1, h.2.2.2.2.2⟩

/-- C9: the GMW XOR and addition gates are linear and local, as modelled
from the specification.  The output share of a party is computed from its
own two input shares alone, as `Delta_out = Delta_a xor Delta_b`,
`delta_out = delta_a xor delta_b` (boolean) or the component-wise sum modulo
`2^k` (arithmetic), and the value reconstructed from the two parties'
output shares is the XOR (the sum modulo `2^k`) of the values reconstructed
from their input shares. -/
theorem linear_gates (k : BitWidth) (a0 a1 b0 b1 : BooleanShare)
    (u0 u1 v0 v1 : ArithmeticShare) :
    make_xor_gate a0 b0 =
      { Delta := Bool.xor a0.Delta b0.Delta, delta := Bool.xor a0.delta b0.delta } ∧
    make_boolean_output_gate_my (make_xor_gate a0 b0) (make_xor_gate a1 b1).delta =
      Bool.xor (make_boolean_output_gate_my a0 a1.delta)
        (make_boolean_output_gate_my b0 b1.delta) ∧
    make_add_gate k u0 v0 =
      { Delta := (u0.Delta + v0.Delta) % 2 ^ k.bits,
        delta := (u0.delta + v0.delta) % 2 ^ k.bits } ∧
    basic_make_arithmetic_output_gate_my k (make_add_gate k u0 v0)
        (make_add_gate k u1 v1).delta =
      (basic_make_arithmetic_output_gate_my k u0 u1.delta +
        basic_make_arithmetic_output_gate_my k v0 v1.delta) % 2 ^ k.bits := by
  refine ⟨rfl, ?_, rfl, ?_⟩
  · simp only [make_boolean_output_gate_my, make_xor_gate]
    cases a0.Delta <;> cases a0.delta <;> cases a1.delta <;> cases b0.Delta <;>
      cases b0.delta <;> cases b1.delta <;> rfl
  · show _ = wadd k _ _
    apply eq_of_natCast_eq k.modulus _ _ (wsub_lt _ _ _) (wadd_lt _ _ _)
    simp only [basic_make_arithmetic_output_gate_my, make_add_gate, cast_wsub, cast_wadd]
    ring

/-- The wires of the modelled arithmetic input gate reconstruct the value
that was put in, at either party. -/
theorem input_gate_reconstructs (k : BitWidth) (v delta : Nat) (hv : v < k.modulus) :
    basic_make_arithmetic_output_gate_my k (basic_make_arithmetic_input_gate_my k v delta)
      (basic_make_arithmetic_input_gate_other k
        (basic_make_arithmetic_input_gate_my k v delta).Delta).delta = v := by
  apply eq_of_natCast_eq k.modulus _ _ (wsub_lt _ _ _) hv
  simp only [basic_make_arithmetic_output_gate_my, basic_make_arithmetic_input_gate_my,
    basic_make_arithmetic_input_gate_other, cast_wsub, cast_wadd, ZMod.natCast_mod,
    Nat.cast_zero]
  ring

end GMW

/-! ## Theorems: the conversion to Yao -/

namespace Yao

open GMW

theorem index_mod (data_size int_i bit_j : Nat) (hi : int_i < data_size) :
    (bit_j * data_size + int_i) % data_size = int_i := by
  rw [Nat.add_comm, Nat.add_mul_mod_self_right, Nat.mod_eq_of_lt hi]

theorem index_div (data_size int_i bit_j : Nat) (hi : int_i < data_size) :
    (bit_j * data_size + int_i) / data_size = bit_j := by
  rw [Nat.add_comm, Nat.add_mul_div_right _ _ (Nat.lt_of_le_of_lt (Nat.zero_le _) hi),
    Nat.div_eq_of_lt hi, Nat.zero_add]

theorem index_lt (data_size int_i bit_j : Nat) (hi : int_i < data_size)
    (hj : bit_j < bit_size) : bit_j * data_size + int_i < data_size * bit_size := by
  unfold bit_size at *
  nlinarith

/-- The two keys of a wire differ. -/
theorem xor_offset_ne (R : GlobalOffset) (k : Nat) : k ^^^ R.value ≠ k := by
  intro h
  have h0 : R.value = 0 := by
    have := Nat.xor_cancel_left k R.value
    rw [h, Nat.xor_self] at this
    exact this.symm
  have := R.colour
  rw [h0] at this
  exact absurd this (by decide)

/-- Putting the low `n` bits of `v` together gives `v mod 2^n`. -/
theorem bits_to_value_testBit (n v : Nat) :
    bits_to_value ((List.range n).map (fun j => v.testBit j)) = v % 2 ^ n := by
  induction n generalizing v with
  | zero => simp [bits_to_value, Nat.mod_one]
  | succ n ih =>
    rw [List.range_succ_eq_map, List.map_cons, List.map_map, bits_to_value]
    have hmap : (fun j => v.testBit j) ∘ Nat.succ = fun j => (v / 2).testBit j := by
      funext j
      exact Nat.testBit_succ v j
    rw [hmap, ih (v / 2), Nat.testBit_zero, Nat.pow_succ]
    have h2 : v % (2 ^ n * 2) = v % 2 + 2 * (v / 2 % 2 ^ n) := by
      rw [Nat.mul_comm (2 ^ n) 2, Nat.mod_mul]
    rw [h2]
    congr 1
    rcases Nat.mod_two_eq_zero_or_one v with h | h <;> simp [h]

/-- Lists of bits of the same length with the same value are equal. -/
theorem bits_to_value_injective (l1 l2 : List Bool) (hlen : l1.length = l2.length)
    (h : bits_to_value l1 = bits_to_value l2) : l1 = l2 := by
  induction l1 generalizing l2 with
  | nil =>
    cases l2 with
    | nil => rfl
    | cons b l2 => simp at hlen
  | cons a l1 ih =>
    cases l2 with
    | nil => simp at hlen
    | cons b l2 =>
      simp only [bits_to_value] at h
      have hab : a = b := by
        cases a <;> cases b <;> simp at h ⊢ <;> omega
      subst hab
      have hrest : bits_to_value l1 = bits_to_value l2 := by omega
      rw [ih l2 (by simpa using hlen) hrest]

theorem add_bits_length (as bs : List Bool) (c : Bool) (h : as.length = bs.length) :
    (add_bits as bs c).length = as.length := by
  induction as generalizing bs c with
  | nil => simp [add_bits]
  | cons a as ih =>
    cases bs with
    | nil => simp at h
    | cons b bs =>
      simp only [add_bits, List.length_cons]
      rw [ih bs _ (by simpa using h)]

theorem mod_two_mul (s q p N : Nat) (h : N = s + 2 * q) (hs : s < 2) :
    N % (2 * p) = s + 2 * (q % p) := by
  subst h
  rw [Nat.mod_mul]
  have h1 : (s + 2 * q) % 2 = s := by omega
  have h2 : (s + 2 * q) / 2 = q := by omega
  rw [h1, h2]

/-- The ripple-carry addition on plain bits adds modulo `2^n`. -/
theorem add_bits_value (as bs : List Bool) (c : Bool) (h : as.length = bs.length) :
    bits_to_value (add_bits as bs c) =
      (bits_to_value as + bits_to_value bs + c.toNat) % 2 ^ as.length := by
  induction as generalizing bs c with
  | nil => simp [add_bits, bits_to_value, Nat.mod_one]
  | cons a as ih =>
    cases bs with
    | nil => simp at h
    | cons b bs =>
      simp only [add_bits, bits_to_value, List.length_cons]
      rw [ih bs _ (by simpa using h), Nat.pow_succ, Nat.mul_comm (2 ^ as.length) 2]
      refine (mod_two_mul _ _ _ _ ?_ ?_).symm
      · cases a <;> cases b <;> cases c <;> simp <;> omega
      · cases a <;> cases b <;> cases c <;> decide

theorem input_garbler_spec (bit mask : Bool) :
    (input_garbler bit mask).value = bit ∧ (input_garbler bit mask).agree := by
  refine ⟨?_, rfl⟩
  simp only [SharedBit.value, input_garbler, make_boolean_output_gate_my,
    make_boolean_input_gate_my, make_boolean_input_gate_other]
  cases bit <;> cases mask <;> rfl

theorem input_evaluator_spec (bit mask : Bool) :
    (input_evaluator bit mask).value = bit ∧ (input_evaluator bit mask).agree := by
  refine ⟨?_, rfl⟩
  simp only [SharedBit.value, input_evaluator, make_boolean_output_gate_my,
    make_boolean_input_gate_my, make_boolean_input_gate_other]
  cases bit <;> cases mask <;> rfl

theorem zero_shared_spec : zero_shared.value = false ∧ zero_shared.agree :=
  ⟨rfl, rfl⟩

/-- The XOR gate on shared bits shares the XOR of the bits. -/
theorem xor_shared_spec (a b : SharedBit) (ha : a.agree) (hb : b.agree) :
    (xor_shared a b).value = Bool.xor a.value b.value ∧ (xor_shared a b).agree := by
  constructor
  · simp only [SharedBit.value, xor_shared, make_boolean_output_gate_my, make_xor_gate]
    cases a.garbler.Delta <;> cases a.garbler.delta <;> cases a.evaluator.delta <;>
      cases b.garbler.Delta <;> cases b.garbler.delta <;> cases b.evaluator.delta <;> rfl
  · simp only [SharedBit.agree] at ha hb ⊢
    simp only [xor_shared, make_xor_gate, ha, hb]

/-- The AND gate on shared bits, with a valid triple, shares the AND of the
bits (Beaver correctness), and both parties obtain the same public mask. -/
theorem and_shared_spec (a b : SharedBit) (t : BooleanTriple × BooleanTriple)
    (ha : a.agree) (hb : b.agree) (ht : valid_triple t) :
    (and_shared a b t).value = (a.value && b.value) ∧ (and_shared a b t).agree := by
  constructor
  · exact and_gate_correct a.garbler a.evaluator b.garbler b.evaluator t.1 t.2 ha hb ht
  · simp only [SharedBit.agree] at ha hb ⊢
    simp only [and_shared, make_and_gate, and_gate_opened, and_gate_message, ha, hb]
    cases a.evaluator.Delta <;> cases b.evaluator.Delta <;> cases a.garbler.delta <;>
      cases a.evaluator.delta <;> cases b.garbler.delta <;> cases b.evaluator.delta <;>
      cases t.1.a <;> cases t.2.a <;> cases t.1.b <;> cases t.2.b <;> rfl

/-- One position of the adder on shared bits computes the sum bit and the
carry of the plain full adder. -/
theorem full_adder_spec (a b c : SharedBit) (t : BooleanTriple × BooleanTriple)
    (ha : a.agree) (hb : b.agree) (hc : c.agree) (ht : valid_triple t) :
    (full_adder a b c t).1.value = Bool.xor (Bool.xor a.value b.value) c.value ∧
    (full_adder a b c t).1.agree ∧
    (full_adder a b c t).2.value =
      Bool.xor c.value (Bool.xor a.value c.value && Bool.xor b.value c.value) ∧
    (full_adder a b c t).2.agree := by
  obtain ⟨vab, gab⟩ := xor_shared_spec a b ha hb
  obtain ⟨vs, gs⟩ := xor_shared_spec (xor_shared a b) c gab hc
  obtain ⟨vac, gac⟩ := xor_shared_spec a c ha hc
  obtain ⟨vbc, gbc⟩ := xor_shared_spec b c hb hc
  obtain ⟨vand, gand⟩ := and_shared_spec (xor_shared a c) (xor_shared b c) t gac gbc ht
  obtain ⟨vcarry, gcarry⟩ := xor_shared_spec c
    (and_shared (xor_shared a c) (xor_shared b c) t) hc gand
  refine ⟨?_, gs, ?_, gcarry⟩
  · show (xor_shared (xor_shared a b) c).value = _
    rw [vs, vab]
  · show (xor_shared c (and_shared (xor_shared a c) (xor_shared b c) t)).value = _
    rw [vcarry, vand, vac, vbc]

/-- The ripple-carry addition on shared bits shares the sum bits of the
plain ripple-carry addition of the shared bits. -/
theorem ripple_carry_value (triples : Nat → BooleanTriple × BooleanTriple)
    (ht : ∀ n, valid_triple (triples n)) (n : Nat) (as bs : List SharedBit) (c : SharedBit)
    (has : ∀ a, a ∈ as → a.agree) (hbs : ∀ b, b ∈ bs → b.agree) (hc : c.agree) :
    (ripple_carry triples n as bs c).map SharedBit.value =
      add_bits (as.map SharedBit.value) (bs.map SharedBit.value) c.value := by
  induction as generalizing bs c n with
  | nil => simp [ripple_carry, add_bits]
  | cons a as ih =>
    cases bs with
    | nil => simp [ripple_carry, add_bits]
    | cons b bs =>
      obtain ⟨v1, _, v2, g2⟩ := full_adder_spec a b c (triples n)
        (has a (List.mem_cons_self _ _)) (hbs b (List.mem_cons_self _ _)) hc (ht n)
      simp only [ripple_carry, add_bits, List.map_cons]
      rw [ih (n + 1) bs _ (fun x hx => has x (List.mem_cons_of_mem _ hx))
        (fun x hx => hbs x (List.mem_cons_of_mem _ hx)) g2, v1, v2]

/-- The two summands add up to the value the arithmetic shares
reconstruct. -/
theorem summands_add (s0 s1 : ArithmeticShare) :
    (summand_garbler s0 + summand_evaluator s1) % 2 ^ 64 =
      basic_make_arithmetic_output_gate_my BitWidth.w64 s0 s1.delta := by
  show wadd BitWidth.w64 _ _ = _
  apply eq_of_natCast_eq BitWidth.w64.modulus _ _ (wadd_lt _ _ _) (wsub_lt _ _ _)
  simp only [summand_garbler, summand_evaluator, basic_make_arithmetic_output_gate_my,
    cast_wadd, cast_wsub, Nat.cast_zero]
  ring

theorem summand_lt (s : ArithmeticShare) :
    summand_garbler s < 2 ^ 64 ∧ summand_evaluator s < 2 ^ 64 :=
  ⟨wsub_lt BitWidth.w64 _ _, wsub_lt BitWidth.w64 _ _⟩

/-- The conversion to boolean GMW shares, bit by bit, the value the
arithmetic shares reconstruct. -/
theorem convert_to_boolean_value (masks_0 masks_1 : Nat → Bool)
    (triples : Nat → BooleanTriple × BooleanTriple) (ht : ∀ n, valid_triple (triples n))
    (s0 s1 : ArithmeticShare) :
    (convert_to_boolean masks_0 masks_1 triples s0 s1).map SharedBit.value =
      (List.range bit_size).map (fun bit_j =>
        (basic_make_arithmetic_output_gate_my BitWidth.w64 s0 s1.delta).testBit bit_j) := by
  unfold convert_to_boolean
  rw [ripple_carry_value triples ht 0 _ _ _
    (fun a ha => by
      obtain ⟨j, _, rfl⟩ := List.mem_map.mp ha
      exact (input_garbler_spec _ _).2)
    (fun b hb => by
      obtain ⟨j, _, rfl⟩ := List.mem_map.mp hb
      exact (input_evaluator_spec _ _).2)
    zero_shared_spec.2]
  have e0 : ((List.range bit_size).map (fun bit_j =>
      input_garbler ((summand_garbler s0).testBit bit_j) (masks_0 bit_j))).map
        SharedBit.value =
      (List.range bit_size).map (fun bit_j => (summand_garbler s0).testBit bit_j) := by
    rw [List.map_map]
    apply List.map_congr_left
    intro j _
    exact (input_garbler_spec _ _).1
  have e1 : ((List.range bit_size).map (fun bit_j =>
      input_evaluator ((summand_evaluator s1).testBit bit_j) (masks_1 bit_j))).map
        SharedBit.value =
      (List.range bit_size).map (fun bit_j => (summand_evaluator s1).testBit bit_j) := by
    rw [List.map_map]
    apply List.map_congr_left
    intro j _
    exact (input_evaluator_spec _ _).1
  rw [e0, e1, zero_shared_spec.1]
  apply bits_to_value_injective
  · rw [add_bits_length _ _ _ (by simp)]
    simp
  · rw [add_bits_value _ _ _ (by simp), bits_to_value_testBit, bits_to_value_testBit,
      bits_to_value_testBit]
    simp only [List.length_map, List.length_range, bit_size, Bool.toNat_false, Nat.add_zero]
    rw [Nat.mod_eq_of_lt (summand_lt s0).1, Nat.mod_eq_of_lt (summand_lt s1).2,
      summands_add]
    exact (Nat.mod_eq_of_lt (wsub_lt BitWidth.w64 _ _)).symm

/-- Re-keying hands the evaluator the key of the bit the wires share. -/
theorem rekey_eq (R : GlobalOffset) (zero_key : Nat) (w : SharedBit) :
    rekey R zero_key w = wire_key R zero_key w.value := by
  simp only [rekey, oblivious_transfer, SharedBit.value, make_boolean_output_gate_my]
  cases w.garbler.Delta <;> cases w.garbler.delta <;> cases w.evaluator.delta <;> rfl

theorem tensor_input_my_length (input : List Nat) (mask : Nat → Nat) :
    (make_arithmetic_64_tensor_input_my input mask).length = input.length := by
  simp [make_arithmetic_64_tensor_input_my]

/-- The two tensors the input gates build reconstruct the input, element
by element. -/
theorem tensor_input_reconstructs (input : List Nat) (mask : Nat → Nat)
    (hinput : ∀ v, v ∈ input → v < 2 ^ 64) (int_i : Nat) (hi : int_i < input.length) :
    basic_make_arithmetic_output_gate_my BitWidth.w64
      ((make_arithmetic_64_tensor_input_my input mask).getD int_i { Delta := 0, delta := 0 })
      ((make_arithmetic_64_tensor_input_other
        ((make_arithmetic_64_tensor_input_my input mask).map (fun s => s.Delta))).getD int_i
          { Delta := 0, delta := 0 }).delta = input[int_i] := by
  have h0 : (make_arithmetic_64_tensor_input_my input mask).getD int_i
      { Delta := 0, delta := 0 } =
      basic_make_arithmetic_input_gate_my BitWidth.w64 input[int_i] (mask int_i) := by
    simp [make_arithmetic_64_tensor_input_my, List.getD_eq_getElem?_getD,
      List.getElem?_range hi, List.getElem?_eq_getElem hi]
  have h1 : (make_arithmetic_64_tensor_input_other
      ((make_arithmetic_64_tensor_input_my input mask).map (fun s => s.Delta))).getD int_i
        { Delta := 0, delta := 0 } =
      basic_make_arithmetic_input_gate_other BitWidth.w64
        (basic_make_arithmetic_input_gate_my BitWidth.w64 input[int_i] (mask int_i)).Delta := by
    simp [make_arithmetic_64_tensor_input_other, make_arithmetic_64_tensor_input_my,
      List.getD_eq_getElem?_getD, List.getElem?_range hi, List.getElem?_eq_getElem hi]
  rw [h0, h1]
  exact input_gate_reconstructs BitWidth.w64 _ _ (hinput _ (List.getElem_mem _))

/-- The key the evaluator holds after the conversion, for element `int_i`
and bit `bit_j`, is the key of bit `bit_j` of the value the two tensors
reconstruct at `int_i`. -/
theorem convert_key (R : GlobalOffset) (fresh : Nat → Nat)
    (masks_0 masks_1 : Nat → Nat → Bool)
    (triples : Nat → Nat → BooleanTriple × BooleanTriple)
    (ht : ∀ int_i n, valid_triple (triples int_i n))
    (t0 t1 : List ArithmeticShare) (int_i bit_j : Nat) (hi : int_i < t0.length)
    (hj : bit_j < bit_size) :
    (make_convert_from_arithmetic_gmw_tensor R fresh masks_0 masks_1 triples t0 t1).1[
        bit_j * t0.length + int_i]? = some (fresh (bit_j * t0.length + int_i)) ∧
    (make_convert_from_arithmetic_gmw_tensor R fresh masks_0 masks_1 triples t0 t1).2[
        bit_j * t0.length + int_i]? =
      some (wire_key R (fresh (bit_j * t0.length + int_i))
        ((basic_make_arithmetic_output_gate_my BitWidth.w64
          (t0.getD int_i { Delta := 0, delta := 0 })
          (t1.getD int_i { Delta := 0, delta := 0 }).delta).testBit bit_j)) := by
  have hidx := index_lt t0.length int_i bit_j hi hj
  have hbits := convert_to_boolean_value (masks_0 int_i) (masks_1 int_i) (triples int_i)
    (ht int_i) (t0.getD int_i { Delta := 0, delta := 0 })
    (t1.getD int_i { Delta := 0, delta := 0 })
  have hbit : ((convert_to_boolean (masks_0 int_i) (masks_1 int_i) (triples int_i)
      (t0.getD int_i { Delta := 0, delta := 0 })
      (t1.getD int_i { Delta := 0, delta := 0 })).getD bit_j zero_shared).value =
      (basic_make_arithmetic_output_gate_my BitWidth.w64
        (t0.getD int_i { Delta := 0, delta := 0 })
        (t1.getD int_i { Delta := 0, delta := 0 }).delta).testBit bit_j := by
    have h := congrArg (fun l => l[bit_j]?) hbits
    simp only [List.getElem?_map, List.getElem?_range hj, Option.map_some'] at h
    cases hc : (convert_to_boolean (masks_0 int_i) (masks_1 int_i) (triples int_i)
      (t0.getD int_i { Delta := 0, delta := 0 })
      (t1.getD int_i { Delta := 0, delta := 0 }))[bit_j]? with
    | none => rw [hc] at h; simp at h
    | some w =>
      rw [hc] at h
      simp only [Option.map_some', Option.some.injEq] at h
      rw [List.getD_eq_getElem?_getD, hc]
      exact h
  constructor
  · simp only [make_convert_from_arithmetic_gmw_tensor, List.getElem?_map,
      List.getElem?_range hidx, Option.map_some']
  · simp only [make_convert_from_arithmetic_gmw_tensor, List.getElem?_map,
      List.getElem?_range hidx, Option.map_some', index_mod _ _ _ hi, index_div _ _ _ hi,
      rekey_eq, hbit]

/-- C6: free-XOR invariant after converting an arithmetic-GMW tensor to Yao,
as modelled from the specification.  For every input vector of 64-bit
integers of length `data_size` that party 0 puts into its tensor input
gate, whatever masks, zero keys and (valid) triples are drawn, the garbler's
zero-key vector and the evaluator's key vector both have length
`data_size * 64`, and for every element `int_i` and bit `bit_j`, at
`idx = bit_j * data_size + int_i`, the evaluator's key is the zero key XOR
`R` when bit `bit_j` of `input[int_i]` is 1 and the zero key otherwise. -/
theorem free_xor_invariant (R : GlobalOffset) (fresh mask : Nat → Nat)
    (masks_0 masks_1 : Nat → Nat → Bool)
    (triples : Nat → Nat → BooleanTriple × BooleanTriple) (input : List Nat)
    (hinput : ∀ v, v ∈ input → v < 2 ^ 64)
    (htriples : ∀ int_i n, valid_triple (triples int_i n))
    (int_i bit_j : Nat) (hi : int_i < input.length) (hj : bit_j < 64) :
    (ConversionToYao R fresh mask masks_0 masks_1 triples input).1.length =
      input.length * 64 ∧
    (ConversionToYao R fresh mask masks_0 masks_1 triples input).2.length =
      input.length * 64 ∧
    ∃ zero_key,
      (ConversionToYao R fresh mask masks_0 masks_1 triples input).1[
        bit_j * input.length + int_i]? = some zero_key ∧
      (ConversionToYao R fresh mask masks_0 masks_1 triples input).2[
        bit_j * input.length + int_i]? =
        some (if input[int_i].testBit bit_j then zero_key ^^^ R.value else zero_key) := by
  have hlen := tensor_input_my_length input mask
  have hkey := convert_key R fresh masks_0 masks_1 triples htriples
    (make_arithmetic_64_tensor_input_my input mask)
    (make_arithmetic_64_tensor_input_other
      ((make_arithmetic_64_tensor_input_my input mask).map (fun s => s.Delta)))
    int_i bit_j (by rw [hlen]; exact hi) hj
  rw [hlen, tensor_input_reconstructs input mask hinput int_i hi] at hkey
  refine ⟨?_, ?_, fresh (bit_j * input.length + int_i), hkey.1, hkey.2⟩
  · simp [ConversionToYao, make_convert_from_arithmetic_gmw_tensor, hlen, bit_size]
  · simp [ConversionToYao, make_convert_from_arithmetic_gmw_tensor, hlen, bit_size]

/-- Witness of C6: bit 2 of element 0 (the value 5) of the example input,
at index `2 * 2 + 0`: the evaluator's key is the zero key XOR `R`. -/
theorem free_xor_invariant_witness :
    ∃ zero_key,
      (ConversionToYao demoOffset demoFresh demoFresh demoBitMasks demoBitMasks demoTriples
        demoInput).1[2 * demoInput.length + 0]? = some zero_key ∧
      (ConversionToYao demoOffset demoFresh demoFresh demoBitMasks demoBitMasks demoTriples
        demoInput).2[2 * demoInput.length + 0]? =
        some (if (demoInput.get ⟨0, by decide⟩).testBit 2 then zero_key ^^^ demoOffset.value
          else zero_key) :=
  (free_xor_invariant demoOffset demoFresh demoFresh demoBitMasks demoBitMasks demoTriples
    demoInput (by decide) (fun _ _ => rfl) 0 2 (by decide) (by decide)).2.2

end Yao

/-! ## Theorems: the gate drivers of `test_yao_tensor.cpp` -/

namespace YaoGMWTensorTest

theorem flagged_cons (gate : NewGate) (rest : List NewGate) (flag : NewGate → Bool) :
    flagged (gate :: rest) flag =
      (if flag gate then [0] else []) ++ (flagged rest flag).map Nat.succ := by
  simp only [flagged, List.length_cons, List.range_succ_eq_map, List.filter_cons,
    List.filter_map]
  have h0 : flag_at (gate :: rest) flag 0 = flag gate := by simp [flag_at]
  have hs : (flag_at (gate :: rest) flag ∘ Nat.succ) = flag_at rest flag := by
    funext p
    simp [flag_at]
  rw [h0, hs]
  cases flag gate <;> simp

theorem setup_loop_eq (gates : List NewGate) (position : Nat) :
    setup_loop gates position =
      (flagged gates NewGate.need_setup).map (fun p => Call.evaluate_setup (position + p)) := by
  induction gates generalizing position with
  | nil => simp [setup_loop, flagged]
  | cons gate rest ih =>
    rw [setup_loop, flagged_cons, ih]
    cases gate.need_setup <;>
      simp [List.map_map, Function.comp, Nat.add_assoc, Nat.add_comm 1]

theorem online_loop_eq (gates : List NewGate) (position : Nat) :
    online_loop gates position =
      (flagged gates NewGate.need_online).map (fun p => Call.evaluate_online (position + p)) := by
  induction gates generalizing position with
  | nil => simp [online_loop, flagged]
  | cons gate rest ih =>
    rw [online_loop, flagged_cons, ih]
    cases gate.need_online <;>
      simp [List.map_map, Function.comp, Nat.add_assoc, Nat.add_comm 1]

theorem flagged_nodup (gates : List NewGate) (flag : NewGate → Bool) :
    (flagged gates flag).Nodup :=
  List.Nodup.filter _ (List.nodup_range _)

theorem flagged_pairwise (gates : List NewGate) (flag : NewGate → Bool) :
    (flagged gates flag).Pairwise (fun a b => a < b) :=
  List.Pairwise.sublist (List.filter_sublist _) (List.pairwise_lt_range _)

theorem mem_flagged (gates : List NewGate) (flag : NewGate → Bool) (p : Nat) :
    p ∈ flagged gates flag ↔ flag_at gates flag p = true := by
  simp only [flagged, List.mem_filter, List.mem_range, and_iff_right_iff_imp]
  intro h
  unfold flag_at at h
  by_contra hc
  rw [List.getElem?_eq_none (by omega)] at h
  simp at h

theorem count_flagged (gates : List NewGate) (flag : NewGate → Bool) (p : Nat) :
    (flagged gates flag).count p = if flag_at gates flag p then 1 else 0 := by
  rw [List.count_eq_of_nodup (flagged_nodup gates flag)]
  by_cases h : flag_at gates flag p = true
  · simp [h, (mem_flagged gates flag p).mpr h]
  · have hn : p ∉ flagged gates flag := fun hm => h ((mem_flagged gates flag p).mp hm)
    simp [h, hn]

theorem count_map_setup (l : List Nat) (p : Nat) :
    (l.map Call.evaluate_setup).count (Call.evaluate_setup p) = l.count p ∧
    (l.map Call.evaluate_setup).count (Call.evaluate_online p) = 0 := by
  induction l with
  | nil => simp
  | cons a l ih =>
    simp only [List.map_cons, List.count_cons, ih.1, ih.2]
    constructor
    · by_cases h : a = p <;> simp [h]
    · simp

theorem count_map_online (l : List Nat) (p : Nat) :
    (l.map Call.evaluate_online).count (Call.evaluate_online p) = l.count p ∧
    (l.map Call.evaluate_online).count (Call.evaluate_setup p) = 0 := by
  induction l with
  | nil => simp
  | cons a l ih =>
    simp only [List.map_cons, List.count_cons, ih.1, ih.2]
    constructor
    · by_cases h : a = p <;> simp [h]
    · simp

/-- The calls of one setup loop, and how often each call occurs. -/
theorem setup_loop_calls (gates : List NewGate) :
    setup_loop gates 0 = (flagged gates NewGate.need_setup).map Call.evaluate_setup ∧
    ∀ p, (setup_loop gates 0).count (Call.evaluate_setup p) =
        (if flag_at gates NewGate.need_setup p then 1 else 0) ∧
      (setup_loop gates 0).count (Call.evaluate_online p) = 0 := by
  have h : setup_loop gates 0 = (flagged gates NewGate.need_setup).map Call.evaluate_setup := by
    rw [setup_loop_eq]
    simp
  refine ⟨h, fun p => ?_⟩
  rw [h, (count_map_setup _ p).1, (count_map_setup _ p).2, count_flagged]
  exact ⟨rfl, rfl⟩

/-- The calls of one online loop, and how often each call occurs. -/
theorem online_loop_calls (gates : List NewGate) :
    online_loop gates 0 = (flagged gates NewGate.need_online).map Call.evaluate_online ∧
    ∀ p, (online_loop gates 0).count (Call.evaluate_online p) =
        (if flag_at gates NewGate.need_online p then 1 else 0) ∧
      (online_loop gates 0).count (Call.evaluate_setup p) = 0 := by
  have h : online_loop gates 0 =
      (flagged gates NewGate.need_online).map Call.evaluate_online := by
    rw [online_loop_eq]
    simp
  refine ⟨h, fun p => ?_⟩
  rw [h, (count_map_online _ p).1, (count_map_online _ p).2, count_flagged]
  exact ⟨rfl, rfl⟩

/-- C11: the drivers `run_gates_setup` and `run_gates_online` evaluate, for
each party's register, exactly the gates whose `need_setup()` (respectively
`need_online()`) is true: the calls of each task are the calls on the
flagged positions in register order, the call on a position occurs once
when its flag is true and never when it is false, the flagged positions are
strictly increasing, and neither driver makes a call of the other phase. -/
theorem drivers_evaluate_once (gates_g gates_e : List NewGate) :
    ((run_gates_setup gates_g gates_e).1 =
        (flagged gates_g NewGate.need_setup).map Call.evaluate_setup ∧
      (run_gates_setup gates_g gates_e).2 =
        (flagged gates_e NewGate.need_setup).map Call.evaluate_setup ∧
      (run_gates_online gates_g gates_e).1 =
        (flagged gates_g NewGate.need_online).map Call.evaluate_online ∧
      (run_gates_online gates_g gates_e).2 =
        (flagged gates_e NewGate.need_online).map Call.evaluate_online) ∧
    (∀ p,
      (run_gates_setup gates_g gates_e).1.count (Call.evaluate_setup p) =
        (if flag_at gates_g NewGate.need_setup p then 1 else 0) ∧
      (run_gates_setup gates_g gates_e).2.count (Call.evaluate_setup p) =
        (if flag_at gates_e NewGate.need_setup p then 1 else 0) ∧
      (run_gates_online gates_g gates_e).1.count (Call.evaluate_online p) =
        (if flag_at gates_g NewGate.need_online p then 1 else 0) ∧
      (run_gates_online gates_g gates_e).2.count (Call.evaluate_online p) =
        (if flag_at gates_e NewGate.need_online p then 1 else 0)) ∧
    (∀ p,
      (run_gates_setup gates_g gates_e).1.count (Call.evaluate_online p) = 0 ∧
      (run_gates_setup gates_g gates_e).2.count (Call.evaluate_online p) = 0 ∧
      (run_gates_online gates_g gates_e).1.count (Call.evaluate_setup p) = 0 ∧
      (run_gates_online gates_g gates_e).2.count (Call.evaluate_setup p) = 0) ∧
    (∀ flag, (flagged gates_g flag).Pairwise (fun a b => a < b) ∧
      (flagged gates_e flag).Pairwise (fun a b => a < b)) ∧
    (∀ gates flag p, p ∈ flagged gates flag ↔
      ∃ gate, gates[p]? = some gate ∧ flag gate = true) := by
  refine ⟨⟨(setup_loop_calls gates_g).1, (setup_loop_calls gates_e).1,
    (online_loop_calls gates_g).1, (online_loop_calls gates_e).1⟩, ?_, ?_, ?_, ?_⟩
  · intro p
    exact ⟨((setup_loop_calls gates_g).2 p).1, ((setup_loop_calls gates_e).2 p).1,
      ((online_loop_calls gates_g).2 p).1, ((online_loop_calls gates_e).2 p).1⟩
  · intro p
    exact ⟨((setup_loop_calls gates_g).2 p).2, ((setup_loop_calls gates_e).2 p).2,
      ((online_loop_calls gates_g).2 p).2, ((online_loop_calls gates_e).2 p).2⟩
  · intro flag
    exact ⟨flagged_pairwise gates_g flag, flagged_pairwise gates_e flag⟩
  · intro gates flag p
    rw [mem_flagged]
    unfold flag_at
    cases gates[p]? with
    | none => simp
    | some gate => simp

/-- Example of C11 on a register of four gates, used by both parties. -/
theorem drivers_evaluate_once_witness :
    (run_gates_setup demoRegister demoRegister).1 =
        [Call.evaluate_setup 0, Call.evaluate_setup 2] ∧
      (run_gates_online demoRegister demoRegister).2 =
        [Call.evaluate_online 0, Call.evaluate_online 1] := by
  have h := (drivers_evaluate_once demoRegister demoRegister).1
  exact ⟨h.1.trans (by decide), h.2.2.2.trans (by decide)⟩

end YaoGMWTensorTest

/-! ## Theorems: `Reconstruct.cpp`, option parsing, missing files and the reads of the scan -/

namespace Reconstruct

theorem scanReads_succ (v : List Bool) (fuel i : Nat) :
    scanReads v (fuel + 1) i =
      match v[i]? with
      | some b => if b != false then i :: scanReads v fuel (i + 1) else [i]
      | none => [i] := rfl

/-- A scan that ends at `k`, inside or outside the vector, has read the
indices from its start up to `k`. -/
theorem scanReads_of_result (v : List Bool) (fuel i k : Nat)
    (h : scanFrom v fuel i = .found k ∨ scanFrom v fuel i = .outOfRange k) :
    scanReads v fuel i = List.range' i (k + 1 - i) := by
  induction fuel generalizing i with
  | zero => simp [scanFrom] at h
  | succ fuel ih =>
    rw [scanFrom_succ] at h
    rw [scanReads_succ]
    cases hv : v[i]? with
    | none =>
      simp only [hv, ScanResult.outOfRange.injEq, false_or, reduceCtorEq] at h
      subst h
      simp
    | some b =>
      cases b with
      | false =>
        simp only [hv, bne_self_eq_false, Bool.false_eq_true, if_false,
          ScanResult.found.injEq, or_false, reduceCtorEq] at h
        subst h
        simp
      | true =>
        simp only [hv, Bool.true_bne, Bool.not_false, if_true] at h
        have hle : i + 1 ≤ k := by
          rcases h with h | h
          · exact (scanFrom_found v fuel (i + 1) k h).1
          · exact (scanFrom_outOfRange v fuel (i + 1) k h).1
        simp only [Bool.true_bne, Bool.not_false, if_true]
        rw [ih (i + 1) h]
        have e : k + 1 - i = (k + 1 - (i + 1)) + 1 := by omega
        rw [e, List.range'_succ]

/-- C18: bounds of the answer scan.  On ten reconstructed bits the scan
reads only indices `0..9` if and only if at least one bit is zero, and it
ends with an answer in `0..9` if and only if at least one bit is zero; with
a zero bit it reads exactly the indices up to the answer, and when all ten
bits are 1 it reads the indices `0..10`, index 10 lying outside the
sequence. -/
theorem scan_bounds (v : List Bool) (hlen : v.length = 10) :
    ((∃ k, k < 10 ∧ answerScan v = .found k) ↔ false ∈ v) ∧
    ((∀ i, i ∈ answerScanReads v → i < 10) ↔ false ∈ v) ∧
    (false ∈ v → ∃ k, k < 10 ∧ answerScan v = .found k ∧
      answerScanReads v = List.range (k + 1)) ∧
    (false ∉ v → answerScan v = .outOfRange 10 ∧ answerScanReads v = List.range 11 ∧
      10 ∈ answerScanReads v ∧ v[10]? = none) := by
  have hyes : false ∈ v → ∃ k, k < 10 ∧ answerScan v = .found k ∧
      answerScanReads v = List.range (k + 1) := by
    intro hz
    obtain ⟨k, hk, hlt, _, _⟩ := answerScan_of_mem v hz
    refine ⟨k, by omega, hk, ?_⟩
    unfold answerScanReads
    rw [scanReads_of_result v _ 0 k (Or.inl hk), List.range_eq_range']
    rfl
  have hno : false ∉ v → answerScan v = .outOfRange 10 ∧ answerScanReads v = List.range 11 ∧
      10 ∈ answerScanReads v ∧ v[10]? = none := by
    intro hz
    have hscan : answerScan v = .outOfRange 10 := by
      cases hs : answerScan v with
      | found k =>
        have h2 := (scanFrom_found v _ 0 k hs).2.1
        exact absurd (List.getElem?_mem h2) hz
      | outOfRange k =>
        have h3 := (scanFrom_outOfRange v _ 0 k hs).2.2.1 (Nat.zero_le _)
        rw [h3, hlen]
      | outOfFuel =>
        exact absurd hs (scanFrom_ne_outOfFuel v _ 0 (Nat.zero_le _) (by omega))
    have hreads : answerScanReads v = List.range 11 := by
      unfold answerScanReads
      rw [scanReads_of_result v _ 0 10 (Or.inr hscan), List.range_eq_range']
    refine ⟨hscan, hreads, ?_, ?_⟩
    · rw [hreads]; simp
    · exact List.getElem?_eq_none (by omega)
  refine ⟨⟨?_, fun hz => ?_⟩, ⟨?_, fun hz => ?_⟩, hyes, hno⟩
  · rintro ⟨k, _, hk⟩
    by_contra hz
    rw [(hno hz).1] at hk
    simp at hk
  · obtain ⟨k, hk, hs, _⟩ := hyes hz
    exact ⟨k, hk, hs⟩
  · intro hall
    by_contra hz
    exact absurd (hall 10 (hno hz).2.2.1) (by omega)
  · obtain ⟨k, hk, _, hr⟩ := hyes hz
    intro i hi
    rw [hr, List.mem_range] at hi
    omega

/-- Witness of C18 on the bits reconstructed from the example files. -/
theorem scan_bounds_witness :
    ∃ k, k < 10 ∧
      answerScan [true, true, false, true, true, true, true, true, true, true] = .found k ∧
      answerScanReads [true, true, false, true, true, true, true, true, true, true] =
        List.range (k + 1) :=
  (scan_bounds [true, true, false, true, true, true, true, true, true, true]
    (by decide)).2.2.1 (by decide)

/-- Evaluation for C15: whenever `parse_program_options` returns no
`Options`, as it does for every command line with `--help`, `main` goes on
to evaluate `options->currentpath` on the empty optional instead of
returning: the process does not end with exit code 1.  On the example
command line `--help --current-path /tmp --index 3` this is the outcome
`undefined_behaviour`. -/
theorem help_does_not_exit_one :
    main_process demoFs { help := true, current_path := some "/tmp", index := some "3" }
        demoGarbage demoGarbage 0 = Process.undefined_behaviour ∧
    (∀ (cp idx : Option String),
      parse_program_options { help := true, current_path := cp, index := idx } =
        Parsed.returned none) ∧
    (∀ (fs : FileSystem) (cl : CommandLine) (g0 g1 : Nat → Shares) (gap : Nat),
      parse_program_options cl = Parsed.returned none →
      main_process fs cl g0 g1 gap = Process.undefined_behaviour ∧
      ∀ out, main_process fs cl g0 g1 gap ≠ Process.exited 1 out) := by
  refine ⟨by decide, fun cp idx => rfl, ?_⟩
  intro fs cl g0 g1 gap h
  have hm : main_process fs cl g0 g1 gap = Process.undefined_behaviour := by
    simp only [main_process, h]
  exact ⟨hm, fun out => by rw [hm]; simp⟩

/-- Everything a run prints: the message about a missing file, the
mismatch lines, and the answer line. -/
theorem main_out_eq (fs : FileSystem) (options : Options) (g0 g1 : Nat → Shares)
    (gap : Nat) :
    (main fs options g0 g1 gap).out =
      notFoundMessages fs options ++
        (mismatches (main fs options g0 g1 gap).shares_data_0
          (main fs options g0 g1 gap).shares_data_1 10).map Out.errorAt ++
        [Out.answer options.index (main fs options g0 g1 gap).i] := by
  simp only [main]
  have h := forLoop_out 10
    { file1 := IFStream.open fs (t1 options)
      file2 := IFStream.open fs (t2 options)
      shares_data_0 := g0
      shares_data_1 := g1
      final_answer := []
      out := notFoundMessages fs options }
  rw [h]

/-- C16: missing share files are logged, not fatal.  In every run in which
server0's file cannot be opened the first thing printed is the message
naming it; otherwise, when server1's file cannot be opened, the message
names server1's file; when both files exist no such message is printed.  In
every run, whichever file is missing, the loop still reconstructs ten
elements and the run goes on to the last statement: all it prints is the
message (if any), the mismatch lines and, last, the answer line; with a
zero bit among the ten the answer is the index of the first one. -/
theorem missing_files_logged (fs : FileSystem) (options : Options) (g0 g1 : Nat → Shares)
    (gap : Nat) :
    (fs (t1 options) = none →
      (main fs options g0 g1 gap).out.head? = some (Out.fileNotFound (t1 options))) ∧
    (fs (t1 options) ≠ none → fs (t2 options) = none →
      (main fs options g0 g1 gap).out.head? = some (Out.fileNotFound (t2 options))) ∧
    (fs (t1 options) ≠ none → fs (t2 options) ≠ none →
      ∀ p, Out.fileNotFound p ∉ (main fs options g0 g1 gap).out) ∧
    (main fs options g0 g1 gap).final_answer.length = 10 ∧
    (main fs options g0 g1 gap).out =
      notFoundMessages fs options ++
        (mismatches (main fs options g0 g1 gap).shares_data_0
          (main fs options g0 g1 gap).shares_data_1 10).map Out.errorAt ++
        [Out.answer options.index (main fs options g0 g1 gap).i] ∧
    (main fs options g0 g1 gap).out.getLast? =
      some (Out.answer options.index (main fs options g0 g1 gap).i) ∧
    (false ∈ (main fs options g0 g1 gap).final_answer →
      ∃ k, k < 10 ∧ (main fs options g0 g1 gap).scan = .found k ∧
        (main fs options g0 g1 gap).i = k) := by
  have hlen : (main fs options g0 g1 gap).final_answer.length = 10 := by
    rw [main_final_answer]; simp
  refine ⟨?_, ?_, ?_, hlen, main_out_eq fs options g0 g1 gap,
    main_out_last fs options g0 g1 gap, main_i_of_mem fs options g0 g1 gap⟩
  · intro h
    rw [main_out_eq]
    simp [notFoundMessages, h]
  · intro h1 h2
    rw [main_out_eq]
    have h1s : (fs (t1 options)).isNone = false := by
      cases hx : fs (t1 options) with
      | none => exact absurd hx h1
      | some _ => rfl
    simp [notFoundMessages, h1s, h2]
  · intro h1 h2 p
    rw [main_out_eq]
    have h1s : (fs (t1 options)).isNone = false := by
      cases hx : fs (t1 options) with
      | none => exact absurd hx h1
      | some _ => rfl
    have h2s : (fs (t2 options)).isNone = false := by
      cases hx : fs (t2 options) with
      | none => exact absurd hx h2
      | some _ => rfl
    simp [notFoundMessages, h1s, h2s]

/-- Example of C16: with server0's file missing the message about it comes
first, ten elements are still reconstructed, and the answer line is
printed; the ten bits are all 1 here, so the answer lies behind the
vector. -/
theorem missing_files_logged_witness :
    (main missingFs demoOptions demoGarbage demoGarbage 2).out.head? =
        some (Out.fileNotFound (t1 demoOptions)) ∧
      (main missingFs demoOptions demoGarbage demoGarbage 2).final_answer.length = 10 ∧
      (main missingFs demoOptions demoGarbage demoGarbage 2).out =
        [Out.fileNotFound "/tmp/server0_shares_X3", Out.answer "3" 12] :=
  ⟨(missing_files_logged missingFs demoOptions demoGarbage demoGarbage 2).1 (by decide),
    (missing_files_logged missingFs demoOptions demoGarbage demoGarbage 2).2.2.2.1,
    (missing_files_logged missingFs demoOptions demoGarbage demoGarbage
      2).2.2.2.2.1.trans (by decide)⟩

end Reconstruct

/-! ## Theorems: `Weights_Share_Receiver.cpp` -/

namespace WeightsShareReceiver

theorem getline_length (delim : Char) (s token rest : List Char)
    (h : getline delim s = some (token, rest)) : rest.length < s.length := by
  induction s generalizing token rest with
  | nil => simp [getline] at h
  | cons c cs ih =>
    rw [getline] at h
    split at h
    · simp only [Option.some.injEq, Prod.mk.injEq] at h
      rw [← h.2]
      simp
    · cases hg : getline delim cs with
      | none =>
        simp only [hg, Option.some.injEq, Prod.mk.injEq] at h
        rw [← h.2]
        simp
      | some tr =>
        obtain ⟨t, r⟩ := tr
        simp only [hg, Option.some.injEq, Prod.mk.injEq] at h
        rw [← h.2]
        have := ih t r hg
        simp only [List.length_cons]
        omega

/-- A token without the delimiter that the delimiter follows is extracted
whole. -/
theorem getline_token_delim (delim : Char) (token rest : List Char) (h : delim ∉ token) :
    getline delim (token ++ delim :: rest) = some (token, rest) := by
  induction token with
  | nil => simp [getline]
  | cons c cs ih =>
    have hc : c ≠ delim := fun e => h (by rw [e]; exact List.mem_cons_self _ _)
    have hcs : delim ∉ cs := fun e => h (List.mem_cons_of_mem _ e)
    have e : getline delim (c :: (cs ++ delim :: rest)) =
        match getline delim (cs ++ delim :: rest) with
        | none => some ([c], [])
        | some (token, rest) => some (c :: token, rest) := by
      rw [getline]
      simp [hc]
    rw [List.cons_append, e, ih hcs]

/-- A non-empty token without the delimiter that ends the stream is
extracted whole. -/
theorem getline_token_end (delim : Char) (token : List Char) (hne : token ≠ [])
    (h : delim ∉ token) : getline delim token = some (token, []) := by
  induction token with
  | nil => exact absurd rfl hne
  | cons c cs ih =>
    have hc : c ≠ delim := fun e => h (by rw [e]; exact List.mem_cons_self _ _)
    have hcs : delim ∉ cs := fun e => h (List.mem_cons_of_mem _ e)
    cases cs with
    | nil => simp [getline, hc]
    | cons d ds =>
      have e : getline delim (c :: d :: ds) =
          match getline delim (d :: ds) with
          | none => some ([c], [])
          | some (token, rest) => some (c :: token, rest) := by
        rw [getline]
        simp [hc]
      rw [e, ih (by simp) hcs]

/-- The budget of `read_cells` is never used up: any two budgets above the
number of characters left give the same result. -/
theorem read_cells_fuel (fuel1 fuel2 : Nat) (s : List Char) (data : List String)
    (h1 : s.length < fuel1) (h2 : s.length < fuel2) :
    read_cells fuel1 s data = read_cells fuel2 s data := by
  induction fuel1 generalizing fuel2 s data with
  | zero => omega
  | succ fuel1 ih =>
    cases fuel2 with
    | zero => omega
    | succ fuel2 =>
      rw [read_cells, read_cells]
      cases hg : getline ' ' s with
      | none => rfl
      | some tr =>
        obtain ⟨t, r⟩ := tr
        have hl := getline_length ' ' s t r hg
        exact ih fuel2 r _ (by omega) (by omega)

/-- The budget of `read_lines` is never used up. -/
theorem read_lines_fuel (fuel1 fuel2 : Nat) (s : List Char) (data : List String)
    (h1 : s.length < fuel1) (h2 : s.length < fuel2) :
    read_lines fuel1 s data = read_lines fuel2 s data := by
  induction fuel1 generalizing fuel2 s data with
  | zero => omega
  | succ fuel1 ih =>
    cases fuel2 with
    | zero => omega
    | succ fuel2 =>
      rw [read_lines, read_lines]
      cases hg : getline '\n' s with
      | none => rfl
      | some tr =>
        obtain ⟨t, r⟩ := tr
        have hl := getline_length '\n' s t r hg
        exact ih fuel2 r _ (by omega) (by omega)

/-- An identifier of a config file: not empty, no space, no newline. -/
theorem config_line_data (id : String) (rest : List String) (hrest : rest ≠ []) :
    (config_line (id :: rest)).data = id.data ++ ' ' :: (config_line rest).data := by
  cases rest with
  | nil => exact absurd rfl hrest
  | cons b bs =>
    simp only [config_line, String.data_append]
    simp

theorem config_line_no_newline (ids : List String)
    (h : ∀ id, id ∈ ids → id ≠ "" ∧ ' ' ∉ id.data ∧ '\n' ∉ id.data) :
    '\n' ∉ (config_line ids).data := by
  induction ids with
  | nil => simp [config_line]
  | cons a rest ih =>
    cases rest with
    | nil =>
      simp only [config_line]
      exact (h a (List.mem_cons_self _ _)).2.2
    | cons b bs =>
      rw [config_line_data a (b :: bs) (by simp)]
      have ha := (h a (List.mem_cons_self _ _)).2.2
      have hr := ih (fun id hid => h id (List.mem_cons_of_mem _ hid))
      simp only [List.mem_append, List.mem_cons, not_or]
      exact ⟨ha, by decide, hr⟩

theorem config_line_ne_nil (ids : List String) (hne : ids ≠ [])
    (h : ∀ id, id ∈ ids → id ≠ "" ∧ ' ' ∉ id.data ∧ '\n' ∉ id.data) :
    (config_line ids).data ≠ [] := by
  cases ids with
  | nil => exact absurd rfl hne
  | cons a rest =>
    have ha : a.data ≠ [] := by
      intro e
      apply (h a (List.mem_cons_self _ _)).1
      exact String.ext e
    cases rest with
    | nil => simpa [config_line] using ha
    | cons b bs =>
      rw [config_line_data a (b :: bs) (by simp)]
      simp

/-- The inner loop pushes the identifiers of one line, in order. -/
theorem read_cells_config_line (ids : List String) (fuel : Nat) (data : List String)
    (h : ∀ id, id ∈ ids → id ≠ "" ∧ ' ' ∉ id.data ∧ '\n' ∉ id.data)
    (hfuel : ids.length < fuel) :
    read_cells fuel (config_line ids).data data = data ++ ids := by
  induction ids generalizing fuel data with
  | nil =>
    cases fuel with
    | zero => omega
    | succ fuel => simp [config_line, read_cells, getline]
  | cons a rest ih =>
    cases fuel with
    | zero => omega
    | succ fuel =>
      have ha := h a (List.mem_cons_self _ _)
      have ha0 : a.data ≠ [] := fun e => ha.1 (String.ext e)
      cases rest with
      | nil =>
        simp only [config_line, read_cells, getline_token_end ' ' a.data ha0 ha.2.1]
        cases fuel with
        | zero => rfl
        | succ fuel => simp [read_cells, getline]
      | cons b bs =>
        rw [config_line_data a (b :: bs) (by simp), read_cells,
          getline_token_delim ' ' a.data _ ha.2.1]
        simp only []
        rw [ih fuel _ (fun id hid => h id (List.mem_cons_of_mem _ hid))
          (by simp only [List.length_cons] at hfuel ⊢; omega)]
        simp

theorem length_le_config_line (ids : List String)
    (h : ∀ id, id ∈ ids → id ≠ "" ∧ ' ' ∉ id.data ∧ '\n' ∉ id.data) :
    ids.length ≤ (config_line ids).data.length := by
  induction ids with
  | nil => simp
  | cons a rest ih =>
    have ha := h a (List.mem_cons_self _ _)
    have ha0 : 0 < a.data.length := by
      cases hd : a.data with
      | nil => exact absurd (String.ext hd) ha.1
      | cons c cs => simp
    cases rest with
    | nil => simpa [config_line] using ha0
    | cons b bs =>
      rw [config_line_data a (b :: bs) (by simp)]
      have := ih (fun id hid => h id (List.mem_cons_of_mem _ hid))
      simp only [List.length_append, List.length_cons] at this ⊢
      omega

theorem config_text_data (ids : List String) (rest : List (List String)) :
    (config_text (ids :: rest)).data =
      (config_line ids).data ++ '\n' :: (config_text rest).data := by
  simp only [config_text, String.data_append]
  simp

theorem length_le_config_text (lines : List (List String)) :
    lines.length ≤ (config_text lines).data.length := by
  induction lines with
  | nil => simp
  | cons ids rest ih =>
    rw [config_text_data]
    simp only [List.length_append, List.length_cons]
    omega

theorem read_lines_nil (fuel : Nat) (data : List String) : read_lines fuel [] data = data := by
  cases fuel <;> simp [read_lines, getline]

/-- The outer loop pushes the identifiers of all lines, in file order. -/
theorem read_lines_config_text (lines : List (List String)) (last : List String)
    (fuel : Nat) (data : List String)
    (h : ∀ ids, ids ∈ last :: lines →
      ∀ id, id ∈ ids → id ≠ "" ∧ ' ' ∉ id.data ∧ '\n' ∉ id.data)
    (hfuel : lines.length < fuel) :
    read_lines fuel ((config_text lines).data ++ (config_line last).data) data =
      data ++ lines.flatten ++ last := by
  induction lines generalizing fuel data with
  | nil =>
    have hlast := h last (List.mem_cons_self _ _)
    cases fuel with
    | zero => omega
    | succ fuel =>
      by_cases hl : last = []
      · subst hl
        simp [config_text, config_line, read_lines, getline]
      · simp only [config_text, List.nil_append, List.flatten_nil, List.append_nil]
        rw [read_lines,
          getline_token_end '\n' _ (config_line_ne_nil last hl hlast)
            (config_line_no_newline last hlast)]
        simp only []
        rw [read_lines_nil, read_cells_config_line last _ data hlast
          (Nat.lt_succ_of_le (length_le_config_line last hlast))]
  | cons ids rest ih =>
    cases fuel with
    | zero => omega
    | succ fuel =>
      have hids := h ids (List.mem_cons_of_mem _ (List.mem_cons_self _ _))
      rw [config_text_data, List.append_assoc, List.cons_append, read_lines,
        getline_token_delim '\n' _ _ (config_line_no_newline ids hids)]
      simp only []
      rw [read_cells_config_line ids _ data hids
        (Nat.lt_succ_of_le (length_le_config_line ids hids))]
      rw [ih fuel (data ++ ids) (fun l hl => by
          rcases List.mem_cons.mp hl with e | e
          · exact h l (by rw [e]; exact List.mem_cons_self _ _)
          · exact h l (List.mem_cons_of_mem _ (List.mem_cons_of_mem _ e)))
        (by simp only [List.length_cons] at hfuel; omega)]
      simp [List.append_assoc]

/-- C13: `read_filenames` tokenises the config file.  For every readable
file whose lines hold non-empty identifiers without space or newline,
separated by single spaces (the last line with or without its newline),
`options.data` after the call is `options.data` before the call followed by
all identifiers in file order, and nothing else of `options` changes; on the
sample config `W1`, `B1`, `W2`, `B2` on four lines the identifiers added are
`[W1, B1, W2, B2]`. -/
theorem read_filenames_tokens (w : World) (options : Options)
    (lines : List (List String)) (last : List String)
    (hfile : w.files options.filenames = some (config_text lines ++ config_line last))
    (hids : ∀ ids, ids ∈ last :: lines →
      ∀ id, id ∈ ids → id ≠ "" ∧ ' ' ∉ id.data ∧ '\n' ∉ id.data) :
    (read_filenames w options).outcome =
      Outcome.returned { options with data := options.data ++ lines.flatten ++ last } ∧
    (config_text [["W1"], ["B1"], ["W2"], ["B2"]] ++ config_line [] = "W1\nB1\nW2\nB2\n" ∧
      [["W1"], ["B1"], ["W2"], ["B2"]].flatten ++ [] = ["W1", "B1", "W2", "B2"]) := by
  refine ⟨?_, by decide, by decide⟩
  simp only [read_filenames, hfile]
  rw [String.data_append, read_lines_config_text lines last _ _ hids]
  simp only [List.length_append]
  have := length_le_config_text lines
  omega

/-- Witness of C13: the sample config of the header comment, stored at the
path `--file-names` gives. -/
theorem read_filenames_tokens_witness :
    (read_filenames demoWorld demoOptions).outcome =
      Outcome.returned { demoOptions with data := ["W1", "B1", "W2", "B2"] } :=
  (read_filenames_tokens demoWorld demoOptions [["W1"], ["B1"], ["W2"], ["B2"]] []
    (by decide) (by decide)).1

/-- Counterexample to C17 as stated ("returns normally ... rather than
terminating the process"): in a build with assertions enabled, for a
`--file-names` path that cannot be opened, `read_filenames` prints
`File not found` and `assert(indata)` ends the process. -/
theorem missing_config_aborts :
    debugWorld.files "nofile" = none ∧
    read_filenames debugWorld { demoOptions with filenames := "nofile" } =
      { trace := [Effect.cout "nofile\n", Effect.open_read "nofile",
          Effect.cout "File not found\n"],
        outcome := Outcome.aborted } ∧
    ¬ (∀ (w : World) (options : Options), w.files options.filenames = none →
        (read_filenames w options).outcome = Outcome.returned options) := by
  refine ⟨by decide, by decide, ?_⟩
  intro h
  have h1 := h debugWorld { demoOptions with filenames := "nofile" } (by decide)
  have h2 : (read_filenames debugWorld { demoOptions with filenames := "nofile" }).outcome =
      Outcome.aborted := by decide
  rw [h2] at h1
  exact absurd h1 (by simp)

/-- C17 (amended): missing config file in `read_filenames`.  For every path
that cannot be opened the function prints the path and `File not found`; in
a build with `NDEBUG` it then proceeds with the unopened stream and returns
normally with `options` unchanged, no identifier appended; in a build
without `NDEBUG`, `assert(indata)` ends the process there. -/
theorem missing_config_file (w : World) (options : Options)
    (h : w.files options.filenames = none) :
    Effect.cout "File not found\n" ∈ (read_filenames w options).trace ∧
    (w.ndebug = true →
      read_filenames w options =
        { trace := [Effect.cout (options.filenames ++ "\n"),
            Effect.open_read options.filenames, Effect.cout "File not found\n",
            Effect.cout "\n"],
          outcome := Outcome.returned options }) ∧
    (w.ndebug = false →
      read_filenames w options =
        { trace := [Effect.cout (options.filenames ++ "\n"),
            Effect.open_read options.filenames, Effect.cout "File not found\n"],
          outcome := Outcome.aborted }) := by
  cases hn : w.ndebug <;> simp [read_filenames, h, hn]

/-- Witness of C17 (amended): the release build of the example world and a
path that cannot be opened. -/
theorem missing_config_file_witness :
    read_filenames demoWorld { demoOptions with filenames := "nofile" } =
      { trace := [Effect.cout ("nofile" ++ "\n"), Effect.open_read "nofile",
          Effect.cout "File not found\n", Effect.cout "\n"],
        outcome := Outcome.returned { demoOptions with filenames := "nofile" } } :=
  (missing_config_file demoWorld { demoOptions with filenames := "nofile" }
    (by decide)).2.1 (by decide)

theorem filepaths_loop_eq (filename : String) (data : List String) (text : String)
    (paths : List String) :
    filepaths_loop filename data (text, paths) =
      (text ++ file_of_lines (data.map (fun n => filename ++ n)),
       paths ++ data.map (fun n => filename ++ n)) := by
  induction data generalizing text paths with
  | nil => simp [filepaths_loop, file_of_lines]
  | cons n rest ih =>
    have hstep : filepaths_loop filename (n :: rest) (text, paths) =
        filepaths_loop filename rest (text ++ (filename ++ n) ++ "\n", paths ++ [filename ++ n]) :=
      rfl
    rw [hstep, ih]
    simp [file_of_lines, String.append_assoc]

theorem server_path (p : String) (m : String) :
    p ++ "/" ++ ("server" ++ m) = p ++ "/server" ++ m := by
  have e : ("/" : String) ++ "server" = "/server" := by decide
  rw [String.append_assoc p "/" ("server" ++ m), ← String.append_assoc "/" "server" m,
    ← String.append_assoc p ("/" ++ "server") m, e]

/-- C19: `generate_filepaths` maps identifiers to per-party paths.  For
every `Options` with party id `m`, base directory `p` and identifiers
`data`, the call appends to `options.filepaths`, in order, exactly the
strings `p + "/server" + decimal(m) + "/" + data[i]`, writes the same
strings one per line to `p + "/file_config_model" + decimal(m)`, after
creating the directory `p + "/server" + decimal(m)`, and changes nothing
else of `options`; from empty `filepaths` the result has one path per
identifier, the `i`-th path belonging to `data[i]`. -/
theorem generate_filepaths_paths (options : Options) :
    (generate_filepaths options).outcome =
      Outcome.returned { options with
        filepaths := options.filepaths ++ options.data.map (fun n =>
          options.currentpath ++ "/server" ++ toString options.my_id ++ "/" ++ n) } ∧
    (generate_filepaths options).trace =
      [Effect.create_directories (options.currentpath ++ "/server" ++ toString options.my_id),
       Effect.write_file (options.currentpath ++ "/file_config_model" ++ toString options.my_id)
        (file_of_lines (options.data.map (fun n =>
          options.currentpath ++ "/server" ++ toString options.my_id ++ "/" ++ n)))] ∧
    (options.filepaths = [] →
      ∀ result : Options, (generate_filepaths options).outcome = Outcome.returned result →
        result.data = options.data ∧ result.filepaths.length = options.data.length ∧
        ∀ i : Nat, result.filepaths[i]? = options.data[i]?.map (fun n =>
          options.currentpath ++ "/server" ++ toString options.my_id ++ "/" ++ n)) := by
  have hout : (generate_filepaths options).outcome =
      Outcome.returned { options with
        filepaths := options.filepaths ++ options.data.map (fun n =>
          options.currentpath ++ "/server" ++ toString options.my_id ++ "/" ++ n) } := by
    simp only [generate_filepaths, filepaths_loop_eq, server_path]
  refine ⟨hout, ?_, ?_⟩
  · simp only [generate_filepaths, filepaths_loop_eq, server_path]
    simp
  · intro hempty result hres
    rw [hout] at hres
    simp only [Outcome.returned.injEq] at hres
    subst hres
    simp [hempty]

/-- Example of C19: the paths generated for the sample identifiers. -/
theorem generate_filepaths_paths_witness :
    (generate_filepaths { demoOptions with data := ["W1", "B1", "W2", "B2"] }).trace =
      [Effect.create_directories "/tmp/server0",
       Effect.write_file "/tmp/file_config_model0"
        "/tmp/server0/W1\n/tmp/server0/B1\n/tmp/server0/W2\n/tmp/server0/B2\n"] :=
  (generate_filepaths_paths { demoOptions with data := ["W1", "B1", "W2", "B2"] }).2.1.trans
    (by decide)

theorem shares_loop_eq (shares : List Shares) (text : String) (m : Matrix) :
    shares_loop shares (text, m) =
      (text ++ file_of_lines (shares.map (fun s => toString s.Delta ++ " " ++ toString s.delta)),
       { m with Delta := m.Delta ++ shares.map Shares.Delta,
                delta := m.delta ++ shares.map Shares.delta }) := by
  induction shares generalizing text m with
  | nil => simp [shares_loop, file_of_lines]
  | cons s rest ih =>
    have hstep : shares_loop (s :: rest) (text, m) =
        shares_loop rest (text ++ toString s.Delta ++ " " ++ toString s.delta ++ "\n",
          { m with Delta := m.Delta ++ [s.Delta], delta := m.delta ++ [s.delta] }) := rfl
    rw [hstep, ih]
    simp [file_of_lines, String.append_assoc]

theorem header_text (d0 d1 : Int) (shares : List Shares) :
    toString d0 ++ " " ++ toString d1 ++ "\n" ++
        file_of_lines (shares.map (fun s => toString s.Delta ++ " " ++ toString s.delta)) =
      file_of_lines (share_file_lines d0 d1 shares) := rfl

theorem written_append (a b : List Effect) : written (a ++ b) = written a ++ written b := by
  induction a with
  | nil => rfl
  | cons e rest ih => cases e <;> simp [written, ih]

theorem received_append (a b : List Effect) : received (a ++ b) = received a ++ received b := by
  induction a with
  | nil => rfl
  | cons e rest ih => cases e <;> simp [received, ih]

theorem tdiv_values :
    Int.tdiv 0 2 = 0 ∧ Int.tdiv 1 2 = 0 ∧ Int.tdiv 2 2 = 1 ∧ Int.tdiv (-1) 2 = 0 ∧
    Int.tmod 2 2 = 0 ∧ Int.tmod 3 2 = 1 ∧ Int.tmod 4 2 = 0 ∧ Int.tmod 5 2 = 1 := by
  decide

/-- One pass of the loop body of `retrieve_shares`: one call of the
provider, one file written at `filepaths[i]`, and the matrix of the pass
filled. -/
theorem retrieve_step_spec (w : World) (port_number : Nat) (options : Options) (i : Nat)
    (temp : String) (d0 d1 : Int) (rest : List Int) (hi : i < 4)
    (hpath : options.filepaths[i]? = some temp)
    (hdims : (w.provider port_number i).dims = d0 :: d1 :: rest) :
    (retrieve_step w port_number options i).outcome =
      Outcome.returned
        (stored options i (filled (slot options i) (w.provider port_number i) d0 d1)) ∧
    written (retrieve_step w port_number options i).trace =
      [(temp, file_of_lines (share_file_lines d0 d1 (w.provider port_number i).shares))] ∧
    received (retrieve_step w port_number options i).trace = [port_number] := by
  obtain ⟨t1, t2, t3, t4, t5, t6, t7, t8⟩ := tdiv_values
  interval_cases i <;>
    simp [retrieve_step, hpath, Step.bind, weights_branch, bias_branch, at2, set2, hdims,
      written, received, shares_loop_eq, t1, t2, t3, t4, t5, t6, t7, t8, stored, slot, filled,
      header_text]

theorem bind_of_returned {α β : Type} (s : Step α) (f : α → Step β) (a : α)
    (h : s.outcome = Outcome.returned a) :
    s.bind f = { trace := s.trace ++ (f a).trace, outcome := (f a).outcome } := by
  unfold Step.bind
  rw [h]

theorem bind_mk {α β : Type} (t : List Effect) (a : α) (f : α → Step β) :
    Step.bind { trace := t, outcome := Outcome.returned a } f =
      { trace := t ++ (f a).trace, outcome := (f a).outcome } := rfl

theorem dims_shape (l : List Int) (h : 2 ≤ l.length) :
    l = l.getD 0 0 :: l.getD 1 0 :: l.drop 2 := by
  match l, h with
  | a :: b :: r, _ => simp

theorem stored_filepaths (options : Options) (i : Nat) (m : Matrix) :
    (stored options i m).filepaths = options.filepaths ∧
    (stored options i m).data = options.data ∧
    (stored options i m).my_id = options.my_id := by
  unfold stored
  split <;> exact ⟨rfl, rfl, rfl⟩

theorem retrieve_step_after (w : World) (port_number : Nat) (options : Options) (i : Nat)
    (temp : String) (hi : i < 4) (hpath : options.filepaths[i]? = some temp)
    (hdims : 2 ≤ (w.provider port_number i).dims.length) :
    (retrieve_step w port_number options i).outcome =
      Outcome.returned (after_step w port_number options i) ∧
    written (retrieve_step w port_number options i).trace =
      [(temp, file_of_lines (share_file_lines ((w.provider port_number i).dims.getD 0 0)
        ((w.provider port_number i).dims.getD 1 0) (w.provider port_number i).shares))] ∧
    received (retrieve_step w port_number options i).trace = [port_number] :=
  retrieve_step_spec w port_number options i temp _ _ _ hi hpath (dims_shape _ hdims)

/-- The branch for weights and the branch for biases write the same file
for the same received item. -/
theorem branches_write_alike (temp : String) (pair2 : Received) (d0 d1 : Int)
    (rest : List Int) (hdims : pair2.dims = d0 :: d1 :: rest) (o1 o2 : Options)
    (iw ib : Nat) (hw : iw = 0 ∨ iw = 2) (hb : ib = 1 ∨ ib = 3) :
    written (weights_branch temp pair2 iw o1).trace =
        [(temp, file_of_lines (share_file_lines d0 d1 pair2.shares))] ∧
    written (bias_branch temp pair2 ib o2).trace =
        [(temp, file_of_lines (share_file_lines d0 d1 pair2.shares))] := by
  obtain ⟨t1, t2, t3, t4, t5, t6, t7, t8⟩ := tdiv_values
  rcases hw with hw | hw <;> rcases hb with hb | hb <;> subst hw <;> subst hb <;>
    simp [weights_branch, bias_branch, at2, set2, hdims, written, shares_loop_eq, t1, t2, t3,
      t4, header_text]

/-- C12: share file format written by `retrieve_shares`.  For every pass
`i` of the loop, with `filepaths[i]` the path and `(row, col)` the first two
dimensions received with the shares `s_0 .. s_{n-1}`, the one file written
is the text of the header line `<row> <col>` followed by the `n` lines
`<s_j.Delta> <s_j.delta>` in decimal, in received order, `n + 1` lines in
all, each ended by a newline; and the weight branch and the bias branch
write the same text for the same received data. -/
theorem share_file_format (w : World) (port_number : Nat) (options : Options) (i : Nat)
    (temp : String) (row col : Int) (rest : List Int) (hi : i < 4)
    (hpath : options.filepaths[i]? = some temp)
    (hdims : (w.provider port_number i).dims = row :: col :: rest) :
    written (retrieve_step w port_number options i).trace =
      [(temp, file_of_lines (share_file_lines row col (w.provider port_number i).shares))] ∧
    (share_file_lines row col (w.provider port_number i).shares).length =
      (w.provider port_number i).shares.length + 1 ∧
    (share_file_lines row col (w.provider port_number i).shares)[0]? =
      some (toString row ++ " " ++ toString col) ∧
    (∀ j : Nat, (share_file_lines row col (w.provider port_number i).shares)[j + 1]? =
      (w.provider port_number i).shares[j]?.map
        (fun s => toString s.Delta ++ " " ++ toString s.delta)) ∧
    (∀ (o1 o2 : Options) (iw ib : Nat), (iw = 0 ∨ iw = 2) → (ib = 1 ∨ ib = 3) →
      written (weights_branch temp (w.provider port_number i) iw o1).trace =
        written (bias_branch temp (w.provider port_number i) ib o2).trace) := by
  refine ⟨(retrieve_step_spec w port_number options i temp row col rest hi hpath hdims).2.1,
    by simp [share_file_lines], by simp [share_file_lines], ?_, ?_⟩
  · intro j
    simp [share_file_lines]
  · intro o1 o2 iw ib hw hb
    obtain ⟨e1, e2⟩ := branches_write_alike temp _ row col rest hdims o1 o2 iw ib hw hb
    rw [e1, e2]

/-- Witness of C12: the second pass of the example run, a bias of two
shares. -/
theorem share_file_format_witness :
    written (retrieve_step demoWorld 1234
        { demoOptions with filepaths := ["/tmp/server0/W1", "/tmp/server0/B1"] } 1).trace =
      [("/tmp/server0/B1", file_of_lines (share_file_lines 2 1 [⟨21, 5⟩, ⟨22, 6⟩]))] ∧
    file_of_lines (share_file_lines 2 1 [⟨21, 5⟩, ⟨22, 6⟩]) = "2 1\n21 5\n22 6\n" :=
  ⟨(share_file_format demoWorld 1234
      { demoOptions with filepaths := ["/tmp/server0/W1", "/tmp/server0/B1"] } 1
      "/tmp/server0/B1" 2 1 [] (by decide) (by decide) (by decide)).1, by decide⟩

/-- C20: `retrieve_shares` stores the four received matrices as `W1`, `B1`,
`W2`, `B2`.  With at least four file paths, at least two dimensions in each
received item and matrices that start empty, the function returns after
exactly four calls of the provider, writes the `i`-th received matrix to
`filepaths[i]`, and leaves it in `weights[i/2]` for even `i` and in
`biases[(i-1)/2]` for odd `i`: afterwards `weights[0]`, `biases[0]`,
`weights[1]`, `biases[1]` each hold the first two received dimensions as
`row` and `col`, and `Delta` and `delta` lists of equal length with the
received shares' values in received order. -/
theorem retrieve_shares_stores (w : World) (port_number : Nat) (options : Options)
    (f0 f1 f2 f3 : String) (rest : List String)
    (hpaths : options.filepaths = f0 :: f1 :: f2 :: f3 :: rest)
    (hdims : ∀ i, i < 4 → 2 ≤ (w.provider port_number i).dims.length)
    (hempty : ∀ i, i < 4 → (slot options i).Delta = [] ∧ (slot options i).delta = []) :
    ∃ result : Options,
      (retrieve_shares w port_number options).outcome = Outcome.returned result ∧
      received (retrieve_shares w port_number options).trace =
        [port_number, port_number, port_number, port_number] ∧
      written (retrieve_shares w port_number options).trace =
        [(f0, file_of_lines (share_file_lines ((w.provider port_number 0).dims.getD 0 0)
            ((w.provider port_number 0).dims.getD 1 0) (w.provider port_number 0).shares)),
         (f1, file_of_lines (share_file_lines ((w.provider port_number 1).dims.getD 0 0)
            ((w.provider port_number 1).dims.getD 1 0) (w.provider port_number 1).shares)),
         (f2, file_of_lines (share_file_lines ((w.provider port_number 2).dims.getD 0 0)
            ((w.provider port_number 2).dims.getD 1 0) (w.provider port_number 2).shares)),
         (f3, file_of_lines (share_file_lines ((w.provider port_number 3).dims.getD 0 0)
            ((w.provider port_number 3).dims.getD 1 0) (w.provider port_number 3).shares))] ∧
      at2 result.weights (Int.tdiv 0 2) = some (matrix_of (w.provider port_number 0)) ∧
      at2 result.biases (Int.tdiv (1 - 1) 2) = some (matrix_of (w.provider port_number 1)) ∧
      at2 result.weights (Int.tdiv 2 2) = some (matrix_of (w.provider port_number 2)) ∧
      at2 result.biases (Int.tdiv (3 - 1) 2) = some (matrix_of (w.provider port_number 3)) ∧
      result.weights =
        (matrix_of (w.provider port_number 0), matrix_of (w.provider port_number 2)) ∧
      result.biases =
        (matrix_of (w.provider port_number 1), matrix_of (w.provider port_number 3)) ∧
      (∀ i, (matrix_of (w.provider port_number i)).Delta.length =
          (matrix_of (w.provider port_number i)).delta.length ∧
        (matrix_of (w.provider port_number i)).Delta =
          (w.provider port_number i).shares.map Shares.Delta ∧
        (matrix_of (w.provider port_number i)).delta =
          (w.provider port_number i).shares.map Shares.delta ∧
        (matrix_of (w.provider port_number i)).row =
          (w.provider port_number i).dims.getD 0 0 ∧
        (matrix_of (w.provider port_number i)).col =
          (w.provider port_number i).dims.getD 1 0) ∧
      result.filepaths = options.filepaths ∧ result.data = options.data := by
  have hp : ∀ (o : Options) (i : Nat) (m : Matrix),
      (stored o i m).filepaths = o.filepaths := fun o i m => (stored_filepaths o i m).1
  obtain ⟨o0, w0, r0⟩ := retrieve_step_after w port_number options 0 f0 (by omega)
    (by simp [hpaths]) (hdims 0 (by omega))
  obtain ⟨o1, w1, r1⟩ := retrieve_step_after w port_number
    (after_step w port_number options 0) 1 f1 (by omega)
    (by simp [after_step, hp, hpaths]) (hdims 1 (by omega))
  obtain ⟨o2, w2, r2⟩ := retrieve_step_after w port_number
    (after_step w port_number (after_step w port_number options 0) 1) 2 f2 (by omega)
    (by simp [after_step, hp, hpaths]) (hdims 2 (by omega))
  obtain ⟨o3, w3, r3⟩ := retrieve_step_after w port_number
    (after_step w port_number
      (after_step w port_number (after_step w port_number options 0) 1) 2) 3 f3 (by omega)
    (by simp [after_step, hp, hpaths]) (hdims 3 (by omega))
  have hrun : retrieve_shares w port_number options =
      { trace := (retrieve_step w port_number options 0).trace ++
          (retrieve_step w port_number (after_step w port_number options 0) 1).trace ++
          (retrieve_step w port_number
            (after_step w port_number (after_step w port_number options 0) 1) 2).trace ++
          (retrieve_step w port_number
            (after_step w port_number
              (after_step w port_number (after_step w port_number options 0) 1) 2) 3).trace,
        outcome := (retrieve_step w port_number
            (after_step w port_number
              (after_step w port_number (after_step w port_number options 0) 1) 2) 3).outcome } := by
    simp only [retrieve_shares, List.foldl_cons, List.foldl_nil]
    rw [bind_mk, o0, bind_mk, o1, bind_mk, o2, bind_mk]
    simp only [List.nil_append]
  obtain ⟨e0D, e0d⟩ := hempty 0 (by omega)
  obtain ⟨e1D, e1d⟩ := hempty 1 (by omega)
  obtain ⟨e2D, e2d⟩ := hempty 2 (by omega)
  obtain ⟨e3D, e3d⟩ := hempty 3 (by omega)
  simp only [slot] at e0D e0d e1D e1d e2D e2d e3D e3d
  obtain ⟨t1, t2, t3, t4, t5, t6, t7, t8⟩ := tdiv_values
  refine ⟨_, by rw [hrun]; exact o3, ?_, ?_, ?_, ?_, ?_, ?_, ?_, ?_, ?_, ?_, ?_⟩
  · rw [hrun]
    simp only [received_append, r0, r1, r2, r3]
    rfl
  · rw [hrun]
    simp only [written_append, w0, w1, w2, w3]
    rfl
  · simp [after_step, stored, slot, filled, at2, matrix_of, t1, e0D, e0d]
  · simp [after_step, stored, slot, filled, at2, matrix_of, t1, e1D, e1d]
  · simp [after_step, stored, slot, filled, at2, matrix_of, t3, e2D, e2d]
  · simp [after_step, stored, slot, filled, at2, matrix_of, t3, e3D, e3d]
  · simp [after_step, stored, slot, filled, matrix_of, e0D, e0d, e2D, e2d]
  · simp [after_step, stored, slot, filled, matrix_of, e1D, e1d, e3D, e3d]
  · intro i
    simp [matrix_of]
  · simp [after_step, stored]
  · simp [after_step, stored]

/-- Witness of C20: the example provider and four file paths. -/
theorem retrieve_shares_stores_witness :
    ∃ result : Options,
      (retrieve_shares demoWorld 1234
        { demoOptions with filepaths := ["/tmp/server0/W1", "/tmp/server0/B1",
            "/tmp/server0/W2", "/tmp/server0/B2"] }).outcome = Outcome.returned result ∧
      result.weights =
        ({ Delta := [11, 12, 13, 14], delta := [1, 2, 3, 4], row := 2, col := 2 },
         { Delta := [31, 32], delta := [7, 8], row := 1, col := 2 }) ∧
      result.biases =
        ({ Delta := [21, 22], delta := [5, 6], row := 2, col := 1 },
         { Delta := [41], delta := [9], row := 1, col := 1 }) := by
  obtain ⟨result, h1, _, _, _, _, _, _, h8, h9, _⟩ :=
    retrieve_shares_stores demoWorld 1234
      { demoOptions with filepaths := ["/tmp/server0/W1", "/tmp/server0/B1",
          "/tmp/server0/W2", "/tmp/server0/B2"] }
      "/tmp/server0/W1" "/tmp/server0/B1" "/tmp/server0/W2" "/tmp/server0/B2" [] rfl
      (by decide) (by decide)
  exact ⟨result, h1, h8.trans (by decide), h9.trans (by decide)⟩

theorem bind_returned {α β : Type} (s : Step α) (f : α → Step β) (b : β)
    (h : (s.bind f).outcome = Outcome.returned b) :
    ∃ a, s.outcome = Outcome.returned a ∧ (f a).outcome = Outcome.returned b := by
  unfold Step.bind at h
  cases hs : s.outcome with
  | returned a =>
    rw [hs] at h
    exact ⟨a, rfl, h⟩
  | aborted => rw [hs] at h; simp at h
  | undefined_behaviour => rw [hs] at h; simp at h

theorem read_filenames_my_id (w : World) (o result : Options)
    (h : (read_filenames w o).outcome = Outcome.returned result) : result.my_id = o.my_id := by
  cases hf : w.files o.filenames <;> cases hn : w.ndebug <;>
    simp only [read_filenames, hf, hn, Outcome.returned.injEq, Bool.false_eq_true, if_false,
      if_true, reduceCtorEq] at h <;>
    rw [← h]

theorem generate_filepaths_my_id (o result : Options)
    (h : (generate_filepaths o).outcome = Outcome.returned result) :
    result.my_id = o.my_id := by
  simp only [generate_filepaths, Outcome.returned.injEq] at h
  rw [← h]

theorem weights_branch_my_id (temp : String) (pair2 : Received) (i : Int) (o result : Options)
    (h : (weights_branch temp pair2 i o).outcome = Outcome.returned result) :
    result.my_id = o.my_id := by
  unfold weights_branch at h
  cases h1 : at2 o.weights (Int.tdiv i 2) <;> cases h2 : pair2.dims[0]? <;>
    cases h3 : pair2.dims[1]? <;> simp only [h1, h2, h3, reduceCtorEq] at h
  rename_i m d0 d1
  cases h4 : set2 o.weights (Int.tdiv i 2)
      (shares_loop pair2.shares
        (toString d0 ++ " " ++ toString d1 ++ "\n", { m with row := d0, col := d1 })).2 <;>
    simp only [h4, Outcome.returned.injEq, reduceCtorEq] at h
  rw [← h]

theorem bias_branch_my_id (temp : String) (pair2 : Received) (i : Int) (o result : Options)
    (h : (bias_branch temp pair2 i o).outcome = Outcome.returned result) :
    result.my_id = o.my_id := by
  unfold bias_branch at h
  cases h1 : at2 o.biases (Int.tdiv (i - 1) 2) <;> cases h2 : pair2.dims[0]? <;>
    cases h3 : pair2.dims[1]? <;> simp only [h1, h2, h3, reduceCtorEq] at h
  rename_i m d0 d1
  cases h4 : set2 o.biases (Int.tdiv (i - 1) 2) { m with row := d0, col := d1 } <;>
    simp only [h4, reduceCtorEq] at h
  rename_i biases1
  cases h5 : at2 biases1 (Int.tdiv (i - 2) 2) <;> simp only [h5, reduceCtorEq] at h
  cases h6 : set2 biases1 (Int.tdiv (i - 1) 2)
      (shares_loop pair2.shares
        (toString d0 ++ " " ++ toString d1 ++ "\n", { m with row := d0, col := d1 })).2 <;>
    simp only [h6, Outcome.returned.injEq, reduceCtorEq] at h
  rw [← h]

theorem retrieve_step_my_id (w : World) (port_number : Nat) (o result : Options) (i : Nat)
    (h : (retrieve_step w port_number o i).outcome = Outcome.returned result) :
    result.my_id = o.my_id := by
  unfold retrieve_step at h
  cases hp : o.filepaths[i]? with
  | none => simp only [hp, reduceCtorEq] at h
  | some temp =>
    simp only [hp, bind_mk] at h
    by_cases hm : Int.tmod ((i : Int) + 2) 2 = 0
    · simp only [hm, if_true] at h
      exact weights_branch_my_id _ _ _ _ _ h
    · simp only [hm, if_false] at h
      exact bias_branch_my_id _ _ _ _ _ h

theorem retrieve_shares_my_id (w : World) (port_number : Nat) (o result : Options)
    (h : (retrieve_shares w port_number o).outcome = Outcome.returned result) :
    result.my_id = o.my_id := by
  simp only [retrieve_shares, List.foldl_cons, List.foldl_nil] at h
  obtain ⟨a3, h3, g3⟩ := bind_returned _ _ _ h
  obtain ⟨a2, h2, g2⟩ := bind_returned _ _ _ h3
  obtain ⟨a1, h1, g1⟩ := bind_returned _ _ _ h2
  obtain ⟨a0, h0, g0⟩ := bind_returned _ _ _ h1
  simp only [Outcome.returned.injEq] at h0
  rw [retrieve_step_my_id _ _ _ _ _ g3, retrieve_step_my_id _ _ _ _ _ g2,
    retrieve_step_my_id _ _ _ _ _ g1, retrieve_step_my_id _ _ _ _ _ g0, h0]

theorem bind_some_outcome (s : Step Options) (r : Option Options)
    (h : (s.bind (fun options =>
      ({ trace := [], outcome := Outcome.returned (some options) } : Step (Option Options)))).outcome =
        Outcome.returned r) :
    ∃ options, r = some options ∧ s.outcome = Outcome.returned options := by
  obtain ⟨a, ha, hf⟩ := bind_returned _ _ _ h
  simp only [Outcome.returned.injEq] at hf
  exact ⟨a, hf.symm, ha⟩

/-- The three ways `parse_program_options` returns no `Options`, with what
it does before. -/
theorem parse_program_options_cases (w : World) (cl : CommandLine) :
    (cl.help = true ∧ parse_program_options w cl =
      { trace := [Effect.cerr "Allowed options\n"], outcome := Outcome.returned none }) ∨
    (cl.help = false ∧
      ((variables_map w cl).my_id = none ∨ (variables_map w cl).file_names = none ∨
        (variables_map w cl).current_path = none) ∧
      (parse_program_options w cl).outcome = Outcome.returned none ∧
      ∃ read_config : List Effect,
        (read_config = [] ∨ ∃ path, read_config = [Effect.parse_config_file path]) ∧
        (parse_program_options w cl).trace =
          read_config ++ [Effect.cerr "error:", Effect.cerr "Allowed options\n"]) ∨
    (cl.help = false ∧ (∃ id, (variables_map w cl).my_id = some id ∧ 1 < id) ∧
      (parse_program_options w cl).outcome = Outcome.returned none ∧
      ∃ read_config : List Effect,
        (read_config = [] ∨ ∃ path, read_config = [Effect.parse_config_file path]) ∧
        (parse_program_options w cl).trace =
          read_config ++ [Effect.cerr "my-id must be one of 0 and 1\n"]) ∨
    (cl.help = false ∧
      (∃ id, (variables_map w cl).my_id = some id ∧ id ≤ 1) ∧
      (variables_map w cl).file_names ≠ none ∧ (variables_map w cl).current_path ≠ none ∧
      ∀ r, (parse_program_options w cl).outcome = Outcome.returned r →
        ∃ options, r = some options ∧ options.my_id ≤ 1) := by
  have hrc : ∀ rc : List Effect,
      rc = (match cl.config_file with
        | some path => [Effect.parse_config_file path]
        | none => []) →
      (rc = [] ∨ ∃ path, rc = [Effect.parse_config_file path]) := by
    intro rc h
    cases hc : cl.config_file with
    | none => left; rw [h, hc]
    | some path => right; exact ⟨path, by rw [h, hc]⟩
  cases hh : cl.help with
  | true =>
    left
    exact ⟨rfl, by simp [parse_program_options, hh]⟩
  | false =>
    right
    cases hid : (variables_map w cl).my_id with
    | none =>
      left
      refine ⟨rfl, Or.inl rfl, by simp [parse_program_options, hh, hid], _, hrc _ rfl, ?_⟩
      simp [parse_program_options, hh, hid]
    | some my_id =>
      cases hfn : (variables_map w cl).file_names with
      | none =>
        left
        refine ⟨rfl, Or.inr (Or.inl rfl), by simp [parse_program_options, hh, hid, hfn], _,
          hrc _ rfl, ?_⟩
        simp [parse_program_options, hh, hid, hfn]
      | some file_names =>
        cases hcp : (variables_map w cl).current_path with
        | none =>
          left
          refine ⟨rfl, Or.inr (Or.inr rfl),
            by simp [parse_program_options, hh, hid, hfn, hcp], _, hrc _ rfl, ?_⟩
          simp [parse_program_options, hh, hid, hfn, hcp]
        | some current_path =>
          right
          by_cases hgt : my_id > 1
          · left
            refine ⟨rfl, ⟨my_id, rfl, hgt⟩,
              by simp [parse_program_options, hh, hid, hfn, hcp, hgt], _, hrc _ rfl, ?_⟩
            simp [parse_program_options, hh, hid, hfn, hcp, hgt]
          · right
            refine ⟨rfl, ⟨my_id, rfl, by omega⟩, by simp, by simp, ?_⟩
            intro r hr
            simp only [parse_program_options, hh, hid, hfn, hcp, hgt, Bool.false_eq_true,
              if_false] at hr
            obtain ⟨options, hsome, hout⟩ := bind_some_outcome _ _ hr
            refine ⟨options, hsome, ?_⟩
            obtain ⟨o2, h2, g2⟩ := bind_returned _ _ _ hout
            obtain ⟨o1, h1, g1⟩ := bind_returned _ _ _ h2
            obtain ⟨u, _, g0⟩ := bind_returned _ _ _ h1
            have e1 : o1.my_id = my_id := by
              rw [read_filenames_my_id _ _ _ g0]
              rfl
            have e2 : o2.my_id = o1.my_id := by
              by_cases z : o1.my_id = 0
              · simp only [z, if_true] at g1
                rw [generate_filepaths_my_id _ _ g1, z]
              · by_cases z1 : o1.my_id = 1
                · simp only [z1, if_true, one_ne_zero, if_false] at g1
                  rw [generate_filepaths_my_id _ _ g1, z1]
                · simp only [z, z1, if_false, Outcome.returned.injEq] at g1
                  rw [← g1]
            have e3 : options.my_id = o2.my_id := by
              by_cases z : o2.my_id = 0
              · simp only [z, if_true] at g2
                rw [retrieve_shares_my_id _ _ _ _ g2, z]
              · simp only [z, if_false] at g2
                exact retrieve_shares_my_id _ _ _ _ g2
            rw [e3, e2, e1]
            omega

theorem main_of_none (w : World) (cl : CommandLine)
    (h : (parse_program_options w cl).outcome = Outcome.returned none) :
    main w cl = { trace := (parse_program_options w cl).trace, outcome := Outcome.returned 1 } := by
  unfold main
  rw [bind_of_returned _ _ none h]
  simp

theorem only_messages (rc : List Effect) (tail : List Effect)
    (hrc : rc = [] ∨ ∃ path, rc = [Effect.parse_config_file path])
    (htail : ∀ e, e ∈ tail → ∃ text, e = Effect.cerr text) :
    ∀ e, e ∈ rc ++ tail →
      (∃ text, e = Effect.cerr text) ∨ ∃ path, e = Effect.parse_config_file path := by
  intro e he
  rcases List.mem_append.mp he with h | h
  · rcases hrc with h0 | ⟨path, h1⟩
    · rw [h0] at h
      simp at h
    · rw [h1] at h
      simp only [List.mem_singleton] at h
      exact Or.inr ⟨path, h⟩
  · exact Or.inl (htail e h)

/-- When `parse_program_options` returns no `Options`, all it did was to
write to `std::cerr` and, at most, to parse the `--config-file` file. -/
theorem parse_none_trace (w : World) (cl : CommandLine)
    (h : (parse_program_options w cl).outcome = Outcome.returned none) :
    ∀ e, e ∈ (parse_program_options w cl).trace →
      (∃ text, e = Effect.cerr text) ∨ ∃ path, e = Effect.parse_config_file path := by
  rcases parse_program_options_cases w cl with ⟨_, hp⟩ | ⟨_, _, _, rc, hrc, ht⟩ |
      ⟨_, _, _, rc, hrc, ht⟩ | ⟨_, _, _, _, hsome⟩
  · rw [hp]
    intro e he
    simp only [List.mem_singleton] at he
    exact Or.inl ⟨_, he⟩
  · rw [ht]
    apply only_messages rc _ hrc
    intro e he
    simp only [List.mem_cons, List.mem_singleton, List.not_mem_nil, or_false] at he
    rcases he with he | he
    · exact ⟨_, he⟩
    · exact ⟨_, he⟩
  · rw [ht]
    apply only_messages rc _ hrc
    intro e he
    simp only [List.mem_singleton] at he
    exact ⟨_, he⟩
  · obtain ⟨options, ho, _⟩ := hsome none h
    simp at ho

/-- C14: `Weights_Share_Receiver` rejects bad options with exit code 1 and
no side effects.  `parse_program_options` returns no `Options` exactly when
help is requested, a required option has no value at `po::notify`, or
`my-id` is greater than 1; in each of those cases `main` returns exit code
1, and all the process did was to write to `std::cerr` and at most parse
the `--config-file` file: the `--file-names` file is not opened, no
directory or file is created, and the provider is never called.  An
`Options` value is returned only with `my_id` 0 or 1. -/
theorem bad_options_exit_one (w : World) (cl : CommandLine) :
    ((parse_program_options w cl).outcome = Outcome.returned none ↔ bad_options w cl) ∧
    ((parse_program_options w cl).outcome = Outcome.returned none →
      (main w cl).outcome = Outcome.returned 1 ∧
      (∀ e, e ∈ (main w cl).trace →
        (∃ text, e = Effect.cerr text) ∨ ∃ path, e = Effect.parse_config_file path) ∧
      (∀ path, Effect.open_read path ∉ (main w cl).trace) ∧
      (∀ path, Effect.create_directories path ∉ (main w cl).trace) ∧
      (∀ path content, Effect.write_file path content ∉ (main w cl).trace) ∧
      (∀ port_number, Effect.get_provider_mat_mul_data port_number ∉ (main w cl).trace)) ∧
    (∀ options, (parse_program_options w cl).outcome = Outcome.returned (some options) →
      options.my_id = 0 ∨ options.my_id = 1) := by
  refine ⟨⟨?_, ?_⟩, ?_, ?_⟩
  · intro h
    rcases parse_program_options_cases w cl with ⟨hh, _⟩ | ⟨_, hm, _⟩ | ⟨_, hid, _⟩ |
        ⟨_, _, _, _, hsome⟩
    · exact Or.inl hh
    · rcases hm with hm | hm | hm
      · exact Or.inr (Or.inl hm)
      · exact Or.inr (Or.inr (Or.inl hm))
      · exact Or.inr (Or.inr (Or.inr (Or.inl hm)))
    · exact Or.inr (Or.inr (Or.inr (Or.inr hid)))
    · obtain ⟨options, ho, _⟩ := hsome none h
      simp at ho
  · intro hbad
    rcases parse_program_options_cases w cl with ⟨_, hp⟩ | ⟨_, _, ho, _⟩ | ⟨_, _, ho, _⟩ |
        ⟨hh, ⟨id, hid, hle⟩, hfn, hcp, _⟩
    · rw [hp]
    · exact ho
    · exact ho
    · rcases hbad with hb | hb | hb | hb | ⟨id2, hid2, hgt⟩
      · rw [hh] at hb
        simp at hb
      · rw [hid] at hb
        simp at hb
      · exact absurd hb hfn
      · exact absurd hb hcp
      · rw [hid] at hid2
        simp only [Option.some.injEq] at hid2
        omega
  · intro h
    have hm := main_of_none w cl h
    have htrace := parse_none_trace w cl h
    rw [hm]
    refine ⟨rfl, htrace, ?_, ?_, ?_, ?_⟩
    · intro path hmem
      rcases htrace _ hmem with ⟨_, e⟩ | ⟨_, e⟩ <;> simp at e
    · intro path hmem
      rcases htrace _ hmem with ⟨_, e⟩ | ⟨_, e⟩ <;> simp at e
    · intro path content hmem
      rcases htrace _ hmem with ⟨_, e⟩ | ⟨_, e⟩ <;> simp at e
    · intro port_number hmem
      rcases htrace _ hmem with ⟨_, e⟩ | ⟨_, e⟩ <;> simp at e
  · intro options h
    rcases parse_program_options_cases w cl with ⟨_, hp⟩ | ⟨_, _, ho, _⟩ | ⟨_, _, ho, _⟩ |
        ⟨_, _, _, _, hsome⟩
    · rw [hp] at h
      simp at h
    · rw [ho] at h
      simp at h
    · rw [ho] at h
      simp at h
    · obtain ⟨o, ho, hle⟩ := hsome _ h
      simp only [Option.some.injEq] at ho
      rw [ho]
      omega

/-- Example of C14: `--my-id 2` with the other options of the example
command line; `main` returns 1 and never opens the `--file-names` file. -/
theorem bad_options_exit_one_witness :
    (main demoWorld { demoCommandLine with my_id := some 2 }).outcome = Outcome.returned 1 ∧
    ∀ path, Effect.open_read path ∉
      (main demoWorld { demoCommandLine with my_id := some 2 }).trace :=
  have h := (bad_options_exit_one demoWorld { demoCommandLine with my_id := some 2 }).2.1
    (by decide)
  ⟨h.1, h.2.2.1⟩

end WeightsShareReceiver

/-! ## Theorems: the bounds of the array and vector accesses of `retrieve_shares` -/

namespace WeightsShareReceiver

theorem bind_undefined {α β : Type} (t : List Effect) (f : α → Step β) :
    Step.bind ({ trace := t, outcome := Outcome.undefined_behaviour } : Step α) f =
      { trace := t, outcome := Outcome.undefined_behaviour } := rfl

theorem after_step_filepaths (w : World) (port_number : Nat) (options : Options) (i : Nat) :
    (after_step w port_number options i).filepaths = options.filepaths :=
  (stored_filepaths _ _ _).1

/-- A pass of the loop whose counter is inside `filepaths` returns. -/
theorem retrieve_step_inside (w : World) (port_number : Nat) (options : Options) (i : Nat)
    (hi : i < 4) (hlen : i < options.filepaths.length)
    (hdims : 2 ≤ (w.provider port_number i).dims.length) :
    (retrieve_step w port_number options i).outcome =
      Outcome.returned (after_step w port_number options i) ∧
    received (retrieve_step w port_number options i).trace = [port_number] := by
  have h := retrieve_step_after w port_number options i (options.filepaths.get ⟨i, hlen⟩) hi
    (by simp [List.getElem?_eq_getElem hlen]) hdims
  exact ⟨h.1, h.2.2⟩

/-- A pass of the loop whose counter is outside `filepaths` calls the
provider and then reads outside the vector. -/
theorem retrieve_step_outside (w : World) (port_number : Nat) (options : Options) (i : Nat)
    (hlen : options.filepaths.length ≤ i) :
    (retrieve_step w port_number options i).outcome = Outcome.undefined_behaviour ∧
    received (retrieve_step w port_number options i).trace = [port_number] := by
  have h : options.filepaths[i]? = none := List.getElem?_eq_none hlen
  simp [retrieve_step, h, received]

/-- How `retrieve_shares` ends, by the number of file paths. -/
theorem retrieve_shares_by_length (w : World) (port_number : Nat) (options : Options)
    (hdims : ∀ i, i < 4 → 2 ≤ (w.provider port_number i).dims.length) :
    (4 ≤ options.filepaths.length →
      (retrieve_shares w port_number options).outcome =
        Outcome.returned (after_step w port_number (after_step w port_number
          (after_step w port_number (after_step w port_number options 0) 1) 2) 3) ∧
      received (retrieve_shares w port_number options).trace = List.replicate 4 port_number) ∧
    (options.filepaths.length < 4 →
      (retrieve_shares w port_number options).outcome = Outcome.undefined_behaviour ∧
      received (retrieve_shares w port_number options).trace =
        List.replicate (options.filepaths.length + 1) port_number) := by
  have hp := after_step_filepaths w port_number
  simp only [retrieve_shares, List.foldl_cons, List.foldl_nil]
  rw [bind_mk]
  obtain h | h | h | h | h : options.filepaths.length = 0 ∨ options.filepaths.length = 1 ∨
      options.filepaths.length = 2 ∨ options.filepaths.length = 3 ∨
      4 ≤ options.filepaths.length := by omega
  · obtain ⟨b0, r0⟩ := retrieve_step_outside w port_number options 0 (by omega)
    rw [b0, bind_undefined, bind_undefined, bind_undefined]
    refine ⟨fun h4 => by omega, fun _ => ⟨rfl, ?_⟩⟩
    simp only [received_append, r0, h]
    rfl
  · obtain ⟨s0, r0⟩ := retrieve_step_inside w port_number options 0 (by omega) (by omega)
      (hdims 0 (by omega))
    obtain ⟨b1, r1⟩ := retrieve_step_outside w port_number
      (after_step w port_number options 0) 1 (by rw [hp]; omega)
    rw [s0, bind_mk, b1, bind_undefined, bind_undefined]
    refine ⟨fun h4 => by omega, fun _ => ⟨rfl, ?_⟩⟩
    simp only [received_append, r0, r1, h]
    rfl
  · obtain ⟨s0, r0⟩ := retrieve_step_inside w port_number options 0 (by omega) (by omega)
      (hdims 0 (by omega))
    obtain ⟨s1, r1⟩ := retrieve_step_inside w port_number
      (after_step w port_number options 0) 1 (by omega) (by rw [hp]; omega)
      (hdims 1 (by omega))
    obtain ⟨b2, r2⟩ := retrieve_step_outside w port_number
      (after_step w port_number (after_step w port_number options 0) 1) 2
      (by rw [hp, hp]; omega)
    rw [s0, bind_mk, s1, bind_mk, b2, bind_undefined]
    refine ⟨fun h4 => by omega, fun _ => ⟨rfl, ?_⟩⟩
    simp only [received_append, r0, r1, r2, h]
    rfl
  · obtain ⟨s0, r0⟩ := retrieve_step_inside w port_number options 0 (by omega) (by omega)
      (hdims 0 (by omega))
    obtain ⟨s1, r1⟩ := retrieve_step_inside w port_number
      (after_step w port_number options 0) 1 (by omega) (by rw [hp]; omega)
      (hdims 1 (by omega))
    obtain ⟨s2, r2⟩ := retrieve_step_inside w port_number
      (after_step w port_number (after_step w port_number options 0) 1) 2 (by omega)
      (by rw [hp, hp]; omega) (hdims 2 (by omega))
    obtain ⟨b3, r3⟩ := retrieve_step_outside w port_number
      (after_step w port_number
        (after_step w port_number (after_step w port_number options 0) 1) 2) 3
      (by rw [hp, hp, hp]; omega)
    rw [s0, bind_mk, s1, bind_mk, s2, bind_mk, b3]
    refine ⟨fun h4 => by omega, fun _ => ⟨rfl, ?_⟩⟩
    simp only [received_append, r0, r1, r2, r3, h]
    rfl
  · obtain ⟨s0, r0⟩ := retrieve_step_inside w port_number options 0 (by omega) (by omega)
      (hdims 0 (by omega))
    obtain ⟨s1, r1⟩ := retrieve_step_inside w port_number
      (after_step w port_number options 0) 1 (by omega) (by rw [hp]; omega)
      (hdims 1 (by omega))
    obtain ⟨s2, r2⟩ := retrieve_step_inside w port_number
      (after_step w port_number (after_step w port_number options 0) 1) 2 (by omega)
      (by rw [hp, hp]; omega) (hdims 2 (by omega))
    obtain ⟨s3, r3⟩ := retrieve_step_inside w port_number
      (after_step w port_number
        (after_step w port_number (after_step w port_number options 0) 1) 2) 3 (by omega)
      (by rw [hp, hp, hp]; omega) (hdims 3 (by omega))
    rw [s0, bind_mk, s1, bind_mk, s2, bind_mk, s3]
    refine ⟨fun _ => ⟨rfl, ?_⟩, fun h4 => by omega⟩
    simp only [received_append, r0, r1, r2, r3]
    rfl

theorem bind_outcome {α β : Type} (s : Step α) (f : α → Step β) :
    (s.bind f).outcome =
      match s.outcome with
      | Outcome.returned a => (f a).outcome
      | Outcome.aborted => Outcome.aborted
      | Outcome.undefined_behaviour => Outcome.undefined_behaviour := by
  unfold Step.bind
  cases s.outcome <;> rfl

theorem read_filenames_outcome (w : World) (options : Options)
    (lines : List (List String)) (last : List String)
    (hfile : w.files options.filenames = some (config_text lines ++ config_line last))
    (hids : ∀ ids, ids ∈ last :: lines →
      ∀ id, id ∈ ids → id ≠ "" ∧ ' ' ∉ id.data ∧ '\n' ∉ id.data) :
    (read_filenames w options).outcome =
      Outcome.returned { options with data := options.data ++ lines.flatten ++ last } := by
  simp only [read_filenames, hfile]
  rw [String.data_append, read_lines_config_text lines last _ _ hids]
  simp only [List.length_append]
  have := length_le_config_text lines
  omega

theorem generate_filepaths_outcome (options : Options) :
    (generate_filepaths options).outcome =
      Outcome.returned { options with
        filepaths := options.filepaths ++ options.data.map (fun n =>
          options.currentpath ++ "/server" ++ toString options.my_id ++ "/" ++ n) } := by
  simp only [generate_filepaths, filepaths_loop_eq, server_path]

/-- The outcome of `parse_program_options` on options that pass
`po::notify` with `my-id` 0 or 1 is the outcome of `read_filenames`,
`generate_filepaths` and `retrieve_shares` in sequence. -/
theorem parse_program_options_outcome (w : World) (cl : CommandLine) (my_id : Nat)
    (file_names current_path : String) (o1 o2 : Options)
    (hhelp : cl.help = false)
    (hid : (variables_map w cl).my_id = some my_id) (hle : my_id ≤ 1)
    (hfn : (variables_map w cl).file_names = some file_names)
    (hcp : (variables_map w cl).current_path = some current_path)
    (h1 : (read_filenames w
      (initial_options my_id file_names current_path (variables_map w cl))).outcome =
        Outcome.returned o1)
    (hm1 : o1.my_id = my_id)
    (h2 : (generate_filepaths o1).outcome = Outcome.returned o2)
    (hm2 : o2.my_id = my_id) :
    (parse_program_options w cl).outcome =
      match (retrieve_shares w (if my_id = 0 then 1234 else 1235) o2).outcome with
      | Outcome.returned options => Outcome.returned (some options)
      | Outcome.aborted => Outcome.aborted
      | Outcome.undefined_behaviour => Outcome.undefined_behaviour := by
  have hgt : ¬ (my_id > 1) := by omega
  simp only [parse_program_options, hhelp, hid, hfn, hcp, hgt, if_false, Bool.false_eq_true]
  rw [bind_outcome, bind_outcome, bind_outcome, bind_outcome]
  simp only [h1, hm1]
  have h2b : (if my_id = 0 then generate_filepaths o1
      else if my_id = 1 then generate_filepaths o1
      else ({ trace := [], outcome := Outcome.returned o1 } : Step Options)).outcome =
        Outcome.returned o2 := by
    have : my_id = 0 ∨ my_id = 1 := by omega
    rcases this with e | e <;> simp [e, h2]
  simp only [h2b, hm2]
  by_cases e : my_id = 0
  · simp only [e, if_true]
    cases (retrieve_shares w 1234 o2).outcome <;> rfl
  · simp only [e, if_false]
    cases (retrieve_shares w 1235 o2).outcome <;> rfl

/-- C22: the file-path accesses of `retrieve_shares` are in range only for
configs with at least four identifiers.  On a command line that passes the
option checks and names a readable config with `n` identifiers,
`read_filenames` and `generate_filepaths` leave exactly `n` entries in
`options.filepaths`; the accesses `filepaths[i]` for `i = 0..3` are all
inside the vector if and only if `n >= 4`, and for `n < 4` the index `n` is
outside it.  With a provider that sends at least two dimensions at each
call, `retrieve_shares` and with it `parse_program_options` return if and
only if `n >= 4`; for `n < 4` they reach the access outside the vector
right after the call number `n + 1` of the provider. -/
theorem filepaths_in_range (w : World) (cl : CommandLine) (my_id n : Nat)
    (file_names current_path : String) (lines : List (List String)) (last : List String)
    (hhelp : cl.help = false)
    (hid : (variables_map w cl).my_id = some my_id) (hle : my_id ≤ 1)
    (hfn : (variables_map w cl).file_names = some file_names)
    (hcp : (variables_map w cl).current_path = some current_path)
    (hfile : w.files file_names = some (config_text lines ++ config_line last))
    (hids : ∀ ids, ids ∈ last :: lines →
      ∀ id, id ∈ ids → id ≠ "" ∧ ' ' ∉ id.data ∧ '\n' ∉ id.data)
    (hn : (lines.flatten ++ last).length = n)
    (hdims : ∀ port_number i, i < 4 → 2 ≤ (w.provider port_number i).dims.length) :
    ∃ o1 o2 : Options,
      (read_filenames w
        (initial_options my_id file_names current_path (variables_map w cl))).outcome =
          Outcome.returned o1 ∧
      o1.data = lines.flatten ++ last ∧
      (generate_filepaths o1).outcome = Outcome.returned o2 ∧
      o2.filepaths.length = n ∧
      ((∀ i : Nat, i < 4 → (o2.filepaths[i]?).isSome = true) ↔ 4 ≤ n) ∧
      (n < 4 → o2.filepaths[n]? = none) ∧
      (∀ port_number,
        (4 ≤ n ↔ ∃ result,
          (retrieve_shares w port_number o2).outcome = Outcome.returned result) ∧
        (n < 4 ↔
          (retrieve_shares w port_number o2).outcome = Outcome.undefined_behaviour) ∧
        (n < 4 → received (retrieve_shares w port_number o2).trace =
          List.replicate (n + 1) port_number)) ∧
      (4 ≤ n ↔ ∃ options,
        (parse_program_options w cl).outcome = Outcome.returned (some options)) ∧
      (n < 4 ↔ (parse_program_options w cl).outcome = Outcome.undefined_behaviour) := by
  obtain ⟨o1, h1, hd1, hm1, hf1⟩ : ∃ o1 : Options,
      (read_filenames w
        (initial_options my_id file_names current_path (variables_map w cl))).outcome =
          Outcome.returned o1 ∧
      o1.data = lines.flatten ++ last ∧ o1.my_id = my_id ∧ o1.filepaths = [] :=
    ⟨_, read_filenames_outcome w
      (initial_options my_id file_names current_path (variables_map w cl)) lines last hfile hids,
      by simp [initial_options], rfl, rfl⟩
  obtain ⟨o2, h2, hm2, hlen⟩ : ∃ o2 : Options,
      (generate_filepaths o1).outcome = Outcome.returned o2 ∧ o2.my_id = my_id ∧
      o2.filepaths.length = n :=
    ⟨_, generate_filepaths_outcome o1, hm1, by
      simp only [hf1, hd1, List.nil_append, List.length_map]
      exact hn⟩
  have hshares : ∀ port_number : Nat,
      (4 ≤ n ↔ ∃ result,
          (retrieve_shares w port_number o2).outcome = Outcome.returned result) ∧
      (n < 4 ↔
          (retrieve_shares w port_number o2).outcome = Outcome.undefined_behaviour) ∧
      (n < 4 → received (retrieve_shares w port_number o2).trace =
          List.replicate (n + 1) port_number) := by
    intro port_number
    obtain ⟨hge, hlt⟩ := retrieve_shares_by_length w port_number o2 (hdims port_number)
    rw [hlen] at hge hlt
    refine ⟨⟨fun h => ⟨_, (hge h).1⟩, fun ⟨result, h⟩ => ?_⟩, ⟨fun h => (hlt h).1, fun h => ?_⟩,
      fun h => (hlt h).2⟩
    · by_contra hc
      rw [(hlt (by omega)).1] at h
      exact Outcome.noConfusion h
    · by_contra hc
      rw [(hge (by omega)).1] at h
      exact Outcome.noConfusion h
  have hparse := parse_program_options_outcome w cl my_id file_names current_path o1 o2 hhelp
    hid hle hfn hcp h1 hm1 h2 hm2
  obtain ⟨a, b, _⟩ := hshares (if my_id = 0 then 1234 else 1235)
  refine ⟨o1, o2, h1, hd1, h2, hlen, ?_, ?_, hshares, ?_, ?_⟩
  · constructor
    · intro h
      by_contra hc
      have h3 := h n (by omega)
      rw [List.getElem?_eq_none (le_of_eq hlen)] at h3
      exact Bool.noConfusion h3
    · intro h i hi
      rw [List.getElem?_eq_getElem (by rw [hlen]; omega)]
      rfl
  · intro _
    exact List.getElem?_eq_none (le_of_eq hlen)
  · rw [hparse]
    constructor
    · intro h
      obtain ⟨result, hr⟩ := a.mp h
      exact ⟨result, by rw [hr]⟩
    · intro ⟨options, h⟩
      by_contra hc
      rw [b.mp (by omega)] at h
      exact Outcome.noConfusion h
  · rw [hparse]
    constructor
    · intro h
      rw [b.mp h]
    · intro h
      by_contra hc
      obtain ⟨result, hr⟩ := a.mp (by omega)
      rw [hr] at h
      exact Outcome.noConfusion h

/-- Witness of C22: on the config with the three identifiers `W1`, `B1`,
`W2` the tool reads outside `filepaths` after the fourth call of the
provider. -/
theorem filepaths_in_range_witness :
    (parse_program_options shortWorld demoCommandLine).outcome =
        Outcome.undefined_behaviour ∧
    ¬ ∃ options, (parse_program_options shortWorld demoCommandLine).outcome =
        Outcome.returned (some options) := by
  obtain ⟨o1, o2, _, _, _, _, _, _, _, h8, h9⟩ :=
    filepaths_in_range shortWorld demoCommandLine 0 3 "/tmp/file_config_weights_1.txt" "/tmp"
      [["W1"], ["B1"], ["W2"]] [] (by decide) (by decide) (by decide) (by decide) (by decide)
      (by decide) (by decide) (by decide)
      (fun port_number i hi => by
        show 2 ≤ (demoProvider port_number i).dims.length
        interval_cases i <;> exact Nat.le_refl 2)
  exact ⟨h9.mp (by decide), fun h => absurd (h8.mpr h) (by decide)⟩

/-- What the branch for biases prints and writes: for the loop counter 3
the logged column count is the one of `biases[0]`, for the loop counter 1 it
is the one just received. -/
theorem bias_branch_trace (temp : String) (pair2 : Received) (options : Options)
    (d0 d1 : Int) (rest : List Int) (hdims : pair2.dims = d0 :: d1 :: rest) :
    (bias_branch temp pair2 3 options).trace =
      [Effect.cout "Bias \n",
       Effect.cout ("Size:" ++ toString pair2.shares.length ++ "rows:" ++ toString d0 ++
        "columns:" ++ toString options.biases.1.col ++ "\n"),
       Effect.write_file temp (file_of_lines (share_file_lines d0 d1 pair2.shares))] ∧
    (bias_branch temp pair2 1 options).trace =
      [Effect.cout "Bias \n",
       Effect.cout ("Size:" ++ toString pair2.shares.length ++ "rows:" ++ toString d0 ++
        "columns:" ++ toString d1 ++ "\n"),
       Effect.write_file temp (file_of_lines (share_file_lines d0 d1 pair2.shares))] := by
  obtain ⟨t1, t2, t3, t4, t5, t6, t7, t8⟩ := tdiv_values
  constructor <;>
    simp [bias_branch, at2, set2, hdims, shares_loop_eq, t1, t2, t3, t4, header_text]

/-- Either branch returns for a loop counter below 4 when the received item
has two dimensions: no access to `weights` or `biases` leaves the array. -/
theorem branches_return (temp : String) (pair2 : Received) (options : Options) (i : Nat)
    (hi : i < 4) (hdims : 2 ≤ pair2.dims.length) :
    ∃ result, (if Int.tmod ((i : Int) + 2) 2 = 0 then weights_branch temp pair2 i options
      else bias_branch temp pair2 i options).outcome = Outcome.returned result := by
  obtain ⟨t1, t2, t3, t4, t5, t6, t7, t8⟩ := tdiv_values
  obtain ⟨d0, d1, rest, hd⟩ : ∃ d0 d1 rest, pair2.dims = d0 :: d1 :: rest :=
    ⟨_, _, _, dims_shape pair2.dims hdims⟩
  interval_cases i <;>
    simp [weights_branch, bias_branch, at2, set2, hd, t1, t2, t3, t4, t5, t6, t7, t8]

/-- The pass for the loop counter 3 logs the column count of `biases[0]`. -/
theorem retrieve_step_three_logs (w : World) (port_number : Nat) (options : Options)
    (temp : String) (d0 d1 : Int) (rest : List Int)
    (hpath : options.filepaths[3]? = some temp)
    (hdims : (w.provider port_number 3).dims = d0 :: d1 :: rest) :
    Effect.cout ("Size:" ++ toString (w.provider port_number 3).shares.length ++ "rows:" ++
      toString d0 ++ "columns:" ++ toString options.biases.1.col ++ "\n") ∈
        (retrieve_step w port_number options 3).trace := by
  obtain ⟨t1, t2, t3, t4, t5, t6, t7, t8⟩ := tdiv_values
  have hb := (bias_branch_trace temp (w.provider port_number 3) options d0 d1 rest hdims).1
  simp [retrieve_step, hpath, Step.bind, t8, hb]

/-- In a run of `retrieve_shares` the column count logged for the second
bias is the one received for the first bias. -/
theorem retrieve_shares_logs (w : World) (port_number : Nat) (options : Options)
    (hlen : 4 ≤ options.filepaths.length)
    (hdims : ∀ i, i < 4 → 2 ≤ (w.provider port_number i).dims.length) :
    Effect.cout ("Size:" ++ toString (w.provider port_number 3).shares.length ++ "rows:" ++
      toString ((w.provider port_number 3).dims.getD 0 0) ++ "columns:" ++
      toString ((w.provider port_number 1).dims.getD 1 0) ++ "\n") ∈
        (retrieve_shares w port_number options).trace := by
  have hp := after_step_filepaths w port_number
  obtain ⟨s0, _⟩ := retrieve_step_inside w port_number options 0 (by omega) (by omega)
    (hdims 0 (by omega))
  obtain ⟨s1, _⟩ := retrieve_step_inside w port_number
    (after_step w port_number options 0) 1 (by omega) (by rw [hp]; omega)
    (hdims 1 (by omega))
  obtain ⟨s2, _⟩ := retrieve_step_inside w port_number
    (after_step w port_number (after_step w port_number options 0) 1) 2 (by omega)
    (by rw [hp, hp]; omega) (hdims 2 (by omega))
  have hl : 3 < (after_step w port_number
      (after_step w port_number (after_step w port_number options 0) 1) 2).filepaths.length := by
    rw [hp, hp, hp]; omega
  have h3 := retrieve_step_three_logs w port_number
    (after_step w port_number (after_step w port_number (after_step w port_number options 0) 1) 2)
    _ _ _ _ (List.getElem?_eq_getElem hl) (dims_shape _ (hdims 3 (by omega)))
  have hcol : (after_step w port_number
      (after_step w port_number (after_step w port_number options 0) 1) 2).biases.1.col =
        (w.provider port_number 1).dims.getD 1 0 := by
    simp [after_step, stored, slot, filled]
  rw [hcol] at h3
  simp only [retrieve_shares, List.foldl_cons, List.foldl_nil]
  rw [bind_mk, s0, bind_mk, s1, bind_mk, s2, bind_mk]
  exact List.mem_append_right _ h3

/-- C21: every index into the two-element arrays `weights[2]` and
`biases[2]` computed in `retrieve_shares` is 0 or 1.  For a loop counter
`i` below 4 the branch for weights is taken exactly for `i` in `{0, 2}`; the
index `i / 2` for those, and the indices `(i - 1) / 2` and `(i - 2) / 2` for
`i` in `{1, 3}`, taken with the division of C++ that truncates toward zero,
are 0 or 1, so each access is inside the array and either branch returns.
The index `(i - 2) / 2` is 0 for both `i = 1` and `i = 3`: the column count
logged for the second bias is read from `biases[0]`, and in a run of
`retrieve_shares` it is the column count received for the first bias. -/
theorem array_indices_in_range (i : Nat) (hi : i < 4) :
    (Int.tmod ((i : Int) + 2) 2 = 0 ↔ i = 0 ∨ i = 2) ∧
    (i = 0 ∨ i = 2 →
      (Int.tdiv (i : Int) 2 = 0 ∨ Int.tdiv (i : Int) 2 = 1) ∧
      ∀ (array : Matrix × Matrix) (m : Matrix),
        (at2 array (Int.tdiv (i : Int) 2)).isSome = true ∧
        (set2 array (Int.tdiv (i : Int) 2) m).isSome = true) ∧
    (i = 1 ∨ i = 3 →
      (Int.tdiv ((i : Int) - 1) 2 = 0 ∨ Int.tdiv ((i : Int) - 1) 2 = 1) ∧
      Int.tdiv ((i : Int) - 2) 2 = 0 ∧
      ∀ (array : Matrix × Matrix) (m : Matrix),
        (at2 array (Int.tdiv ((i : Int) - 1) 2)).isSome = true ∧
        (set2 array (Int.tdiv ((i : Int) - 1) 2) m).isSome = true ∧
        at2 array (Int.tdiv ((i : Int) - 2) 2) = some array.1) ∧
    (∀ (temp : String) (pair2 : Received) (options : Options), 2 ≤ pair2.dims.length →
      ∃ result, (if Int.tmod ((i : Int) + 2) 2 = 0 then weights_branch temp pair2 i options
        else bias_branch temp pair2 i options).outcome = Outcome.returned result) ∧
    (∀ (temp : String) (pair2 : Received) (options : Options) (d0 d1 : Int) (rest : List Int),
      pair2.dims = d0 :: d1 :: rest →
      (bias_branch temp pair2 3 options).trace =
        [Effect.cout "Bias \n",
         Effect.cout ("Size:" ++ toString pair2.shares.length ++ "rows:" ++ toString d0 ++
          "columns:" ++ toString options.biases.1.col ++ "\n"),
         Effect.write_file temp (file_of_lines (share_file_lines d0 d1 pair2.shares))]) ∧
    (∀ (w : World) (port_number : Nat) (options : Options),
      4 ≤ options.filepaths.length →
      (∀ j, j < 4 → 2 ≤ (w.provider port_number j).dims.length) →
      Effect.cout ("Size:" ++ toString (w.provider port_number 3).shares.length ++ "rows:" ++
        toString ((w.provider port_number 3).dims.getD 0 0) ++ "columns:" ++
        toString ((w.provider port_number 1).dims.getD 1 0) ++ "\n") ∈
          (retrieve_shares w port_number options).trace) := by
  obtain ⟨t1, t2, t3, t4, t5, t6, t7, t8⟩ := tdiv_values
  refine ⟨?_, ?_, ?_, fun temp pair2 options h => branches_return temp pair2 options i hi h,
    fun temp pair2 options d0 d1 rest h => (bias_branch_trace temp pair2 options d0 d1 rest h).1,
    fun w port_number options hlen hdims => retrieve_shares_logs w port_number options hlen hdims⟩
  · interval_cases i <;> simp [t5, t6, t7, t8]
  · intro h
    rcases h with rfl | rfl <;> simp [at2, set2, t1, t2, t3]
  · intro h
    rcases h with rfl | rfl <;> simp [at2, set2, t1, t2, t3, t4]

/-- Witness of C21: the loop counter 3, and a second bias of 9 columns
logged with the 7 columns of the first. -/
theorem array_indices_in_range_witness :
    Int.tdiv (((3 : Nat) : Int) - 2) 2 = 0 ∧
    (bias_branch "/tmp/server0/B2" secondBias 3 loggedOptions).trace =
      [Effect.cout "Bias \n", Effect.cout "Size:1rows:1columns:7\n",
       Effect.write_file "/tmp/server0/B2" "1 9\n41 9\n"] :=
  have h := array_indices_in_range 3 (by decide)
  ⟨(h.2.2.1 (Or.inr rfl)).2.1,
    (h.2.2.2.2.1 "/tmp/server0/B2" secondBias loggedOptions 1 9 [] rfl).trans (by decide)⟩

end WeightsShareReceiver
